import Mathlib

/-!
Spindle: a verification development.

Shallow embedding of parts of the Spindle static site generator
(`src/build.go`, `src/filesystem.go`, `src/source/command_build.go`,
`src/source/parser.go`, `src/source/error_handler.go`) and theorems about them.

Conventions of the embedding.

* Go strings are modelled by `String`; `len` counts characters and indexing is by
  character, which agrees with Go's byte view on ASCII text.
* A Go run-time failure (explicit `panic`, nil dereference, index or slice out of
  range) is an explicit result value, never an exception of the host language.
* Loops whose termination is not evident are driven by a fuel counter; running out
  of fuel is a result of its own, distinct from a run-time failure.
* Declarations that the sources use but do not contain (constants, tables, library
  routines) are parameters collected in environment records.
-/

namespace Spindle

/-! ## Part 1. Definitions -/

/-! ### Text helpers (Go `strings`, `path/filepath`) -/

/-- Go `strings.HasSuffix`. -/
def has_suffix (s suffix : String) : Bool :=
  suffix.data.reverse.isPrefixOf s.data.reverse

/-- Worker of `strings.ReplaceAll` for a non-empty `old`: left to right, without
overlap; `skip` counts the characters of a match that are still to be dropped. -/
def replace_all_aux (old new : List Char) : Nat → List Char → List Char
  | _, [] => []
  | skip + 1, _ :: cs => replace_all_aux old new skip cs
  | 0, c :: cs =>
    if old.isPrefixOf (c :: cs) then new ++ replace_all_aux old new (old.length - 1) cs
    else c :: replace_all_aux old new 0 cs

/-- Go `strings.ReplaceAll(s, old, new)` for a non-empty `old`. -/
def replace_all (s old new : String) : String :=
  ⟨replace_all_aux old.data new.data 0 s.data⟩

/-- Worker of `filepath.Ext`: walks the path from its end; stops on a separator,
returns the suffix from the first dot met. -/
def ext_aux : List Char → List Char → List Char
  | [], _ => []
  | c :: rest, acc =>
    if c = '/' then [] else if c = '.' then '.' :: acc else ext_aux rest (c :: acc)

/-- Go `filepath.Ext` (Unix): the suffix beginning at the final dot of the final
element of the path, empty when there is none. -/
def filepath_Ext (path : String) : String :=
  ⟨ext_aux path.data.reverse []⟩

/-- Go slice expression `s[n:]`; `none` is the slice-bounds run-time failure. -/
def slice_from (s : String) (n : Nat) : Option String :=
  if n ≤ s.length then some ⟨s.data.drop n⟩ else none

/-- Go slice expression `s[:n]`; `none` is the slice-bounds run-time failure. -/
def slice_to (s : String) (n : Nat) : Option String :=
  if n ≤ s.length then some ⟨s.data.take n⟩ else none

/-! ### Sitemap (`src/build.go`) -/

/-- File kinds named by `src/build.go`; the declaration itself is not among the
sources, `STATIC` stands for every kind the file does not name. -/
inductive build_file_type where
  | MARKUP | STATIC_HTML | STATIC_JS | STATIC_CSS | IMAGE_JPG | IMAGE_PNG | STATIC
  deriving DecidableEq, Repr

/-- The `file` record of `src/build.go`. -/
structure file where
  file_type : build_file_type
  source : String
  output : String
  deriving DecidableEq, Repr

/-- What `sitemap` uses and the sources do not contain: the two text constants, the
configured domain, and the library routines behind `make_url_from_path` and
`join_url`. -/
structure Sitemap_Env where
  /-- Constant `sitemap_template`. -/
  sitemap_template : String
  /-- Constant `sitemap_entry`, a format text with one `%s`. -/
  sitemap_entry : String
  /-- Value of `config.vars["domain"]`. -/
  domain : String
  /-- The composition `filepath.ToSlash(filepath.Clean(·))`. -/
  clean : String → String
  /-- The composition `base.ResolveReference(u).String()` of `join_url`, `none` when
  one of the two `url.Parse` calls fails (the function then panics). -/
  resolve : String → String → Option String

/-- `sprint` of `src/text.go` called with exactly one substitution. -/
def sprint (source v : String) : String :=
  replace_all source "%s" v

/-- `make_url_from_path` of `src/build.go`. -/
def make_url_from_path (env : Sitemap_Env) (input : String) : String :=
  let input : String := ⟨input.data.take (input.length - (filepath_Ext input).length)⟩
  let input : String :=
    if has_suffix input "index" then ⟨input.data.take (input.length - 5)⟩ else input
  env.clean input

/-- `join_url` of `src/text.go`; `none` is its `panic(err)`. -/
def join_url (env : Sitemap_Env) (a b : String) : Option String :=
  env.resolve a b

/-- One turn of the first loop of `sitemap`: the strings appended to `ordered` for one
file (none or one), `none` when the turn fails at run time. -/
def sitemap_item (env : Sitemap_Env) (f : file) : Option (List String) :=
  match f.file_type with
  | .MARKUP | .STATIC_HTML =>
    match slice_from f.source 6 with
    | none => none
    | some rel =>
      match join_url env env.domain (make_url_from_path env rel) with
      | none => none
      | some url => some [sprint env.sitemap_entry url]
  | _ => some []

/-- The first loop of `sitemap`: everything appended to `ordered`. -/
def sitemap_appended (env : Sitemap_Env) : List file → Option (List String)
  | [] => some []
  | f :: fs =>
    match sitemap_item env f with
    | none => none
    | some xs =>
      match sitemap_appended env fs with
      | none => none
      | some ys => some (xs ++ ys)

/-- Go `sort.SliceStable(ordered, ordered[i] < ordered[j])`: a stable sort. -/
def sort_stable (ordered : List String) : List String :=
  ordered.insertionSort (fun a b => a ≤ b)

/-- `sitemap` of `src/build.go`: the text handed to `make_file` for `sitemap.xml`,
`none` when the function fails at run time. `make([]string, len(files) + 24)` gives
a slice that already holds `len(files) + 24` empty strings before the appends. -/
def sitemap (env : Sitemap_Env) (files : List file) : Option String :=
  match sitemap_appended env files with
  | none => none
  | some appended =>
    let ordered := List.replicate (files.length + 24) "" ++ appended
    let ordered := sort_stable ordered
    some (env.sitemap_template ++ String.join ordered ++ "</urlset>")

/-- The sitemap entries of the MARKUP and HTML files, in file order (specification
side, defined without the pre-allocated slice). -/
def sitemap_urls (env : Sitemap_Env) (files : List file) : List String :=
  (files.filterMap (fun f => sitemap_item env f)).flatten

/-- An environment for concrete evaluations of `sitemap`. -/
def demo_sitemap_env : Sitemap_Env where
  sitemap_template := "<urlset>"
  sitemap_entry := "<url><loc>%s</loc></url>"
  domain := "https://example.com"
  clean := fun s => s
  resolve := fun a b => some (a ++ "/" ++ b)

/-- Two files for concrete evaluations of `sitemap`. -/
def demo_files : List file :=
  [⟨.MARKUP, "source/b.x", "public/b.html"⟩, ⟨.MARKUP, "source/a.x", "public/a.html"⟩]

/-! ### Tokens and syntax trees (`src/source/parser.go`) -/

/-- The values of `AST_Type` that `src/source/parser.go` names, token kinds first and
node kinds after them. The declaration is not among the sources; `NULL` is taken to
be the zero value, as the initialisations `the_type := NULL` suggest. `TOKEN`, `BLOCK`,
`SCRIPT` and `CONTROL_FOR` are not named by the parser; they stand for what `type_check`
reports for the node kinds without an `ast_type` field. The marker `is_non_word` is not
a constructor: the test `t > is_non_word` is a parameter of the embedding
(`Parser_Env.gt_is_non_word`). -/
inductive AST_Type where
  | NULL
  | WHITESPACE | NEWLINE | WORD | IDENT | NUMBER
  | COLON | EQUALS | PERCENT
  | BRACE_OPEN | BRACE_CLOSE | BRACKET_OPEN | BRACKET_CLOSE | ANGLE_OPEN | ANGLE_CLOSE
  | TILDE | AMPERSAND | MULTIPLY | PIPE | BANG | PLUS | FORWARD_SLASH | DOLLAR
  | ESCAPE | STOP | NON_WORD | EOF
  | NORMAL | RAW | BLANK
  | TOKEN | BLOCK | SCRIPT
  | DECL | DECL_TOKEN | DECL_BLOCK
  | VAR | VAR_ANON | VAR_ENUM
  | RES_FINDER
  | CONTROL_IF | CONTROL_FOR
  | TEMPLATE | PARTIAL | UNSET | IMPORT
  | OP_NOT | OP_AND | OP_OR
  deriving DecidableEq, Repr

/-- The method `AST_Type.is`: membership in the listed kinds. -/
def AST_Type.is (t : AST_Type) (kinds : List AST_Type) : Bool :=
  kinds.contains t

/-- Source position: file path, start and end offset, line. -/
structure position where
  file_path : String
  start : Nat
  end_ : Nat
  line : Nat
  deriving DecidableEq, Repr

/-- Zero value of `position`. -/
def position.zero : position := ⟨"", 0, 0, 0⟩

/-- A token of the lexer. -/
structure Lexer_Token where
  ast_type : AST_Type
  field : String
  position : position
  deriving DecidableEq, Repr

/-- Variable modifiers returned by `check_modifier_type`; `NONE` is the zero value. -/
inductive Modifier where
  | NONE | SLUG | UNIQUE_SLUG | UPPER | LOWER | TITLE
  deriving DecidableEq, Repr

/-- Path types returned by `check_path_type`; `NO_PATH_TYPE` is the zero value. -/
inductive Path_Type where
  | NO_PATH_TYPE | ABSOLUTE | RELATIVE | ROOTED
  deriving DecidableEq, Repr

/-- Kinds of `%{...}` expression returned by `check_exec_type`; `_NO_EXEC` is the zero
value. -/
inductive Exec_Type where
  | _NO_EXEC | _LOCATOR | _DATE
  deriving DecidableEq, Repr

/-- File kinds of `src/filesystem.go`. -/
inductive file_type where
  | DIRECTORY | ROOT
  | IMG_JPG | IMG_PNG | IMG_TIF | IMG_WEB
  | MARKUP | MARKDOWN | HTML
  | STATIC | JAVASCRIPT | SCSS | CSS
  deriving DecidableEq, Repr

/-- Numeric value of a `file_type` in the `iota` block of `src/filesystem.go`, which
also holds the markers `is_image` = 2, `end_image` = 7, `is_page` = 8, `is_static` = 11,
`end_page` = 13 and `end_static` = 18. -/
def file_type.rank : file_type → Nat
  | .DIRECTORY => 0 | .ROOT => 1
  | .IMG_JPG => 3 | .IMG_PNG => 4 | .IMG_TIF => 5 | .IMG_WEB => 6
  | .MARKUP => 9 | .MARKDOWN => 10 | .HTML => 12
  | .STATIC => 14 | .JAVASCRIPT => 15 | .SCSS => 16 | .CSS => 17

/-- Marker `is_image` of the `file_type` block. -/
def is_image : Nat := 2

/-- Marker `is_page` of the `file_type` block. -/
def is_page : Nat := 8

/-- Marker `end_page` of the `file_type` block. -/
def end_page : Nat := 13

/-- Image settings of a `%{...}` expression. -/
structure Image_Settings where
  quality : Int
  max_size : Nat
  file_type : file_type
  deriving DecidableEq, Repr

/-- The node `AST_Variable`. -/
structure AST_Variable where
  ast_type : AST_Type
  position : position
  field : Nat
  taxonomy : Nat
  subname : Nat
  modifier : Modifier
  deriving DecidableEq, Repr

/-- The nodes behind the interface `AST_Data`, one constructor per struct type:
`AST_Base`, `AST_Token`, `AST_Script`, `AST_Builtin`, `AST_If`, `AST_For`, `AST_Block`,
`AST_Declare`, `AST_Exec`, `AST_Variable`. The struct declarations are not among the
sources; the fields are those the parser assigns. -/
inductive AST_Data where
  | Base (ast_type : AST_Type) (position : position) (field : String)
      (children : List AST_Data)
  | Token (position : position) (decl_hash : Nat) (orig_field : String)
      (children : List AST_Data)
  | Script (position : position) (hash_name : Nat) (children : List AST_Data)
  | Builtin (ast_type : AST_Type) (position : position) (hash_name : Nat)
      (raw_name : String) (children : List AST_Data)
  | If (position : position) (is_else : Bool) (condition_list : List AST_Data)
      (children : List AST_Data)
  | For (position : position) (iterator_source : AST_Data) (children : List AST_Data)
  | Block (position : position) (decl_hash : Nat) (children : List AST_Data)
  | Declare (ast_type : AST_Type) (position : position) (field taxonomy subname : Nat)
      (immediate is_soft : Bool) (children : List AST_Data)
  | Exec (position : position) (exec_type : Exec_Type) (path_type : Path_Type)
      (modifier : Modifier) (image_settings : Option Image_Settings)
      (children : List AST_Data)
  | Variable (v : AST_Variable)
  deriving Repr

mutual
/-- Decision procedure for equality of nodes. -/
def AST_Data.decEq : (a b : AST_Data) → Decidable (a = b)
  | .Base x0 x1 x2 x3, .Base y0 y1 y2 y3 =>
    if hp : x0 = y0 ∧ x1 = y1 ∧ x2 = y2 then
      match AST_Data.decEqList x3 y3 with
      | isFalse h3 => isFalse (by intro h; cases h; exact h3 rfl)
      | isTrue h3 =>
        isTrue (by obtain ⟨e0, e1, e2⟩ := hp; rw [e0, e1, e2]; rw [h3])
    else isFalse (by intro h; cases h; exact hp ⟨rfl, rfl, rfl⟩)
  | .Token x0 x1 x2 x3, .Token y0 y1 y2 y3 =>
    if hp : x0 = y0 ∧ x1 = y1 ∧ x2 = y2 then
      match AST_Data.decEqList x3 y3 with
      | isFalse h3 => isFalse (by intro h; cases h; exact h3 rfl)
      | isTrue h3 =>
        isTrue (by obtain ⟨e0, e1, e2⟩ := hp; rw [e0, e1, e2]; rw [h3])
    else isFalse (by intro h; cases h; exact hp ⟨rfl, rfl, rfl⟩)
  | .Script x0 x1 x2, .Script y0 y1 y2 =>
    if hp : x0 = y0 ∧ x1 = y1 then
      match AST_Data.decEqList x2 y2 with
      | isFalse h2 => isFalse (by intro h; cases h; exact h2 rfl)
      | isTrue h2 =>
        isTrue (by obtain ⟨e0, e1⟩ := hp; rw [e0, e1]; rw [h2])
    else isFalse (by intro h; cases h; exact hp ⟨rfl, rfl⟩)
  | .Builtin x0 x1 x2 x3 x4, .Builtin y0 y1 y2 y3 y4 =>
    if hp : x0 = y0 ∧ x1 = y1 ∧ x2 = y2 ∧ x3 = y3 then
      match AST_Data.decEqList x4 y4 with
      | isFalse h4 => isFalse (by intro h; cases h; exact h4 rfl)
      | isTrue h4 =>
        isTrue (by obtain ⟨e0, e1, e2, e3⟩ := hp; rw [e0, e1, e2, e3]; rw [h4])
    else isFalse (by intro h; cases h; exact hp ⟨rfl, rfl, rfl, rfl⟩)
  | .If x0 x1 x2 x3, .If y0 y1 y2 y3 =>
    if hp : x0 = y0 ∧ x1 = y1 then
      match AST_Data.decEqList x2 y2 with
      | isFalse h2 => isFalse (by intro h; cases h; exact h2 rfl)
      | isTrue h2 =>
        match AST_Data.decEqList x3 y3 with
        | isFalse h3 => isFalse (by intro h; cases h; exact h3 rfl)
        | isTrue h3 =>
          isTrue (by obtain ⟨e0, e1⟩ := hp; rw [e0, e1]; rw [h2, h3])
    else isFalse (by intro h; cases h; exact hp ⟨rfl, rfl⟩)
  | .For x0 x1 x2, .For y0 y1 y2 =>
    if hp : x0 = y0 then
      match AST_Data.decEq x1 y1 with
      | isFalse h1 => isFalse (by intro h; cases h; exact h1 rfl)
      | isTrue h1 =>
        match AST_Data.decEqList x2 y2 with
        | isFalse h2 => isFalse (by intro h; cases h; exact h2 rfl)
        | isTrue h2 =>
          isTrue (by rw [hp]; rw [h1, h2])
    else isFalse (by intro h; cases h; exact hp rfl)
  | .Block x0 x1 x2, .Block y0 y1 y2 =>
    if hp : x0 = y0 ∧ x1 = y1 then
      match AST_Data.decEqList x2 y2 with
      | isFalse h2 => isFalse (by intro h; cases h; exact h2 rfl)
      | isTrue h2 =>
        isTrue (by obtain ⟨e0, e1⟩ := hp; rw [e0, e1]; rw [h2])
    else isFalse (by intro h; cases h; exact hp ⟨rfl, rfl⟩)
  | .Declare x0 x1 x2 x3 x4 x5 x6 x7, .Declare y0 y1 y2 y3 y4 y5 y6 y7 =>
    if hp : x0 = y0 ∧ x1 = y1 ∧ x2 = y2 ∧ x3 = y3 ∧ x4 = y4 ∧ x5 = y5 ∧ x6 = y6 then
      match AST_Data.decEqList x7 y7 with
      | isFalse h7 => isFalse (by intro h; cases h; exact h7 rfl)
      | isTrue h7 =>
        isTrue (by obtain ⟨e0, e1, e2, e3, e4, e5, e6⟩ := hp; rw [e0, e1, e2, e3, e4, e5, e6]; rw [h7])
    else isFalse (by intro h; cases h; exact hp ⟨rfl, rfl, rfl, rfl, rfl, rfl, rfl⟩)
  | .Exec x0 x1 x2 x3 x4 x5, .Exec y0 y1 y2 y3 y4 y5 =>
    if hp : x0 = y0 ∧ x1 = y1 ∧ x2 = y2 ∧ x3 = y3 ∧ x4 = y4 then
      match AST_Data.decEqList x5 y5 with
      | isFalse h5 => isFalse (by intro h; cases h; exact h5 rfl)
      | isTrue h5 =>
        isTrue (by obtain ⟨e0, e1, e2, e3, e4⟩ := hp; rw [e0, e1, e2, e3, e4]; rw [h5])
    else isFalse (by intro h; cases h; exact hp ⟨rfl, rfl, rfl, rfl, rfl⟩)
  | .Variable x0, .Variable y0 =>
    if hp : x0 = y0 then
      isTrue (by rw [hp])
    else isFalse (by intro h; cases h; exact hp rfl)
  | .Base .., .Token .. => isFalse (by intro h; cases h)
  | .Base .., .Script .. => isFalse (by intro h; cases h)
  | .Base .., .Builtin .. => isFalse (by intro h; cases h)
  | .Base .., .If .. => isFalse (by intro h; cases h)
  | .Base .., .For .. => isFalse (by intro h; cases h)
  | .Base .., .Block .. => isFalse (by intro h; cases h)
  | .Base .., .Declare .. => isFalse (by intro h; cases h)
  | .Base .., .Exec .. => isFalse (by intro h; cases h)
  | .Base .., .Variable .. => isFalse (by intro h; cases h)
  | .Token .., .Base .. => isFalse (by intro h; cases h)
  | .Token .., .Script .. => isFalse (by intro h; cases h)
  | .Token .., .Builtin .. => isFalse (by intro h; cases h)
  | .Token .., .If .. => isFalse (by intro h; cases h)
  | .Token .., .For .. => isFalse (by intro h; cases h)
  | .Token .., .Block .. => isFalse (by intro h; cases h)
  | .Token .., .Declare .. => isFalse (by intro h; cases h)
  | .Token .., .Exec .. => isFalse (by intro h; cases h)
  | .Token .., .Variable .. => isFalse (by intro h; cases h)
  | .Script .., .Base .. => isFalse (by intro h; cases h)
  | .Script .., .Token .. => isFalse (by intro h; cases h)
  | .Script .., .Builtin .. => isFalse (by intro h; cases h)
  | .Script .., .If .. => isFalse (by intro h; cases h)
  | .Script .., .For .. => isFalse (by intro h; cases h)
  | .Script .., .Block .. => isFalse (by intro h; cases h)
  | .Script .., .Declare .. => isFalse (by intro h; cases h)
  | .Script .., .Exec .. => isFalse (by intro h; cases h)
  | .Script .., .Variable .. => isFalse (by intro h; cases h)
  | .Builtin .., .Base .. => isFalse (by intro h; cases h)
  | .Builtin .., .Token .. => isFalse (by intro h; cases h)
  | .Builtin .., .Script .. => isFalse (by intro h; cases h)
  | .Builtin .., .If .. => isFalse (by intro h; cases h)
  | .Builtin .., .For .. => isFalse (by intro h; cases h)
  | .Builtin .., .Block .. => isFalse (by intro h; cases h)
  | .Builtin .., .Declare .. => isFalse (by intro h; cases h)
  | .Builtin .., .Exec .. => isFalse (by intro h; cases h)
  | .Builtin .., .Variable .. => isFalse (by intro h; cases h)
  | .If .., .Base .. => isFalse (by intro h; cases h)
  | .If .., .Token .. => isFalse (by intro h; cases h)
  | .If .., .Script .. => isFalse (by intro h; cases h)
  | .If .., .Builtin .. => isFalse (by intro h; cases h)
  | .If .., .For .. => isFalse (by intro h; cases h)
  | .If .., .Block .. => isFalse (by intro h; cases h)
  | .If .., .Declare .. => isFalse (by intro h; cases h)
  | .If .., .Exec .. => isFalse (by intro h; cases h)
  | .If .., .Variable .. => isFalse (by intro h; cases h)
  | .For .., .Base .. => isFalse (by intro h; cases h)
  | .For .., .Token .. => isFalse (by intro h; cases h)
  | .For .., .Script .. => isFalse (by intro h; cases h)
  | .For .., .Builtin .. => isFalse (by intro h; cases h)
  | .For .., .If .. => isFalse (by intro h; cases h)
  | .For .., .Block .. => isFalse (by intro h; cases h)
  | .For .., .Declare .. => isFalse (by intro h; cases h)
  | .For .., .Exec .. => isFalse (by intro h; cases h)
  | .For .., .Variable .. => isFalse (by intro h; cases h)
  | .Block .., .Base .. => isFalse (by intro h; cases h)
  | .Block .., .Token .. => isFalse (by intro h; cases h)
  | .Block .., .Script .. => isFalse (by intro h; cases h)
  | .Block .., .Builtin .. => isFalse (by intro h; cases h)
  | .Block .., .If .. => isFalse (by intro h; cases h)
  | .Block .., .For .. => isFalse (by intro h; cases h)
  | .Block .., .Declare .. => isFalse (by intro h; cases h)
  | .Block .., .Exec .. => isFalse (by intro h; cases h)
  | .Block .., .Variable .. => isFalse (by intro h; cases h)
  | .Declare .., .Base .. => isFalse (by intro h; cases h)
  | .Declare .., .Token .. => isFalse (by intro h; cases h)
  | .Declare .., .Script .. => isFalse (by intro h; cases h)
  | .Declare .., .Builtin .. => isFalse (by intro h; cases h)
  | .Declare .., .If .. => isFalse (by intro h; cases h)
  | .Declare .., .For .. => isFalse (by intro h; cases h)
  | .Declare .., .Block .. => isFalse (by intro h; cases h)
  | .Declare .., .Exec .. => isFalse (by intro h; cases h)
  | .Declare .., .Variable .. => isFalse (by intro h; cases h)
  | .Exec .., .Base .. => isFalse (by intro h; cases h)
  | .Exec .., .Token .. => isFalse (by intro h; cases h)
  | .Exec .., .Script .. => isFalse (by intro h; cases h)
  | .Exec .., .Builtin .. => isFalse (by intro h; cases h)
  | .Exec .., .If .. => isFalse (by intro h; cases h)
  | .Exec .., .For .. => isFalse (by intro h; cases h)
  | .Exec .., .Block .. => isFalse (by intro h; cases h)
  | .Exec .., .Declare .. => isFalse (by intro h; cases h)
  | .Exec .., .Variable .. => isFalse (by intro h; cases h)
  | .Variable .., .Base .. => isFalse (by intro h; cases h)
  | .Variable .., .Token .. => isFalse (by intro h; cases h)
  | .Variable .., .Script .. => isFalse (by intro h; cases h)
  | .Variable .., .Builtin .. => isFalse (by intro h; cases h)
  | .Variable .., .If .. => isFalse (by intro h; cases h)
  | .Variable .., .For .. => isFalse (by intro h; cases h)
  | .Variable .., .Block .. => isFalse (by intro h; cases h)
  | .Variable .., .Declare .. => isFalse (by intro h; cases h)
  | .Variable .., .Exec .. => isFalse (by intro h; cases h)
/-- Decision procedure for equality of node lists. -/
def AST_Data.decEqList : (a b : List AST_Data) → Decidable (a = b)
  | [], [] => isTrue rfl
  | x :: xs, y :: ys =>
    match AST_Data.decEq x y with
    | isFalse h1 => isFalse (by intro h; cases h; exact h1 rfl)
    | isTrue h1 =>
      match AST_Data.decEqList xs ys with
      | isFalse h2 => isFalse (by intro h; cases h; exact h2 rfl)
      | isTrue h2 => isTrue (by rw [h1, h2])
  | [], _ :: _ => isFalse (by intro h; cases h)
  | _ :: _, [] => isFalse (by intro h; cases h)
end

instance : DecidableEq AST_Data := AST_Data.decEq

/-! ### Error handler (`src/source/error_handler.go`) -/

/-- Kinds of diagnostic. -/
inductive error_type where
  | WARNING | RENDER_WARNING | PARSER_WARNING | FAILURE | RENDER_FAILURE | PARSER_FAILURE
  deriving DecidableEq, Repr

/-- Numeric value of an `error_type` in its `iota` block, where the marker
`is_failure` has the value 3. -/
def error_type.rank : error_type → Nat
  | .WARNING => 0 | .RENDER_WARNING => 1 | .PARSER_WARNING => 2
  | .FAILURE => 4 | .RENDER_FAILURE => 5 | .PARSER_FAILURE => 6

/-- Marker `is_failure` of the `error_type` block. -/
def is_failure : Nat := 3

/-- A recorded diagnostic: `spindle_pos_error` when `pos` is present, `spindle_error`
otherwise. The text `fmt.Sprintf(message, subst...)` is kept as the format and its
arguments. -/
structure spindle_error where
  kind : error_type
  pos : Option position
  message : String
  subst : List String
  deriving DecidableEq, Repr

/-- The record `Error_Handler`. -/
structure Error_Handler where
  has_failures : Bool
  all_errors : List spindle_error
  deriving DecidableEq, Repr

/-- `Error_Handler.reset`. -/
def Error_Handler.reset (_e : Error_Handler) : Error_Handler :=
  { has_failures := false, all_errors := [] }

/-- `new_error_handler`. -/
def new_error_handler : Error_Handler :=
  Error_Handler.reset { has_failures := false, all_errors := [] }

/-- `Error_Handler.new_pos`. -/
def Error_Handler.new_pos (e : Error_Handler) (kind : error_type) (pos : position)
    (message : String) (subst : List String) : Error_Handler :=
  { has_failures := if kind.rank > is_failure then true else e.has_failures,
    all_errors := e.all_errors ++ [⟨kind, some pos, message, subst⟩] }

/-- `Error_Handler.new`. -/
def Error_Handler.new (e : Error_Handler) (kind : error_type)
    (message : String) (subst : List String) : Error_Handler :=
  { has_failures := if kind.rank > is_failure then true else e.has_failures,
    all_errors := e.all_errors ++ [⟨kind, none, message, subst⟩] }

/-- `Error_Handler.has_errors`. -/
def Error_Handler.has_errors (e : Error_Handler) : Bool :=
  e.all_errors.length > 0

/-! ### Parser state and primitives (`src/source/parser.go`) -/

/-- What the parser uses and the sources do not contain. -/
structure Parser_Env where
  /-- The test `t > is_non_word` on token kinds. -/
  gt_is_non_word : AST_Type → Bool
  /-- The function `new_hash` (a 32-bit hash of a text). -/
  new_hash : String → Nat
  /-- Constant `_TAGINATOR`. -/
  _TAGINATOR : Nat
  /-- Constant `_BASE`. -/
  _BASE : Nat
  /-- Constant `DEFAULT_QUALITY`. -/
  DEFAULT_QUALITY : Int
  /-- Global `spindle.image_quality`. -/
  image_quality : Int
  /-- Global `spindle.image_max_size`. -/
  image_max_size : Nat
  /-- Global `spindle.image_format`. -/
  image_format : file_type
  /-- What `type_check` reports for an `AST_Exec` node of the given kind. -/
  exec_type_check : Exec_Type → AST_Type
  /-- Go `strings.ToLower`. -/
  to_lower : String → String

/-- Run-time failures of the Go program. -/
inductive Fault where
  | panic (message : String)
  | nil_dereference
  | index_out_of_range
  | slice_out_of_range
  deriving DecidableEq, Repr

/-- The record `Parser`, together with the globals the parser writes:
`spindle.errors` and `spindle.has_webp`. `index` is a signed integer, as in the
source: `step_back` can move it below zero. -/
structure Parser where
  index : Int
  unwind : Bool
  stream : List Lexer_Token
  errors : Error_Handler
  has_webp : Bool
  deriving DecidableEq, Repr

/-- Result of running a parser routine: a value with the new state, a run-time
failure, or exhaustion of the fuel of the embedding. -/
inductive Res (α : Type) where
  | ok (a : α) (p : Parser)
  | fault (f : Fault)
  | out_of_fuel
  deriving DecidableEq, Repr

/-- A parser routine: a function of the parser state. -/
def PM (α : Type) : Type := Parser → Res α

instance : Monad PM where
  pure a := fun p => .ok a p
  bind m f := fun p =>
    match m p with
    | .ok a p' => f a p'
    | .fault e => .fault e
    | .out_of_fuel => .out_of_fuel

/-- Raise a run-time failure. -/
def PM.fail {α : Type} (f : Fault) : PM α := fun _ => .fault f

/-- Access through a pointer that may be nil (`token.ast_type`, `token.field`). -/
def deref {α : Type} : Option α → PM α
  | some a => pure a
  | none => PM.fail .nil_dereference

/-- Read `parser.unwind`. -/
def get_unwind : PM Bool := fun p => .ok p.unwind p

/-- Assignment `parser.unwind = true`. -/
def set_unwind : PM Unit := fun p => .ok () { p with unwind := true }

/-- Call `spindle.errors.new_pos(kind, pos, message, subst...)`. -/
def new_pos (kind : error_type) (pos : position) (message : String)
    (subst : List String) : PM Unit :=
  fun p => .ok () { p with errors := p.errors.new_pos kind pos message subst }

/-- Assignment `spindle.has_webp = true`. -/
def set_has_webp : PM Unit := fun p => .ok () { p with has_webp := true }

/-- Index expression `parser.stream[i]`. -/
def stream_at (i : Int) : PM Lexer_Token := fun p =>
  if i < 0 then .fault .index_out_of_range
  else
    match p.stream[i.toNat]? with
    | some t => .ok t p
    | none => .fault .index_out_of_range

/-- Slice expression `parser.stream[parser.index:]`. -/
def stream_rest : PM (List Lexer_Token) := fun p =>
  if p.index < 0 ∨ (p.stream.length : Int) < p.index then .fault .slice_out_of_range
  else .ok (p.stream.drop p.index.toNat) p

/-- Statement `parser.index += n`. -/
def advance (n : Int) : PM Unit := fun p => .ok () { p with index := p.index + n }

/-- `Parser.step_back`. -/
def step_back : PM Unit := fun p => .ok () { p with index := p.index - 1 }

/-- `Parser.step_backn`. -/
def step_backn (n : Int) : PM Unit := fun p => .ok () { p with index := p.index - n }

/-- `Parser.prev`. -/
def prev : PM (Option Lexer_Token) := fun p =>
  if p.index < 2 then .ok none p
  else (do let t ← stream_at (p.index - 2); pure (some t)) p

/-- `Parser.next`. -/
def next : PM (Option Lexer_Token) := fun p =>
  if p.index > (p.stream.length : Int) - 1 then .ok none p
  else (do
    let t ← stream_at p.index
    advance 1
    pure (some t)) p

/-- `Parser.peek`. -/
def peek : PM (Option Lexer_Token) := fun p =>
  if p.index > (p.stream.length : Int) - 1 then .ok none p
  else (do let t ← stream_at p.index; pure (some t)) p

/-- Number of leading `WHITESPACE` tokens of a token list. -/
def count_whitespace : List Lexer_Token → Nat
  | [] => 0
  | t :: ts => if t.ast_type = .WHITESPACE then count_whitespace ts + 1 else 0

/-- `Parser.peek_whitespace`. -/
def peek_whitespace : PM Lexer_Token := fun p =>
  (do
    let rest ← stream_rest
    stream_at (p.index + (count_whitespace rest : Nat))) p

/-- `Parser.eat_whitespace`. -/
def eat_whitespace : PM Bool := do
  let rest ← stream_rest
  let n := count_whitespace rest
  advance (n : Nat)
  pure (decide (n > 0))

/-- The loop of `get_non_word`: the offset of the first token whose kind differs from
`t`, zero when there is none. -/
def run_length (t : AST_Type) : List Lexer_Token → Nat → Nat
  | [], _ => 0
  | c :: cs, i => if c.ast_type ≠ t then i else run_length t cs (i + 1)

/-- Go `strings.Repeat`. -/
def string_repeat (s : String) (n : Nat) : String :=
  String.join (List.replicate n s)

/-- `Parser.get_non_word`. -/
def get_non_word (token : Lexer_Token) : PM (String × Int) :=
  if token.ast_type = .NON_WORD then pure (token.field, 1)
  else do
    let rest ← stream_rest
    let count := run_length token.ast_type rest 0
    advance (count : Nat)
    pure (string_repeat token.field (count + 1), (count : Nat))

/-! ### Text routines of the parser -/

/-- The newline character. -/
def nl : Char := Char.ofNat 10

/-- The tab character. -/
def tab : Char := Char.ofNat 9

/-- Go `strings.ReplaceAll(input, "\t", "    ")` on a character list. -/
def expand_tabs : List Char → List Char
  | [] => []
  | c :: cs => if c = tab then ' ' :: ' ' :: ' ' :: ' ' :: expand_tabs cs else c :: expand_tabs cs

/-- Go `strings.Split(input, "\n")` on a character list: `cur` is the line being read. -/
def split_lines_aux : List Char → List Char → List (List Char)
  | [], cur => [cur.reverse]
  | c :: cs, cur => if c = nl then cur.reverse :: split_lines_aux cs [] else split_lines_aux cs (c :: cur)

/-- Go `strings.Split(input, "\n")` on a character list. -/
def split_lines (input : List Char) : List (List Char) :=
  split_lines_aux input []

/-- The loops `for i, c := range s { if c != '\n' { s = s[i:]; break } }`: leading
newlines are dropped, unless the text holds nothing but newlines. -/
def strip_leading_newlines (s : List Char) : List Char :=
  match s.dropWhile (fun c => c = nl) with
  | [] => s
  | rest => rest

/-- The loop that cuts `render` after its last character that is not a newline; a text
of newlines only stays as it is. -/
def strip_trailing_newlines (s : List Char) : List Char :=
  (strip_leading_newlines s.reverse).reverse

/-- Number of leading spaces of a line. -/
def leading_spaces : List Char → Nat
  | [] => 0
  | c :: cs => if c = ' ' then leading_spaces cs + 1 else 0

/-- The loop of `reindent_text` that computes `shortest_indent` over the lines. -/
def shortest_indent_loop : List (List Char) → Nat → Nat
  | [], shortest => shortest
  | line :: lines, shortest =>
    if line.length = 0 then shortest_indent_loop lines shortest
    else
      let count := leading_spaces line
      shortest_indent_loop lines (if count < shortest then count else shortest)

/-- The loop of `reindent_text` that writes the lines without their indent. The slice
`line[shortest_indent:]` is `List.drop`: it is in range for every line that is not
empty (`shortest_indent_le_length`). -/
def write_lines (shortest_indent : Nat) : List (List Char) → List Char
  | [] => []
  | line :: lines =>
    if line.length = 0 then nl :: write_lines shortest_indent lines
    else line.drop shortest_indent ++ nl :: write_lines shortest_indent lines

/-- `reindent_text` on character lists. -/
def reindent_chars (input : List Char) : List Char :=
  let input := expand_tabs input
  let lines := split_lines input
  let shortest_indent := input.length
  let input := strip_leading_newlines input
  let shortest_indent := shortest_indent_loop lines shortest_indent
  if shortest_indent = 0 then input
  else
    let render := write_lines shortest_indent lines
    let render := strip_leading_newlines render
    strip_trailing_newlines render

/-- `reindent_text` of `src/source/parser.go`. -/
def reindent_text (input : String) : String :=
  ⟨reindent_chars input.data⟩

/-- `check_modifier_type`. -/
def check_modifier_type (env : Parser_Env) (input : String) : Modifier × Bool :=
  let s := env.to_lower input
  if s = "slug" ∨ s = "s" then (.SLUG, true)
  else if s = "unique_slug" ∨ s = "uslug" ∨ s = "us" then (.UNIQUE_SLUG, true)
  else if s = "upper" ∨ s = "u" then (.UPPER, true)
  else if s = "lower" ∨ s = "l" then (.LOWER, true)
  else if s = "title" ∨ s = "t" then (.TITLE, true)
  else (.NONE, false)

/-- `check_path_type`. -/
def check_path_type (env : Parser_Env) (input : String) : Path_Type × Bool :=
  let s := env.to_lower input
  if s = "abs" ∨ s = "absolute" then (.ABSOLUTE, true)
  else if s = "rel" ∨ s = "relative" then (.RELATIVE, true)
  else if s = "root" ∨ s = "rooted" then (.ROOTED, true)
  else (.NO_PATH_TYPE, false)

/-- `check_exec_type`. -/
def check_exec_type (env : Parser_Env) (input : String) : Exec_Type × Bool :=
  let s := env.to_lower input
  if s = "find" ∨ s = "link" then (._LOCATOR, true)
  else if s = "date" then (._DATE, true)
  else if s = "page" ∨ s = "image" ∨ s = "static" then (._LOCATOR, true)
  else (._NO_EXEC, false)

/-- Value of a run of decimal digits, `none` when a character is no digit. -/
def digits_value : List Char → Nat → Option Nat
  | [], acc => some acc
  | c :: cs, acc =>
    if '0'.toNat ≤ c.toNat ∧ c.toNat ≤ '9'.toNat then
      digits_value cs (acc * 10 + (c.toNat - '0'.toNat))
    else none

/-- Go `strconv.ParseInt(s, 10, bits)` with the error dropped: the value, clamped to
the `bits`-bit range when it does not fit, and zero when `s` is no decimal number. -/
def parse_int (s : String) (bits : Nat) : Int :=
  let (neg, ds) :=
    match s.data with
    | '-' :: ds => (true, ds)
    | '+' :: ds => (false, ds)
    | ds => (false, ds)
  match ds with
  | [] => 0
  | _ =>
    match digits_value ds 0 with
    | none => 0
    | some v =>
      if neg then (if v > 2 ^ (bits - 1) then -(2 ^ (bits - 1) : Int) else -(v : Int))
      else (if v > 2 ^ (bits - 1) - 1 then ((2 ^ (bits - 1) - 1 : Nat) : Int) else (v : Int))

/-! ### Variables, conditions and image settings -/

/-- Conversion `uint32(n)`. -/
def to_uint32 (n : Int) : Nat := (n % 4294967296).toNat

/-- Conversion `uint(n)` on a 64-bit platform. -/
def to_uint (n : Int) : Nat := (n % 18446744073709551616).toNat

/-- `Parser.parse_variable_ident`. -/
def parse_variable_ident (env : Parser_Env) : PM (Nat × Nat × Nat) := do
  let a ← next
  let b ← peek
  let b ← deref b
  if b.ast_type = .STOP then do
    let _ ← next
    let c ← peek
    let c ← deref c
    if c.ast_type.is [.WORD, .IDENT] then do
      let _ ← next
      let a ← deref a
      pure (env.new_hash (a.field ++ "." ++ c.field), env.new_hash a.field, env.new_hash c.field)
    else do
      step_back
      let a ← deref a
      pure (env.new_hash a.field, 0, 0)
  else do
    let a ← deref a
    pure (env.new_hash a.field, 0, 0)

/-- The last block of `parse_variable`: an optional `:modifier`. -/
def parse_variable_modifier (env : Parser_Env) (new_var : AST_Variable) : PM AST_Variable := do
  let a ← peek
  let a ← deref a
  if a.ast_type = .COLON then do
    let _ ← next
    let b ← peek
    let b ← deref b
    if b.ast_type.is [.WORD, .IDENT] then do
      let _ ← next
      let (mod, ok) := check_modifier_type env b.field
      if ok then pure { new_var with modifier := mod }
      else do
        new_pos .PARSER_FAILURE b.position "unknown variable modifier %q" [b.field]
        pure new_var
    else do
      step_back
      pure new_var
  else pure new_var

/-- `Parser.parse_variable`; `none` is the nil result. -/
def parse_variable (env : Parser_Env) (is_support : Bool) : PM (Option AST_Variable) := do
  let a ← peek
  let a ← deref a
  if a.ast_type.is [.WORD, .IDENT] then do
    let (field, taxonomy, subname) ← parse_variable_ident env
    let v ← parse_variable_modifier env ⟨.VAR, position.zero, field, taxonomy, subname, .NONE⟩
    pure (some v)
  else if is_support ∧ a.ast_type = .NUMBER then do
    let _ ← next
    let n := parse_int a.field 32
    let v ← parse_variable_modifier env ⟨.VAR_ENUM, position.zero, env._BASE, 0, to_uint32 n, .NONE⟩
    pure (some v)
  else if is_support ∧ a.ast_type = .PERCENT then do
    let _ ← next
    let v ← parse_variable_modifier env ⟨.VAR_ANON, position.zero, env._BASE, 0, 0, .NONE⟩
    pure (some v)
  else pure none

/-- `Parser.parse_if`: the loop, with the condition list read so far. -/
def parse_if_loop (env : Parser_Env) : Nat → List AST_Data → PM (List AST_Data)
  | 0 => fun _ _ => .out_of_fuel
  | fuel + 1 => fun array => do
    let _ ← eat_whitespace
    let token ← next
    let token ← deref token
    match token.ast_type with
    | .BANG => parse_if_loop env fuel (array ++ [.Base .OP_NOT position.zero "" []])
    | .PLUS => parse_if_loop env fuel (array ++ [.Base .OP_AND position.zero "" []])
    | .PIPE => parse_if_loop env fuel (array ++ [.Base .OP_OR position.zero "" []])
    | .PERCENT => do
      let new_var ← parse_variable env false
      match new_var with
      | none => do
        new_pos .PARSER_FAILURE token.position "malformed if-statement" []
        set_unwind
        PM.fail .nil_dereference
      | some v => do
        if v.ast_type ≠ .VAR then do
          new_pos .PARSER_FAILURE token.position "non-variable text in if-statement" []
          set_unwind
        else pure ()
        parse_if_loop env fuel (array ++ [.Variable v])
    | _ => do
      step_back
      pure array

/-- `Parser.parse_if`. -/
def parse_if (env : Parser_Env) (fuel : Nat) : PM (List AST_Data) :=
  parse_if_loop env fuel []

/-- `default_image_settings`. -/
def default_image_settings (env : Parser_Env) : Image_Settings × Bool :=
  let settings : Image_Settings := ⟨0, 0, .DIRECTORY⟩
  let got_anything := false
  let (settings, got_anything) :=
    if env.image_quality > 0 then ({ settings with quality := env.image_quality }, true)
    else (settings, got_anything)
  let (settings, got_anything) :=
    if env.image_max_size > 0 then ({ settings with max_size := env.image_max_size }, true)
    else (settings, got_anything)
  let (settings, got_anything) :=
    if env.image_format.rank > is_image then
      ({ settings with file_type := env.image_format }, true)
    else (settings, got_anything)
  (settings, got_anything)

/-- The end of `parse_image_settings`, after the loop. -/
def image_settings_result (env : Parser_Env) (settings : Image_Settings)
    (got_anything : Bool) : Option Image_Settings :=
  if got_anything then
    some (if settings.quality = 0 then { settings with quality := env.DEFAULT_QUALITY }
      else settings)
  else none

/-- `Parser.parse_image_settings`: the loop. -/
def parse_image_settings_loop (env : Parser_Env) :
    Nat → Image_Settings → Bool → PM (Option Image_Settings)
  | 0 => fun _ _ _ => .out_of_fuel
  | fuel + 1 => fun settings got_anything => do
    let _ ← eat_whitespace
    let token ← next
    let token ← deref token
    match token.ast_type with
    | .NUMBER => do
      let a := parse_int token.field 64
      let nxt ← peek
      let nxt ← deref nxt
      if nxt.ast_type = .WORD then
        parse_image_settings_loop env fuel { settings with max_size := to_uint a } true
      else
        parse_image_settings_loop env fuel { settings with quality := a } true
    | .WORD =>
      if token.field.data.head? = some 'x' then
        parse_image_settings_loop env fuel settings true
      else if token.field = "png" then
        parse_image_settings_loop env fuel { settings with file_type := .IMG_PNG } true
      else if token.field = "webp" then do
        set_has_webp
        parse_image_settings_loop env fuel { settings with file_type := .IMG_WEB } true
      else if token.field = "jpeg" ∨ token.field = "jpg" then
        parse_image_settings_loop env fuel { settings with file_type := .IMG_JPG } true
      else do
        new_pos .PARSER_FAILURE token.position "image format %q is unsupported" [token.field]
        set_unwind
        pure (image_settings_result env settings got_anything)
    | _ => do
      step_back
      pure (image_settings_result env settings got_anything)

/-- `Parser.parse_image_settings`. -/
def parse_image_settings (env : Parser_Env) (fuel : Nat) : PM (Option Image_Settings) :=
  let (settings, got_anything) := default_image_settings env
  parse_image_settings_loop env fuel settings got_anything

/-! ### Comments and raw blocks -/

/-- The loop of `eat_comment` over `parser.stream[parser.index:]`: `i` is the loop
index, `index` the brace balance. The result is the amount added to `parser.index`,
`none` when the loop ends without a `return`. -/
def eat_comment_loop : List Lexer_Token → Nat → Int → Bool → Bool → Option Nat
  | [], _, _, _, _ => none
  | entry :: rest, i, index, is_escaped, passed_newline =>
    if entry.ast_type = .ESCAPE then eat_comment_loop rest (i + 1) index true passed_newline
    else if entry.ast_type = .EOF then some i
    else
      let passed_newline := if entry.ast_type = .NEWLINE then true else passed_newline
      let index :=
        if entry.ast_type = .BRACE_OPEN ∧ ¬ is_escaped then index + 1
        else if entry.ast_type = .BRACE_CLOSE ∧ ¬ is_escaped then index - 1
        else index
      let passed_newline := if entry.ast_type = .BRACE_CLOSE then false else passed_newline
      if passed_newline ∧ index = 0 then some i
      else eat_comment_loop rest (i + 1) index false passed_newline

/-- `Parser.eat_comment`. -/
def eat_comment : PM Unit := do
  let _ ← eat_whitespace
  let rest ← stream_rest
  match eat_comment_loop rest 0 0 false false with
  | some i => advance (i : Nat)
  | none => pure ()

/-- State of the loop of `parse_raw_block`. -/
structure Raw_State where
  buffer : String
  brace_balance : Int
  is_escaped : Bool
  deriving DecidableEq, Repr

/-- The loop of `parse_raw_block` over `parser.stream[parser.index:]`. `i` is the loop
index and `base` the value of `parser.index`; the result is the text written and the
amount added to `parser.index` (`none` when the loop ends without a `break`). The
look-ahead of the `AMPERSAND` case reads `stream[base + i + 1]`, which is the head of
`rest` here; the guard `len(stream) - 1 > base + i + 1` keeps it in range. -/
def raw_block_loop (intact_html : Bool) (len base : Int) :
    List Lexer_Token → Nat → Raw_State → String × Option Nat
  | [], _, st => (st.buffer, none)
  | token :: rest, i, st =>
    if token.ast_type = .ESCAPE then
      raw_block_loop intact_html len base rest (i + 1) { st with is_escaped := true }
    else if ¬ intact_html ∧ token.ast_type = .ANGLE_OPEN then
      raw_block_loop intact_html len base rest (i + 1) { st with buffer := st.buffer ++ "&lt;" }
    else if ¬ intact_html ∧ token.ast_type = .ANGLE_CLOSE then
      raw_block_loop intact_html len base rest (i + 1) { st with buffer := st.buffer ++ "&gt;" }
    else if ¬ intact_html ∧ token.ast_type = .AMPERSAND ∧ len - 1 > base + i + 1 ∧
        (rest.head?.map (fun t => t.ast_type)) ≠ some .WORD then
      raw_block_loop intact_html len base rest (i + 1) { st with buffer := st.buffer ++ "&amp;" }
    else
      let brace_balance :=
        if token.ast_type = .BRACE_OPEN ∧ ¬ st.is_escaped then st.brace_balance + 1
        else if token.ast_type = .BRACE_CLOSE ∧ ¬ st.is_escaped then st.brace_balance - 1
        else st.brace_balance
      if token.ast_type = .EOF then (st.buffer, some (i + 1))
      else if brace_balance ≤ 0 then (st.buffer, some (i + 1))
      else
        raw_block_loop intact_html len base rest (i + 1)
          ⟨st.buffer ++ token.field, brace_balance, false⟩

/-- `Parser.parse_raw_block`. -/
def parse_raw_block (intact_html : Bool) : PM AST_Data := fun p =>
  (do
    let rest ← stream_rest
    let (buffer, moved) :=
      raw_block_loop intact_html p.stream.length p.index rest 0 ⟨"", 1, false⟩
    match moved with
    | some n => advance (n : Nat)
    | none => pure ()
    pure (AST_Data.Base .RAW position.zero (reindent_text buffer) []) : PM AST_Data) p

/-! ### Paragraphs -/

/-- The block `if buffer.Len() > 0 { ... }`: the text gathered so far becomes a
`NORMAL` node (created by `new(AST_Base)`, so with the zero position). -/
def flush_buffer (buffer : String) (array : List AST_Data) : List AST_Data :=
  if buffer = "" then array else array ++ [AST_Data.Base .NORMAL position.zero buffer []]

/-- The head of a `%{...}` expression in `parse_paragraph`: the keyword and its
optional `:qualifier`. The result is `exec_type`, `path_type` and `modifier`. -/
def parse_exec_head (env : Parser_Env) (word : Lexer_Token) :
    PM (Exec_Type × Path_Type × Modifier) := do
  let _ ← next
  let type_keyword := env.to_lower word.field
  let (t, ok) := check_exec_type env type_keyword
  let exec_type := if ok then t else Exec_Type._NO_EXEC
  let nxt ← peek
  let nxt ← deref nxt
  if nxt.ast_type = .COLON then
    match exec_type with
    | ._LOCATOR => do
      let _ ← next
      let word ← next
      let word ← deref word
      let (x, ok) := check_path_type env word.field
      pure (exec_type, if ok then x else .NO_PATH_TYPE, .NONE)
    | ._DATE => do
      let _ ← next
      let word ← next
      let word ← deref word
      let (x, ok) := check_modifier_type env word.field
      pure (exec_type, .NO_PATH_TYPE, if ok then x else .NONE)
    | ._NO_EXEC => pure (exec_type, .NO_PATH_TYPE, .NONE)
  else pure (exec_type, .NO_PATH_TYPE, .NONE)

/-- `Parser.parse_paragraph`: the loop, with `array` and `buffer` as they stand. The
recursive call for the children of a `%{...}` expression is `parse_paragraph` itself
(the `unwind` test followed by the loop). -/
def parse_paragraph_loop (env : Parser_Env) :
    Nat → Bool → List AST_Type → List AST_Data → String → PM (List AST_Data)
  | 0 => fun _ _ _ _ _ => .out_of_fuel
  | fuel + 1 => fun is_support exit_upon array buffer => do
    let token ← peek
    match token with
    | none => pure array
    | some token =>
      if token.ast_type.is [.NEWLINE, .EOF] then do
        let _ ← next
        pure (flush_buffer buffer array)
      else if token.ast_type.is exit_upon then pure (flush_buffer buffer array)
      else do
        let _ ← next
        match token.ast_type with
        | .WHITESPACE => parse_paragraph_loop env fuel is_support exit_upon array (buffer ++ " ")
        | .PERCENT => do
          let nxt ← peek
          let nxt ← deref nxt
          if nxt.ast_type = .BRACE_OPEN then do
            let _ ← next
            let word ← peek
            let word ← deref word
            let (exec_type, path_type, modifier) ←
              (if word.ast_type = .WORD then parse_exec_head env word
               else pure (Exec_Type._NO_EXEC, Path_Type.NO_PATH_TYPE, Modifier.NONE))
            let _ ← eat_whitespace
            let children ←
              (match exec_type with
               | ._LOCATOR => fun q =>
                 if q.unwind then Res.ok [] q
                 else parse_paragraph_loop env fuel is_support [.WHITESPACE, .BRACE_CLOSE] [] "" q
               | ._DATE => fun q =>
                 if q.unwind then Res.ok [] q
                 else parse_paragraph_loop env fuel is_support [.BRACE_CLOSE] [] "" q
               | ._NO_EXEC => pure [])
            let _ ← eat_whitespace
            let closing ← peek
            let closing ← deref closing
            if closing.ast_type = .BRACE_CLOSE then do
              let _ ← next
              let (x, ok) := default_image_settings env
              let exec := AST_Data.Exec token.position exec_type path_type modifier
                (if ok then some x else none) children
              parse_paragraph_loop env fuel is_support exit_upon
                (flush_buffer buffer array ++ [exec]) ""
            else do
              let settings ← parse_image_settings env fuel
              if (← get_unwind) then pure array
              else do
                let closing ← peek
                let closing ← deref closing
                if closing.ast_type = .BRACE_CLOSE then do
                  let _ ← next
                  pure ()
                else pure ()
                let exec := AST_Data.Exec token.position exec_type path_type modifier
                  settings children
                parse_paragraph_loop env fuel is_support exit_upon
                  (flush_buffer buffer array ++ [exec]) ""
          else do
            let new_var ← parse_variable env is_support
            match new_var with
            | none =>
              parse_paragraph_loop env fuel is_support exit_upon array (buffer ++ token.field)
            | some v =>
              parse_paragraph_loop env fuel is_support exit_upon
                (flush_buffer buffer array ++
                  [AST_Data.Variable { v with position := token.position }]) ""
        | _ => parse_paragraph_loop env fuel is_support exit_upon array (buffer ++ token.field)

/-- `Parser.parse_paragraph`. -/
def parse_paragraph (env : Parser_Env) (fuel : Nat) (is_support : Bool)
    (exit_upon : List AST_Type) : PM (List AST_Data) := fun p =>
  if p.unwind then .ok [] p
  else parse_paragraph_loop env fuel is_support exit_upon [] "" p

/-! ### Blocks -/

/-- `type_check` of a node: the `ast_type` field where the struct has one, and the
constant of the node kind otherwise. -/
def AST_Data.type_check (env : Parser_Env) : AST_Data → AST_Type
  | .Base t _ _ _ => t
  | .Token _ _ _ _ => .TOKEN
  | .Script _ _ _ => .SCRIPT
  | .Builtin t _ _ _ _ => t
  | .If _ _ _ _ => .CONTROL_IF
  | .For _ _ _ => .CONTROL_FOR
  | .Block _ _ _ => .BLOCK
  | .Declare t _ _ _ _ _ _ _ => t
  | .Exec _ t _ _ _ _ => env.exec_type_check t
  | .Variable v => v.ast_type

/-- How one turn of the main loop of `parse_block` ends: `continue`, `break` out of
the `switch` (the paragraph code after it runs), or `break main_loop`. -/
inductive Flow where
  | continue_ (array : List AST_Data)
  | break_switch
  | break_main
  deriving DecidableEq, Repr

/-- Position of a block that ends with a closing brace: `position.end += 1`. -/
def position.closed (pos : position) : position :=
  { pos with end_ := pos.end_ + 1 }

/-- The value part of a declaration `name = ...` in the `WORD, IDENT` case. -/
def parse_decl_value (env : Parser_Env)
    (pp : Bool → List AST_Type → PM (List AST_Data))
    (pb : Nat → Bool → PM (List AST_Data))
    (is_support : Bool) (token : Lexer_Token) (field taxonomy subname : Nat)
    (is_immediate : Bool) : PM AST_Data := do
  let x ← peek
  let x ← deref x
  if x.ast_type.is [.WORD, .IDENT] then do
    let _ ← next
    let did_eat ← eat_whitespace
    let nxt ← peek
    let nxt ← deref nxt
    if nxt.ast_type = .BRACE_OPEN then do
      let _ ← next
      let children ← pb 0 is_support
      let new_block := AST_Data.Block x.position.closed (env.new_hash x.field) children
      pure (AST_Data.Declare .DECL x.position.closed field taxonomy subname
        is_immediate is_support [new_block])
    else do
      if did_eat then step_backn 2 else step_back
      let _ ← eat_whitespace
      let children ← pp is_support [.NULL]
      pure (AST_Data.Declare .DECL token.position field taxonomy subname
        is_immediate is_support children)
  else do
    let children ← pp is_support [.NULL]
    pure (AST_Data.Declare .DECL token.position field taxonomy subname
      is_immediate is_support children)

/-- The `WORD, IDENT` case of `parse_block` after the keywords `if`, `else`, `for`:
a named block, a raw block, a declaration, or else an ordinary line. -/
def parse_word_case (env : Parser_Env)
    (pp : Bool → List AST_Type → PM (List AST_Data))
    (pb : Nat → Bool → PM (List AST_Data))
    (is_support : Bool) (array : List AST_Data) (token : Lexer_Token) : PM Flow := do
  step_back
  let (field, taxonomy, subname) ← parse_variable_ident env
  let x ← peek_whitespace
  let (x, needs_raw, intact_html) ←
    (if x.ast_type = .WORD ∧ (x.field = "raw" ∨ x.field = "html") then do
      let _ ← next
      let _ ← eat_whitespace
      let _ ← next
      let n ← peek_whitespace
      if n.ast_type = .BRACE_OPEN then do
        let x' ← peek_whitespace
        pure (x', true, decide (x.field = "html"))
      else do
        step_backn 2
        let x' ← peek_whitespace
        pure (x', false, false)
    else pure (x, false, false))
  if x.ast_type = .BRACE_OPEN then do
    let _ ← next
    let _ ← eat_whitespace
    let _ ← next
    if needs_raw then do
      let raw ← parse_raw_block intact_html
      pure (.continue_ (array ++
        [AST_Data.Block position.zero (env.new_hash token.field) [raw]]))
    else do
      let children ← pb 0 is_support
      pure (.continue_ (array ++
        [AST_Data.Block token.position.closed (env.new_hash token.field) children]))
  else do
    let (x, is_immediate) ←
      (if x.ast_type = .COLON then do
        let _ ← next
        let _ ← eat_whitespace
        let _ ← next
        let x' ← next
        let x' ← deref x'
        pure (x', true)
      else pure (x, false))
    if x.ast_type = .EQUALS then
      if is_support ∧ field = env._TAGINATOR then do
        new_pos .PARSER_FAILURE token.position
          "cannot initiate a taginator in a /config/ file" []
        set_unwind
        pure .break_main
      else do
        if ¬ is_immediate then do
          let _ ← next
          let _ ← eat_whitespace
          let _ ← next
          pure ()
        else pure ()
        let _ ← eat_whitespace
        let the_decl ← parse_decl_value env pp pb is_support token field taxonomy subname
          is_immediate
        pure (.continue_ (array ++ [the_decl]))
    else do
      if taxonomy > 0 then step_backn 2 else pure ()
      pure .break_switch

/-- The value part of a declaration `[...] = ...` or `{...} = ...`. -/
def parse_template_value (env : Parser_Env)
    (pp : Bool → List AST_Type → PM (List AST_Data))
    (pb : Nat → Bool → PM (List AST_Data))
    (ast_type : AST_Type) (pos : position) (field taxonomy subname : Nat)
    (is_soft : Bool) : PM AST_Data := do
  let _ ← eat_whitespace
  let x ← peek
  let x ← deref x
  if x.ast_type.is [.WORD, .IDENT] then do
    let _ ← next
    let _ ← eat_whitespace
    let nxt ← peek
    let nxt ← deref nxt
    if nxt.ast_type = .BRACE_OPEN then do
      let _ ← next
      let children ← pb 0 true
      let new_block := AST_Data.Block x.position.closed (env.new_hash x.field) children
      pure (AST_Data.Declare ast_type { pos with start := x.position.start }
        field taxonomy subname false is_soft [new_block])
    else do
      step_backn 2
      let children ← pp true [.NULL]
      pure (AST_Data.Declare ast_type pos field taxonomy subname false is_soft children)
  else if x.ast_type = .BRACE_OPEN then do
    let _ ← next
    let children ← pb 0 true
    pure (AST_Data.Declare ast_type pos field taxonomy subname false is_soft children)
  else do
    let children ← pp true [.NULL]
    pure (AST_Data.Declare ast_type pos field taxonomy subname false is_soft children)

/-- The `BRACKET_OPEN` case of `parse_block`, which the `BRACE_OPEN` case falls
through to: a token or block template declaration. -/
def parse_bracket_case (env : Parser_Env)
    (pp : Bool → List AST_Type → PM (List AST_Data))
    (pb : Nat → Bool → PM (List AST_Data))
    (is_support : Bool) (array : List AST_Data) (token : Lexer_Token) : PM Flow := do
  let inner_text ← next
  let inner_text ← deref inner_text
  let is_brace := decide (token.ast_type = .BRACE_OPEN)
  let (ast_type, field, taxonomy, subname, isnt_valid) ←
    (if env.gt_is_non_word inner_text.ast_type then do
      let (word, _) ← get_non_word inner_text
      pure (AST_Type.DECL_TOKEN, env.new_hash word, 0, 0, false)
    else if ¬ is_brace ∧ inner_text.ast_type.is [.WORD, .IDENT] then do
      step_back
      let (field, taxonomy, subname) ← parse_variable_ident env
      pure (AST_Type.DECL_BLOCK, field, taxonomy, subname, false)
    else pure (AST_Type.NULL, 0, 0, 0, true))
  let field := if is_brace then (field + 1) % 4294967296 else field
  let bracket_close ← next
  let bracket_close ← deref bracket_close
  if ¬ bracket_close.ast_type.is [.BRACKET_CLOSE, .BRACE_CLOSE] then do
    step_backn 2
    pure .break_switch
  else do
    let did_any ← eat_whitespace
    let equals ← next
    let equals ← deref equals
    if equals.ast_type ≠ .EQUALS then do
      step_backn (if did_any then 4 else 3)
      pure .break_switch
    else if isnt_valid then do
      if is_brace then
        new_pos .PARSER_FAILURE token.position
          "bad type in \x7bdeclaration\x7d: %q cannot be used as a token character"
          [inner_text.field]
      else
        new_pos .PARSER_FAILURE token.position
          "bad type in [declaration]: %q cannot be used as a block template name"
          [inner_text.field]
      set_unwind
      pure .break_main
    else do
      let the_decl ← parse_template_value env pp pb ast_type token.position field taxonomy
        subname is_support
      pure (.continue_ (array ++ [the_decl]))

/-- The `MULTIPLY, AMPERSAND, ANGLE_CLOSE` case of `parse_block`. -/
def parse_builtin_case (env : Parser_Env) (array : List AST_Data) (token : Lexer_Token) :
    PM Flow := do
  let the_type :=
    match token.ast_type with
    | .MULTIPLY => AST_Type.UNSET
    | .AMPERSAND => AST_Type.TEMPLATE
    | .ANGLE_CLOSE => AST_Type.PARTIAL
    | _ => AST_Type.NULL
  let _ ← eat_whitespace
  let peeked ← peek
  let peeked ← deref peeked
  if peeked.ast_type.is [.WORD, .IDENT] then do
    let _ ← next
    let _ ← eat_whitespace
    let after ← peek
    let after ← deref after
    if ¬ after.ast_type.is [.NEWLINE, .EOF] then do
      step_backn 3
      new_pos .PARSER_FAILURE token.position "ambiguous token %q should be escaped"
        [token.field]
      pure .break_switch
    else
      pure (.continue_ (array ++
        [AST_Data.Builtin the_type token.position (env.new_hash peeked.field)
          peeked.field []]))
  else do
    new_pos .PARSER_FAILURE token.position "ambiguous token %q should be escaped"
      [token.field]
    pure .break_switch

/-- The `TILDE` case of `parse_block`. -/
def parse_import_case (env : Parser_Env)
    (pp : Bool → List AST_Type → PM (List AST_Data))
    (is_support : Bool) (array : List AST_Data) (token : Lexer_Token) : PM Flow := do
  let _ ← eat_whitespace
  let peeked ← peek
  let peeked ← deref peeked
  let (hash_name, raw_name) ←
    (if peeked.ast_type.is [.WORD, .IDENT] then do
      let _ ← next
      pure (env.new_hash peeked.field, peeked.field)
    else pure (0, ""))
  let _ ← eat_whitespace
  let x ← pp is_support []
  if x.length = 0 then PM.fail (.panic "no children")
  else
    pure (.continue_ (array ++
      [AST_Data.Builtin .IMPORT token.position hash_name raw_name x]))

/-- The `DOLLAR` case of `parse_block`. -/
def parse_script_case (env : Parser_Env)
    (pp : Bool → List AST_Type → PM (List AST_Data))
    (is_support : Bool) (array : List AST_Data) (token : Lexer_Token) : PM Flow := do
  let _ ← eat_whitespace
  let word ← next
  let word ← deref word
  if word.ast_type.is [.WORD, .IDENT] then do
    let _ ← eat_whitespace
    let x ← pp is_support []
    let _ ← eat_whitespace
    pure (.continue_ (array ++ [AST_Data.Script position.zero (env.new_hash word.field) x]))
  else do
    new_pos .PARSER_FAILURE token.position
      "malformed script call (or unescaped $ at start of line)" []
    pure (.continue_ array)

/-- The keyword part of the `WORD, IDENT` case of `parse_block` (`if`, `else`, `for`),
followed by `parse_word_case` for every other word. -/
def parse_keyword_case (env : Parser_Env) (fuel : Nat)
    (pp : Bool → List AST_Type → PM (List AST_Data))
    (pb : Nat → Bool → PM (List AST_Data))
    (is_support : Bool) (array : List AST_Data) (token : Lexer_Token) : PM Flow :=
  if token.field = "if" then do
    let condition_list ← parse_if env fuel
    if condition_list.length = 0 then do
      step_back
      pure .break_switch
    else do
      let _ ← eat_whitespace
      let children ← pb 1 is_support
      pure (.continue_ (array ++ [AST_Data.If token.position false condition_list children]))
  else if token.field = "else" then
    match array.getLast? with
    | none => PM.fail .index_out_of_range
    | some previous =>
      if previous.type_check env ≠ .CONTROL_IF then do
        new_pos .PARSER_FAILURE token.position "'else' must follow if-statement" []
        set_unwind
        pure (.continue_ array)
      else
        match previous with
        | .If _ _ condition_list _ => do
          let _ ← eat_whitespace
          let children ← pb 1 is_support
          pure (.continue_ (array ++
            [AST_Data.If token.position true condition_list children]))
        | _ => PM.fail (.panic "interface conversion")
  else if token.field = "for" then do
    let _ ← eat_whitespace
    let x ← pp is_support [.WHITESPACE]
    match x with
    | [] => do
      step_back
      pure .break_switch
    | n :: _ =>
      if ¬ (n.type_check env).is [.VAR, .VAR_ANON, .VAR_ENUM, .RES_FINDER] then do
        step_backn 3
        pure .break_switch
      else do
        let _ ← eat_whitespace
        let children ← pb 1 is_support
        pure (.continue_ (array ++ [AST_Data.For token.position n children]))
  else parse_word_case env pp pb is_support array token

/-- The `switch` of the main loop of `parse_block`. -/
def parse_switch (env : Parser_Env) (fuel : Nat)
    (pp : Bool → List AST_Type → PM (List AST_Data))
    (pb : Nat → Bool → PM (List AST_Data))
    (is_support : Bool) (array : List AST_Data) (token : Lexer_Token) : PM Flow :=
  match token.ast_type with
  | .WHITESPACE => pure (.continue_ array)
  | .FORWARD_SLASH => do
    let p ← peek
    match p with
    | some t =>
      if t.ast_type ≠ .WHITESPACE then pure .break_switch
      else do
        eat_comment
        pure (.continue_ array)
    | none => do
      eat_comment
      pure (.continue_ array)
  | .DOLLAR => parse_script_case env pp is_support array token
  | .TILDE => parse_import_case env pp is_support array token
  | .MULTIPLY | .AMPERSAND | .ANGLE_CLOSE => parse_builtin_case env array token
  | .WORD | .IDENT => parse_keyword_case env fuel pp pb is_support array token
  | .BRACE_OPEN => do
    let p ← peek
    let p ← deref p
    if p.ast_type.is [.WHITESPACE, .NEWLINE] then do
      let children ← pb 0 is_support
      pure (.continue_ (array ++ [AST_Data.Block token.position.closed 0 children]))
    else parse_bracket_case env pp pb is_support array token
  | .BRACKET_OPEN => parse_bracket_case env pp pb is_support array token
  | _ => pure .break_switch

/-- One turn of the main loop of `parse_block`, from the glyph test on. The result is
the new `array` (`continue`), or `none` for `break main_loop`. -/
def parse_item (env : Parser_Env) (fuel : Nat)
    (pp : Bool → List AST_Type → PM (List AST_Data))
    (pb : Nat → Bool → PM (List AST_Data))
    (is_support : Bool) (array : List AST_Data) (token : Lexer_Token) :
    PM (Option (List AST_Data)) := do
  let as_token ←
    (if env.gt_is_non_word token.ast_type then do
      let (word, count) ← get_non_word token
      let p ← peek
      match p with
      | some t =>
        if t.ast_type.is [.WHITESPACE, .NEWLINE] then do
          let _ ← eat_whitespace
          let children ← pp is_support [.NULL]
          pure (some (AST_Data.Token token.position (env.new_hash word) word children))
        else do
          if count > 1 then step_backn count else pure ()
          pure none
      | none => do
        if count > 1 then step_backn count else pure ()
        pure none
    else pure none)
  match as_token with
  | some new_tok => pure (some (array ++ [new_tok]))
  | none => do
    let flow ← parse_switch env fuel pp pb is_support array token
    match flow with
    | .continue_ array => pure (some array)
    | .break_main => pure none
    | .break_switch => do
      step_back
      let children ← pp is_support [.NULL]
      let the_type := if token.ast_type = .ANGLE_OPEN then AST_Type.RAW else AST_Type.NORMAL
      pure (some (array ++ [AST_Data.Base the_type token.position "" children]))

/-- `Parser.parse_block`: the main loop, with `array` as it stands. A nested call of
`parse_block` is the `unwind` test followed by this loop on an empty `array`. -/
def parse_block_loop (env : Parser_Env) :
    Nat → Nat → Bool → List AST_Data → PM (List AST_Data)
  | 0 => fun _ _ _ _ => .out_of_fuel
  | fuel + 1 => fun max_depth is_support array => do
    let token ← next
    match token with
    | none => pure array
    | some token =>
      if token.ast_type.is [.EOF, .BRACE_CLOSE] then pure array
      else if max_depth > 0 ∧ array.length ≥ max_depth then pure array
      else if token.ast_type = .NEWLINE then do
        let p ← prev
        match p with
        | some t =>
          if t.ast_type = .NEWLINE then
            parse_block_loop env fuel max_depth is_support
              (array ++ [AST_Data.Base .BLANK token.position "" []])
          else parse_block_loop env fuel max_depth is_support array
        | none => parse_block_loop env fuel max_depth is_support array
      else do
        let r ← parse_item env fuel (parse_paragraph env fuel)
          (fun max_depth is_support q =>
            if q.unwind then Res.ok [] q
            else parse_block_loop env fuel max_depth is_support [] q)
          is_support array token
        match r with
        | some array => parse_block_loop env fuel max_depth is_support array
        | none => pure array

/-- `Parser.parse_block`. -/
def parse_block (env : Parser_Env) (fuel : Nat) (max_depth : Nat) (is_support : Bool) :
    PM (List AST_Data) := fun p =>
  if p.unwind then .ok [] p
  else parse_block_loop env fuel max_depth is_support [] p

/-- `parse_stream`: the syntax tree together with the final parser state. -/
def parse_stream (env : Parser_Env) (fuel : Nat) (stream : List Lexer_Token)
    (is_support : Bool) (errors : Error_Handler) : Res (List AST_Data) :=
  parse_block env fuel 0 is_support
    { index := 0, unwind := false, stream := stream, errors := errors, has_webp := false }

/-! ### A concrete environment and concrete token streams -/

/-- 32-bit FNV-1a over a list of bytes. -/
def fnv1a_bytes : List Nat → Nat → Nat
  | [], h => h
  | b :: bs, h => fnv1a_bytes bs (((h ^^^ b) * 16777619) % 4294967296)

/-- 32-bit FNV-1a hash of the UTF-8 bytes of a text. -/
def fnv1a (s : String) : Nat :=
  fnv1a_bytes (s.data.flatMap (fun c => (String.utf8EncodeChar c).map UInt8.toNat)) 2166136261

/-- An environment for concrete evaluations of the parser. The kinds after
`is_non_word` are those of the token templates `[!]`, `[+]`, `[#]`, `[-]` of
`main_template` in `src/defaults.go`; every kind that has a case of its own in
`parse_block` comes before the marker. -/
def std_env : Parser_Env where
  gt_is_non_word := fun t => t = .BANG ∨ t = .PLUS ∨ t = .NON_WORD
  new_hash := fnv1a
  _TAGINATOR := fnv1a "taginator"
  _BASE := 537692064
  DEFAULT_QUALITY := 100
  image_quality := 0
  image_max_size := 0
  image_format := .DIRECTORY
  exec_type_check := fun t => match t with
    | ._LOCATOR => .RES_FINDER
    | _ => .NULL
  to_lower := fun s => ⟨s.data.map Char.toLower⟩

/-- Tokens for a list of kinds and texts, on line 1 of `page.x`, with the byte offsets
the texts have when written one after the other from offset `start`. -/
def tokens_from : Nat → List (AST_Type × String) → List Lexer_Token
  | _, [] => []
  | start, (t, f) :: rest =>
    ⟨t, f, ⟨"page.x", start, start + f.length, 1⟩⟩ :: tokens_from (start + f.length) rest

/-- Token stream of a one-line document. -/
def tokens_of (items : List (AST_Type × String)) : List Lexer_Token :=
  tokens_from 0 items

/-- Token stream of the document `~`. -/
def lone_tilde : List Lexer_Token :=
  tokens_of [(.TILDE, "~"), (.EOF, "")]

/-- Token stream of the document `else`. -/
def leading_else : List Lexer_Token :=
  tokens_of [(.WORD, "else"), (.EOF, "")]

/-- Token stream of the document `if %% { a }`. -/
def if_anonymous : List Lexer_Token :=
  tokens_of [(.WORD, "if"), (.WHITESPACE, " "), (.PERCENT, "%"), (.PERCENT, "%"),
    (.WHITESPACE, " "), (.BRACE_OPEN, "\x7b"), (.WHITESPACE, " "), (.WORD, "a"),
    (.WHITESPACE, " "), (.BRACE_CLOSE, "\x7d"), (.EOF, "")]

/-- Token stream of the document `*foo bar`. -/
def leading_unset : List Lexer_Token :=
  tokens_of [(.MULTIPLY, "*"), (.WORD, "foo"), (.WHITESPACE, " "), (.WORD, "bar"), (.EOF, "")]

/-- Token stream of the two-line document `a`, `else b`. -/
def else_after_paragraph : List Lexer_Token :=
  tokens_of [(.WORD, "a"), (.NEWLINE, "\n"), (.WORD, "else"), (.WHITESPACE, " "),
    (.WORD, "b"), (.EOF, "")]

/-- Token stream of the two-line document `a`, `*foo bar`. -/
def unset_after_newline : List Lexer_Token :=
  tokens_of [(.WORD, "a"), (.NEWLINE, "\n"), (.MULTIPLY, "*"), (.WORD, "foo"),
    (.WHITESPACE, " "), (.WORD, "bar"), (.EOF, "")]

/-- Token stream of `x raw { <b>&</b> }`, with `keyword` in the place of `raw`. -/
def raw_scenario (keyword : String) : List Lexer_Token :=
  tokens_of [(.WORD, "x"), (.WHITESPACE, " "), (.WORD, keyword), (.WHITESPACE, " "),
    (.BRACE_OPEN, "\x7b"), (.WHITESPACE, " "), (.ANGLE_OPEN, "<"), (.WORD, "b"),
    (.ANGLE_CLOSE, ">"), (.AMPERSAND, "&"), (.ANGLE_OPEN, "<"), (.FORWARD_SLASH, "/"),
    (.WORD, "b"), (.ANGLE_CLOSE, ">"), (.WHITESPACE, " "), (.BRACE_CLOSE, "\x7d"),
    (.EOF, "")]

/-- A parser state over the given stream. -/
def parser_at (stream : List Lexer_Token) (index : Int) (unwind : Bool)
    (errors : Error_Handler) : Parser :=
  { index := index, unwind := unwind, stream := stream, errors := errors, has_webp := false }

/-- The error handler after the failure that `else_after_paragraph` records. -/
def else_failure : Error_Handler :=
  new_error_handler.new_pos .PARSER_FAILURE ⟨"page.x", 2, 6, 1⟩
    "'else' must follow if-statement" []

/-- The paragraph node of the first line of `else_after_paragraph` and of
`unset_after_newline`. -/
def paragraph_a : AST_Data :=
  AST_Data.Base .NORMAL ⟨"page.x", 0, 1, 1⟩ "" [AST_Data.Base .NORMAL position.zero "a" []]

/-- The empty paragraph node that `else_after_paragraph` emits over and over. -/
def paragraph_b_empty : AST_Data :=
  AST_Data.Base .NORMAL ⟨"page.x", 7, 8, 1⟩ "" []

/-- The empty paragraph node that `unset_after_newline` emits over and over. -/
def paragraph_unset_empty : AST_Data :=
  AST_Data.Base .NORMAL ⟨"page.x", 2, 3, 1⟩ "" []

/-- The error handler `e` after one more turn of the loop on `unset_after_newline`. -/
def unset_failure (e : Error_Handler) : Error_Handler :=
  e.new_pos .PARSER_FAILURE ⟨"page.x", 2, 3, 1⟩ "ambiguous token %q should be escaped" ["*"]

/-- The text of the `RAW` child of the single block of a parse result, when the
result has that shape. -/
def raw_block_text : Res (List AST_Data) → Option String
  | .ok [.Block _ _ [.Base .RAW _ text []]] _ => some text
  | _ => none

/-! ### File tree and finder (`src/filesystem.go`) -/

/-- The record `disk_object`. Objects are handled through pointers: `addr` stands for
the address of the object, and the two fields that the build changes after the tree
has been loaded, `is_used` and `is_built`, live in `Build_State`, keyed by address.
The `parent` pointer is not used by the routines embedded here. -/
inductive disk_object where
  | mk (addr : Nat) (file_type : file_type) (hash_name : Nat) (is_draft : Bool)
      (path : String) (children : List disk_object)
  deriving Repr

/-- Field `addr` (the identity of the object). -/
def disk_object.addr : disk_object → Nat
  | .mk a _ _ _ _ _ => a

/-- Field `file_type`. -/
def disk_object.file_type : disk_object → file_type
  | .mk _ t _ _ _ _ => t

/-- Field `hash_name`. -/
def disk_object.hash_name : disk_object → Nat
  | .mk _ _ h _ _ _ => h

/-- Field `is_draft`. -/
def disk_object.is_draft : disk_object → Bool
  | .mk _ _ _ d _ _ => d

/-- Field `path`. -/
def disk_object.path : disk_object → String
  | .mk _ _ _ _ p _ => p

/-- Field `children`. -/
def disk_object.children : disk_object → List disk_object
  | .mk _ _ _ _ _ c => c

mutual
/-- Decision procedure for equality of disk objects. -/
def disk_object.decEq : (a b : disk_object) → Decidable (a = b)
  | .mk a1 t1 h1 d1 p1 c1, .mk a2 t2 h2 d2 p2 c2 =>
    if hp : a1 = a2 ∧ t1 = t2 ∧ h1 = h2 ∧ d1 = d2 ∧ p1 = p2 then
      match disk_object.decEqList c1 c2 with
      | isFalse hc => isFalse (by intro h; cases h; exact hc rfl)
      | isTrue hc => isTrue (by obtain ⟨e1, e2, e3, e4, e5⟩ := hp; rw [e1, e2, e3, e4, e5, hc])
    else isFalse (by intro h; cases h; exact hp ⟨rfl, rfl, rfl, rfl, rfl⟩)
/-- Decision procedure for equality of lists of disk objects. -/
def disk_object.decEqList : (a b : List disk_object) → Decidable (a = b)
  | [], [] => isTrue rfl
  | x :: xs, y :: ys =>
    match disk_object.decEq x y with
    | isFalse h1 => isFalse (by intro h; cases h; exact h1 rfl)
    | isTrue h1 =>
      match disk_object.decEqList xs ys with
      | isFalse h2 => isFalse (by intro h; cases h; exact h2 rfl)
      | isTrue h2 => isTrue (by rw [h1, h2])
  | [], _ :: _ => isFalse (by intro h; cases h)
  | _ :: _, [] => isFalse (by intro h; cases h)
end

instance : DecidableEq disk_object := disk_object.decEq

/-- Constant `index_hash` of `src/defaults.go`. -/
def index_hash : Nat := 151693739

/-- Go `filepath.Base` (Unix) on a reversed path from which the trailing slashes have
been removed: the characters up to the first separator. -/
def base_aux : List Char → List Char
  | [] => []
  | c :: rest => if c = '/' then [] else c :: base_aux rest

/-- Go `filepath.Base` (Unix): the last element of the path; `.` for the empty path
and `/` for a path of slashes only. -/
def filepath_Base (path : String) : String :=
  if path.data = [] then "."
  else
    match path.data.reverse.dropWhile (fun c => c = '/') with
    | [] => "/"
    | rest => ⟨(base_aux rest).reverse⟩

/-- One row of the edit-distance recursion: the distances from `x :: xs` to every
suffix argument, given the distances `from_xs` from `xs`. -/
def levenshtein_row (x : Char) (from_xs : List Char → Nat) : List Char → Nat
  | [] => from_xs [] + 1
  | y :: ys =>
    min (min (from_xs (y :: ys) + 1) (levenshtein_row x from_xs ys + 1))
      (from_xs ys + if x = y then 0 else 1)

/-- Edit distance on character lists. -/
def levenshtein_chars : List Char → List Char → Nat
  | [] => fun ys => ys.length
  | x :: xs => levenshtein_row x (levenshtein_chars xs)

/-- Modelled from the spec: `levenshtein_distance` is called by `find_file` but is not
among the sources; the spec describes it as the standard edit distance (insert,
delete, substitute, each of cost 1). -/
def levenshtein_distance (a b : String) : Nat :=
  levenshtein_chars a.data b.data

/-- The text `check` that `find_file` compares with the target: the path of the entry,
without its extension for the page-like kinds (`x > is_page && x < end_page`). -/
def check_path (entry : disk_object) : String :=
  if entry.file_type.rank > is_page ∧ entry.file_type.rank < end_page then
    ⟨entry.path.data.take (entry.path.length - (filepath_Ext entry.path).length)⟩
  else entry.path

/-- The test of the first loop of `find_file`: the entry is taken when its `check`
text is longer than the target, the edit distance is at most the difference of the
lengths, and the base names have the same length and the same first character.
`lev` is the routine `levenshtein_distance`. `filepath.Base` never returns the empty
text, so the index `[0]` is in range. -/
def is_candidate (lev : String → String → Nat) (target : String) (entry : disk_object) :
    Bool :=
  let check := check_path entry
  if check.length ≤ target.length then false
  else if lev check target ≤ check.length - target.length then
    let b_target := filepath_Base target
    let b_check := filepath_Base check
    if b_target.length ≠ b_check.length ∨ b_target.data.head? ≠ b_check.data.head? then false
    else true
  else false

/-- The `DIRECTORY` branch of the first loop of `find_file`: the first child whose
`hash_name` is `index_hash`. -/
def index_child (entry : disk_object) : Option disk_object :=
  entry.children.find? (fun child => child.hash_name = index_hash)

mutual
/-- `find_file` of `src/filesystem.go`; `none` is the result `nil, false`. -/
def find_file (lev : String → String → Nat) : disk_object → String → Option disk_object
  | .mk _ _ _ _ _ children, target =>
    match children.find? (is_candidate lev target) with
    | some entry =>
      if entry.file_type = .DIRECTORY then index_child entry else some entry
    | none => find_file_in_directories lev children target
/-- The second loop of `find_file`: the search in the child directories, in order. -/
def find_file_in_directories (lev : String → String → Nat) :
    List disk_object → String → Option disk_object
  | [], _ => none
  | entry :: rest, target =>
    if entry.file_type = .DIRECTORY then
      match find_file lev entry target with
      | some x => some x
      | none => find_file_in_directories lev rest target
    else find_file_in_directories lev rest target
end

mutual
/-- The nodes below a node: its children and everything below them. -/
def disk_object.descendants : disk_object → List disk_object
  | .mk _ _ _ _ _ children => disk_object.descendants_list children
/-- The nodes of a list of trees. -/
def disk_object.descendants_list : List disk_object → List disk_object
  | [] => []
  | entry :: rest => entry :: (entry.descendants ++ disk_object.descendants_list rest)
end

/-- An invariant of the trees that `recurse_directories` builds: only directories
have children. -/
def files_are_leaves (root : disk_object) : Prop :=
  ∀ n ∈ root.descendants, n.file_type ≠ .DIRECTORY → n.children = []

/-! ### Build driver (`src/source/command_build.go`) -/

/-- The part of the program state that `build_pages` reads and writes. `used` and
`built` hold the addresses of the disk objects whose `is_used` and `is_built` flags
are set; `has_failures` is `spindle.errors.has_failures`; `log` lists, oldest first,
the addresses of the files that have been processed (rendered and written, minified
or copied). -/
structure Build_State where
  used : List Nat
  built : List Nat
  has_failures : Bool
  log : List Nat
  deriving DecidableEq, Repr

/-- Read the flag `file.is_used`. -/
def Build_State.is_used (s : Build_State) (file : disk_object) : Bool :=
  s.used.contains file.addr

/-- Read the flag `file.is_built`. -/
def Build_State.is_built (s : Build_State) (file : disk_object) : Bool :=
  s.built.contains file.addr

/-- What `build_pages` calls and the sources do not contain. Rendering is an
arbitrary step: it may set `is_used` flags and record failures, and it changes
nothing else of `Build_State`. -/
structure Build_Env where
  /-- Flag `spindle.build_drafts`. -/
  build_drafts : Bool
  /-- Flag `spindle.build_only_used`. -/
  build_only_used : Bool
  /-- Whether `load_page_from_disk_object` succeeds (the build panics otherwise). -/
  load_ok : Build_State → disk_object → Bool
  /-- `render_syntax_tree`: the addresses whose `is_used` flag the rendering sets, and
  whether it records a failure. -/
  render : Build_State → disk_object → List Nat × Bool
  /-- Whether `write_file` succeeds. -/
  write_ok : Build_State → disk_object → Bool
  /-- Whether `copy_minify` or `copy_file` returns (`copy_file` panics on an error). -/
  copy_ok : Build_State → disk_object → Bool

/-- Result of `build_pages`: the value returned with the state reached, or a panic
with the state reached. -/
inductive Build_Outcome where
  | done (is_done : Bool) (s : Build_State)
  | panicked (s : Build_State)
  deriving DecidableEq, Repr

/-- The state an outcome carries. -/
def Build_Outcome.state : Build_Outcome → Build_State
  | .done _ s => s
  | .panicked s => s

/-- The statements `is_done = false; file.is_built = true` and the start of the
processing of a file. -/
def Build_State.begin_file (s : Build_State) (file : disk_object) : Build_State :=
  { s with built := file.addr :: s.built, log := s.log ++ [file.addr] }

/-- The effect of `render_syntax_tree` on the state. -/
def Build_State.rendered (env : Build_Env) (s : Build_State) (file : disk_object) :
    Build_State :=
  { s with used := (env.render s file).1 ++ s.used,
           has_failures := s.has_failures || (env.render s file).2 }

mutual
/-- `build_pages` of `src/source/command_build.go`. -/
def build_pages (env : Build_Env) : disk_object → Build_State → Build_Outcome
  | .mk _ _ _ _ _ children, s => build_pages_loop env children true s
/-- The loop `main_loop` of `build_pages` over the remaining children, with `is_done`
as it stands. -/
def build_pages_loop (env : Build_Env) :
    List disk_object → Bool → Build_State → Build_Outcome
  | [], is_done, s => .done is_done s
  | file :: rest, is_done, s =>
    if file.file_type = .DIRECTORY then
      match build_pages env file s with
      | .panicked s' => .panicked s'
      | .done done s' => build_pages_loop env rest (if done then is_done else false) s'
    else if s.is_built file then build_pages_loop env rest is_done s
    else if file.is_draft ∧ ¬ env.build_drafts then build_pages_loop env rest is_done s
    else if env.build_only_used ∧ ¬ s.is_used file then build_pages_loop env rest is_done s
    else
      let s := s.begin_file file
      if file.file_type = .MARKUP then
        if ¬ env.load_ok s file then .panicked s
        else
          let s := s.rendered env file
          if ¬ env.write_ok s file then .done false { s with has_failures := true }
          else build_pages_loop env rest false s
      else
        if ¬ env.copy_ok s file then .panicked s
        else build_pages_loop env rest false s
end

/-- Result of the build loop of `command_build`. -/
inductive Loop_Outcome where
  | finished (s : Build_State)
  | panicked (s : Build_State)
  | out_of_fuel (s : Build_State)
  deriving DecidableEq, Repr

/-- The state a loop outcome carries. -/
def Loop_Outcome.state : Loop_Outcome → Build_State
  | .finished s => s
  | .panicked s => s
  | .out_of_fuel s => s

/-- The loop `for { done := build_pages(...); if has_failures { break }; if done
{ break } }` of `command_build`, with at most `fuel` passes. -/
def build_loop (env : Build_Env) (file_tree : disk_object) : Nat → Build_State → Loop_Outcome
  | 0, s => .out_of_fuel s
  | fuel + 1, s =>
    match build_pages env file_tree s with
    | .panicked s' => .panicked s'
    | .done done s' =>
      if s'.has_failures then .finished s'
      else if done then .finished s'
      else build_loop env file_tree fuel s'

/-- A node that `build_pages` does not skip for being a draft or unused. -/
def eligible (env : Build_Env) (s : Build_State) (file : disk_object) : Prop :=
  (file.is_draft = false ∨ env.build_drafts = true) ∧
  (s.is_used file = true ∨ env.build_only_used = false)

mutual
/-- The files that `build_pages` visits: the children that are no directories, and the
files of the child directories. -/
def disk_object.files : disk_object → List disk_object
  | .mk _ _ _ _ _ children => disk_object.files_list children
/-- The files of a list of trees. -/
def disk_object.files_list : List disk_object → List disk_object
  | [] => []
  | entry :: rest =>
    if entry.file_type = .DIRECTORY then entry.files ++ disk_object.files_list rest
    else entry :: disk_object.files_list rest
end

/-- Number of nodes of a tree that are no directories. -/
def count_files (root : disk_object) : Nat :=
  (root.descendants.filter (fun n => n.file_type ≠ .DIRECTORY)).length

/-- A program state with an empty log. -/
def initial_state (used built : List Nat) (has_failures : Bool) : Build_State :=
  { used := used, built := built, has_failures := has_failures, log := [] }

/-! ### Concrete file trees and vocabulary for the build theorems -/

/-- The file `source/a/b/c.x` of `finder_tree`. -/
def file_a_b_c : disk_object :=
  .mk 3 .MARKUP (fnv1a "c") false "source/a/b/c.x" []

/-- The file `source/b/c.x` of `finder_tree`. -/
def file_b_c : disk_object :=
  .mk 5 .MARKUP (fnv1a "c") false "source/b/c.x" []

/-- A tree that holds both `source/a/b/c.x` and `source/b/c.x`. -/
def finder_tree : disk_object :=
  .mk 0 .ROOT (fnv1a "source") false "source" [
    .mk 1 .DIRECTORY (fnv1a "a") false "source/a" [
      .mk 2 .DIRECTORY (fnv1a "b") false "source/a/b" [file_a_b_c]],
    .mk 4 .DIRECTORY (fnv1a "b") false "source/b" [file_b_c]]

/-- The file `source/about.x` of `redirect_tree`. -/
def file_about : disk_object :=
  .mk 1 .MARKUP (fnv1a "about") false "source/about.x" []

/-- The file `source/posts/index.x` of `redirect_tree`. -/
def file_posts_index : disk_object :=
  .mk 4 .MARKUP (fnv1a "index") false "source/posts/index.x" []

/-- The directory `source/posts` of `redirect_tree`. -/
def directory_posts : disk_object :=
  .mk 2 .DIRECTORY (fnv1a "posts") false "source/posts" [
    .mk 3 .MARKUP (fnv1a "hello") false "source/posts/hello.x" [],
    file_posts_index]

/-- The file `source/zebra.x` of `redirect_tree`. -/
def file_zebra : disk_object :=
  .mk 5 .MARKUP (fnv1a "zebra") false "source/zebra.x" []

/-- A build environment whose collaborators always succeed and mark nothing used. -/
def quiet_build_env : Build_Env where
  build_drafts := false
  build_only_used := false
  load_ok := fun _ _ => true
  render := fun _ _ => ([], false)
  write_ok := fun _ _ => true
  copy_ok := fun _ _ => true

/-- Invariant of the build loop, relative to the addresses `built0` that were built
at the start: the log has no duplicates, every logged address is built, what was built
stays built, and nothing built at the start is logged. -/
def log_inv (built0 : List Nat) (s : Build_State) : Prop :=
  s.log.Nodup ∧ (∀ a ∈ s.log, a ∈ s.built) ∧ (∀ a ∈ built0, a ∈ s.built) ∧
    (∀ a ∈ s.log, a ∉ built0)

/-- Number of files of the tree that are not built yet. -/
def unbuilt (root : disk_object) (s : Build_State) : Nat :=
  (root.files.filter (fun n => !s.is_built n)).length

/-! ### Specification vocabulary for raw blocks -/

/-- Blank characters: space, newline and tab. -/
def is_blank (c : Char) : Bool :=
  c = ' ' || c = nl || c = tab

/-- A text without its blank characters. -/
def skeleton (l : List Char) : List Char :=
  l.filter (fun c => !is_blank c)

/-- A text holds neither `<` nor `>`. -/
def no_angle (s : String) : Prop :=
  '<' ∉ s.data ∧ '>' ∉ s.data

/-- Only `ANGLE_OPEN` and `ANGLE_CLOSE` tokens carry the characters `<` and `>`. -/
def angles_only_in_angle_tokens (stream : List Lexer_Token) : Prop :=
  ∀ t ∈ stream, t.ast_type ≠ .ANGLE_OPEN → t.ast_type ≠ .ANGLE_CLOSE → no_angle t.field

/-! ### Concrete inputs and vocabulary for the parser and sitemap theorems -/

/-- A text of three lines: two lines indented by four spaces, and between them a line
made of two spaces only. -/
def space_only_line_text : String := "    a\n  \n    b"

/-- Token stream of the document `\x7b else \x7d`. -/
def else_in_block : List Lexer_Token :=
  tokens_of [(.BRACE_OPEN, "\x7b"), (.WHITESPACE, " "), (.WORD, "else"), (.WHITESPACE, " "),
    (.BRACE_CLOSE, "\x7d"), (.EOF, "")]

/-- Token stream of the line `& foo bar`, with the given sigil in the place of `&`. -/
def stray_sigil (kind : AST_Type) (sigil : String) : List Lexer_Token :=
  tokens_of [(kind, sigil), (.WHITESPACE, " "), (.WORD, "foo"), (.WHITESPACE, " "),
    (.WORD, "bar"), (.NEWLINE, "\n"), (.EOF, "")]

/-- The error handler after the failure that `stray_sigil` records. -/
def ambiguous_failure (sigil : String) : Error_Handler :=
  new_error_handler.new_pos .PARSER_FAILURE ⟨"page.x", 0, 1, 1⟩
    "ambiguous token %q should be escaped" [sigil]

/-- The paragraph node of a one-line document with the given text. -/
def paragraph_of_line (text : String) : AST_Data :=
  AST_Data.Base .NORMAL ⟨"page.x", 0, 1, 1⟩ "" [AST_Data.Base .NORMAL position.zero text []]

/-- Token stream of the declaration `name = v`, with or without the blank before and
after `=`. -/
def declaration_line (blank_before blank_after : Bool) : List Lexer_Token :=
  tokens_of ([(.WORD, "name")] ++ (if blank_before then [(.WHITESPACE, " ")] else []) ++
    [(.EQUALS, "=")] ++ (if blank_after then [(.WHITESPACE, " ")] else []) ++
    [(.WORD, "v"), (.NEWLINE, "\n"), (.EOF, "")])

/-- The `DECL` node of `declaration_line` with the given children. -/
def declaration_node (children : List AST_Data) : AST_Data :=
  AST_Data.Declare .DECL ⟨"page.x", 0, 4, 1⟩ (fnv1a "name") 0 0 false false children

/-- The spellings that `check_modifier_type` accepts, in lower case. -/
def modifier_spellings : List String :=
  ["slug", "s", "unique_slug", "uslug", "us", "upper", "u", "lower", "l", "title", "t"]

/-- Token stream of the line `%x:raw`. -/
def variable_with_raw : List Lexer_Token :=
  tokens_of [(.PERCENT, "%"), (.WORD, "x"), (.COLON, ":"), (.WORD, "raw"), (.NEWLINE, "\n"),
    (.EOF, "")]

/-- The error handler after the failure that `variable_with_raw` records. -/
def unknown_modifier_failure : Error_Handler :=
  new_error_handler.new_pos .PARSER_FAILURE ⟨"page.x", 3, 6, 1⟩
    "unknown variable modifier %q" ["raw"]

/-- Token stream of the tail `300 png\x7d` of an image expression. -/
def image_tail_spaced : List Lexer_Token :=
  tokens_of [(.NUMBER, "300"), (.WHITESPACE, " "), (.WORD, "png"), (.BRACE_CLOSE, "\x7d")]

/-- The file kind that `parse_image_settings` stores for a codec word. -/
def codec_file_type (c : String) : file_type :=
  if c = "png" then .IMG_PNG else if c = "webp" then .IMG_WEB else .IMG_JPG

/-- The quality that `parse_image_settings` returns when the settings hold `q`: the
constant `DEFAULT_QUALITY` takes the place of zero. -/
def final_quality (env : Parser_Env) (q : Int) : Int :=
  if q = 0 then env.DEFAULT_QUALITY else q

/-- A file list with one static HTML file and no markup file. -/
def static_html_only : List file :=
  [⟨.STATIC_HTML, "source/a.html", "public/a.html"⟩]

/-- The files that get a sitemap entry: the kinds `MARKUP` and `STATIC_HTML`. -/
def has_sitemap_entry (f : file) : Bool :=
  f.file_type = .MARKUP || f.file_type = .STATIC_HTML

/-- A file whose own `is_draft` flag is not set, in the directory `draft_directory`. -/
def file_in_draft_directory : disk_object :=
  .mk 2 .MARKUP (fnv1a "post") false "source/_drafts/post.x" []

/-- A directory whose `is_draft` flag is set. -/
def draft_directory : disk_object :=
  .mk 1 .DIRECTORY (fnv1a "_drafts") true "source/_drafts" [file_in_draft_directory]

/-- A tree with a draft directory that holds a file whose own flag is not set, beside
a draft file. -/
def draft_tree : disk_object :=
  .mk 0 .ROOT (fnv1a "source") false "source" [
    draft_directory,
    .mk 3 .MARKUP (fnv1a "_idea") true "source/_idea.x" []]

/-- Between the states `s` and `s'` nothing was marked built or processed but files
of the list `files` whose `is_draft` flag is not set. -/
def only_non_drafts (files : List disk_object) (s s' : Build_State) : Prop :=
  (∀ a ∈ s'.built, a ∈ s.built ∨ ∃ m ∈ files, m.addr = a ∧ m.is_draft = false) ∧
  ∃ new, s'.log = s.log ++ new ∧ ∀ a ∈ new, ∃ m ∈ files, m.addr = a ∧ m.is_draft = false

/-- The messages of the parser failures after which parsing goes on without `unwind`. -/
def recoverable_messages : List String :=
  ["malformed script call (or unescaped $ at start of line)",
   "ambiguous token %q should be escaped",
   "unknown variable modifier %q"]

/-- A recorded diagnostic that is a parser failure with another message than the
three of `recoverable_messages`. -/
def is_fatal (err : spindle_error) : Prop :=
  err.kind = .PARSER_FAILURE ∧ err.message ∉ recoverable_messages

/-- The diagnostics that the handler held at the start are still there, in front of
those recorded since. -/
def recorded_since (before : List spindle_error) (p : Parser) : Prop :=
  ∃ new, p.errors.all_errors = before ++ new

/-- Invariant of the parser: the diagnostics recorded since the handler held `before`
come after `before`, and if one of them is fatal then `unwind` is set. -/
def unwind_inv (before : List spindle_error) (p : Parser) : Prop :=
  ∃ new, p.errors.all_errors = before ++ new ∧ ((∃ err ∈ new, is_fatal err) → p.unwind = true)

/-- A routine that, when it returns, takes states with `P` to states with `Q`. -/
def Triple {α : Type} (P : Parser → Prop) (m : PM α) (Q : Parser → Prop) : Prop :=
  ∀ p a q, P p → m p = .ok a q → Q q

/-- A routine that neither records a diagnostic nor writes `unwind`. -/
def Frame {α : Type} (m : PM α) : Prop :=
  ∀ p a q, m p = .ok a q → q.errors = p.errors ∧ q.unwind = p.unwind

/-- A routine that keeps the invariant `unwind_inv`. -/
def Keeps {α : Type} (before : List spindle_error) (m : PM α) : Prop :=
  Triple (unwind_inv before) m (unwind_inv before)

/-- Token stream of the two-line document `a`, `else`. -/
def else_at_end : List Lexer_Token :=
  tokens_of [(.WORD, "a"), (.NEWLINE, "\n"), (.WORD, "else"), (.EOF, "")]

/-- Token stream of the line `$`. -/
def lone_dollar : List Lexer_Token :=
  tokens_of [(.DOLLAR, "$"), (.NEWLINE, "\n"), (.EOF, "")]

/-- The error handler after the failure that `lone_dollar` records. -/
def script_failure : Error_Handler :=
  new_error_handler.new_pos .PARSER_FAILURE ⟨"page.x", 0, 1, 1⟩
    "malformed script call (or unescaped $ at start of line)" []

/-- Token stream of a template declaration `[inner] = bar`, with the given opening and
closing tokens and the given token between them. -/
def template_line (opening closing inner : AST_Type × String) : List Lexer_Token :=
  tokens_of [opening, inner, closing, (.WHITESPACE, " "), (.EQUALS, "="), (.WHITESPACE, " "),
    (.WORD, "bar"), (.NEWLINE, "\n"), (.EOF, "")]

/-- The error handler `e` after the failure that a brace declaration with a name
records. -/
def brace_failure (e : Error_Handler) (pos : position) (name : String) : Error_Handler :=
  e.new_pos .PARSER_FAILURE pos
    "bad type in \x7bdeclaration\x7d: %q cannot be used as a token character" [name]

/-- A routine whose results, when it returns, all satisfy `Q`. -/
def Returns {α : Type} (m : PM α) (Q : α → Prop) : Prop :=
  ∀ p a q, m p = .ok a q → Q a

/-! ### Terminal report of the error handler (`src/source/error_handler.go`) -/

/-- `error_type.String`. -/
def error_type.String : error_type → String
  | .WARNING => "Warning"
  | .RENDER_WARNING => "Render Warning"
  | .PARSER_WARNING => "Parser Warning"
  | .FAILURE => "Failure"
  | .RENDER_FAILURE => "Render Failure"
  | .PARSER_FAILURE => "Parser Failure"

/-- Go `unicode.IsSpace`: the characters with the Unicode property White_Space. -/
def unicode_IsSpace (c : Char) : Bool :=
  let n := c.toNat
  (9 ≤ n ∧ n ≤ 13) ∨ n = 32 ∨ n = 133 ∨ n = 160 ∨ n = 5760 ∨ (8192 ≤ n ∧ n ≤ 8202) ∨
    n = 8232 ∨ n = 8233 ∨ n = 8239 ∨ n = 8287 ∨ n = 12288

/-- Go `strings.TrimSpace`. -/
def trim_space (s : String) : String :=
  ⟨((s.data.dropWhile unicode_IsSpace).reverse.dropWhile unicode_IsSpace).reverse⟩

/-- `term_string` of a recorded diagnostic: the method of `spindle_pos_error` when the
diagnostic has a position, that of `spindle_error` otherwise. `sprintf` is
`fmt.Sprintf`, which made the message text when the diagnostic was recorded. -/
def spindle_error.term_string (sprintf : String → List String → String)
    (e : spindle_error) : String :=
  match e.pos with
  | some pos =>
    e.kind.String ++ "! " ++ pos.file_path ++ " — line " ++ toString pos.line ++ "\n    " ++
      sprintf e.message e.subst
  | none => e.kind.String ++ "!\n    " ++ sprintf e.message e.subst

/-- `Error_Handler.render_term_errors`. -/
def Error_Handler.render_term_errors (sprintf : String → List String → String)
    (e : Error_Handler) : String :=
  trim_space (e.all_errors.foldl
    (fun buffer the_error => buffer ++ the_error.term_string sprintf ++ "\n\n") "")

/-- A stand-in for `fmt.Sprintf` on messages without a verb: the message itself. -/
def sprintf_plain (message : String) (_subst : List String) : String := message

/-- A handler that recorded a parser failure and then a warning. -/
def failure_then_warning : Error_Handler :=
  (new_error_handler.new_pos .PARSER_FAILURE ⟨"page.x", 0, 1, 3⟩ "bad token" []).new
    .WARNING "slow build" []

/-- A handler that recorded the same two diagnostics, the warning first. -/
def warning_then_failure : Error_Handler :=
  (new_error_handler.new .WARNING "slow build" []).new_pos
    .PARSER_FAILURE ⟨"page.x", 0, 1, 3⟩ "bad token" []

/-! ### Concrete inputs of the third group -/

/-- Token stream of a line of `k` glyphs of kind `kind` directly followed by the word
`word`. -/
def glyph_run (kind : AST_Type) (glyph : String) (k : Nat) : List Lexer_Token :=
  tokens_of (List.replicate k (kind, glyph) ++ [(.WORD, "word"), (.EOF, "")])

/-- Token stream of `x raw \x7b \<\x7dy\x7d` with `keyword` in the place of `raw`: in
the block an `ESCAPE` token, an `ANGLE_OPEN` token, a closing brace, a word and a
second closing brace. -/
def raw_escape_scenario (keyword : String) : List Lexer_Token :=
  tokens_of [(.WORD, "x"), (.WHITESPACE, " "), (.WORD, keyword), (.WHITESPACE, " "),
    (.BRACE_OPEN, "\x7b"), (.WHITESPACE, " "), (.ESCAPE, "\\"), (.ANGLE_OPEN, "<"),
    (.BRACE_CLOSE, "\x7d"), (.WORD, "y"), (.BRACE_CLOSE, "\x7d"), (.EOF, "")]

/-- Every token of the stream has a non-empty byte range. -/
def nonempty_ranges (stream : List Lexer_Token) : Prop :=
  ∀ t ∈ stream, t.position.start < t.position.end_

instance (stream : List Lexer_Token) : Decidable (nonempty_ranges stream) :=
  inferInstanceAs (Decidable (∀ t ∈ stream, t.position.start < t.position.end_))

/-- Token stream of the line `a b`; the end-of-file token has a one-byte range. -/
def ranged_line : List Lexer_Token :=
  tokens_of [(.WORD, "a"), (.WHITESPACE, " "), (.WORD, "b"), (.EOF, "\x00")]

/-- Token stream of `x raw \x7b b \x7d`; the end-of-file token has a one-byte range. -/
def ranged_raw_block : List Lexer_Token :=
  tokens_of [(.WORD, "x"), (.WHITESPACE, " "), (.WORD, "raw"), (.WHITESPACE, " "),
    (.BRACE_OPEN, "\x7b"), (.WHITESPACE, " "), (.WORD, "b"), (.WHITESPACE, " "),
    (.BRACE_CLOSE, "\x7d"), (.EOF, "\x00")]

/-- Token-free vocabulary of the finder: `target` can be obtained from `check` by
deleting characters. -/
def is_subsequence (target check : String) : Prop :=
  List.Sublist target.data check.data

/-! ### Calls on the error handler -/

/-- A call of one of the three methods that write an `Error_Handler`. -/
inductive Handler_Call where
  | reset
  | new (kind : error_type) (message : String) (subst : List String)
  | new_pos (kind : error_type) (pos : position) (message : String) (subst : List String)
  deriving DecidableEq, Repr

/-- The handler after one call. -/
def Error_Handler.call (e : Error_Handler) : Handler_Call → Error_Handler
  | .reset => e.reset
  | .new kind message subst => e.new kind message subst
  | .new_pos kind pos message subst => e.new_pos kind pos message subst

/-- The handler after a sequence of calls, the first call first. -/
def Error_Handler.run (e : Error_Handler) (calls : List Handler_Call) : Error_Handler :=
  calls.foldl Error_Handler.call e

/-- The diagnostic that a call records: none for `reset`. -/
def Handler_Call.diagnostic : Handler_Call → Option spindle_error
  | .reset => none
  | .new kind message subst => some ⟨kind, none, message, subst⟩
  | .new_pos kind pos message subst => some ⟨kind, some pos, message, subst⟩

/-- The calls that come after the last `reset` of the sequence (all of them when there
is no `reset`). -/
def since_last_reset (calls : List Handler_Call) : List Handler_Call :=
  (calls.reverse.takeWhile (fun c => decide (c ≠ .reset))).reverse

/-- The diagnostics recorded since the last `reset`, in the order of the calls. -/
def recorded_since_reset (calls : List Handler_Call) : List spindle_error :=
  (since_last_reset calls).filterMap Handler_Call.diagnostic

/-- The three failure kinds. -/
def error_type.is_failure_kind (kind : error_type) : Prop :=
  kind = .FAILURE ∨ kind = .RENDER_FAILURE ∨ kind = .PARSER_FAILURE

/-- The three warning kinds. -/
def error_type.is_warning_kind (kind : error_type) : Prop :=
  kind = .WARNING ∨ kind = .RENDER_WARNING ∨ kind = .PARSER_WARNING

/-! ### Element ids (`src/text.go`) -/

/-- What `make_element_id` uses from the Go library: the tables behind
`unicode.IsLetter` and `unicode.IsNumber`, and `strings.ToLower`. -/
structure Text_Env where
  /-- Go `unicode.IsLetter`. -/
  is_letter : Char → Bool
  /-- Go `unicode.IsNumber`. -/
  is_number : Char → Bool
  /-- Go `strings.ToLower`. -/
  to_lower : String → String

/-- The loop of `make_element_id`: the characters written to the builder `new` for the
rest of the text, `inside_element` as it stands. -/
def make_element_id_loop (env : Text_Env) : List Char → Bool → List Char
  | [], _ => []
  | c :: cs, inside_element =>
    if c = '<' then make_element_id_loop env cs true
    else if c = '>' then '-' :: make_element_id_loop env cs false
    else if inside_element then make_element_id_loop env cs inside_element
    else if env.is_letter c || env.is_number c then
      c :: make_element_id_loop env cs inside_element
    else if unicode_IsSpace c || c = '-' then '-' :: make_element_id_loop env cs inside_element
    else make_element_id_loop env cs inside_element

/-- `make_element_id` of `src/text.go`. -/
def make_element_id (env : Text_Env) (source : String) : String :=
  env.to_lower ⟨make_element_id_loop env source.data false⟩

/-- The text with every tag replaced by one dash: the characters from a `<` up to the
next `>` become a single `-`, a `>` outside a tag becomes `-` as well, and a `<`
without a later `>` is dropped with all that follows it. `inside` says whether the
text starts inside a tag. -/
def tags_to_dashes_loop : List Char → Bool → List Char
  | [], _ => []
  | c :: cs, inside =>
    if c = '<' then tags_to_dashes_loop cs true
    else if c = '>' then '-' :: tags_to_dashes_loop cs false
    else if inside then tags_to_dashes_loop cs inside
    else c :: tags_to_dashes_loop cs inside

/-- The text with every tag replaced by one dash. -/
def tags_to_dashes (t : String) : String :=
  ⟨tags_to_dashes_loop t.data false⟩

/-- The library routines on ASCII text: letters `a-z` and `A-Z`, digits `0-9`, and the
lower-casing of `A-Z`. They agree with the Go routines on every ASCII character. -/
def ascii_text_env : Text_Env where
  is_letter := Char.isAlpha
  is_number := Char.isDigit
  to_lower := fun s => ⟨s.data.map Char.toLower⟩

/-! ### The reload hub (`src/source/command_serve.go`) -/

/-- The part of `Client_Hub` that `run` reads and writes, with the state of the send
buffers. A client is named by its address. `clients` holds the keys of the map
`h.clients` (every stored value is `true`); `closed` holds the clients whose `send`
buffer has been closed, the latest first. A buffer that is not in `closed` is open. -/
structure Client_Hub where
  clients : List Nat
  closed : List Nat
  deriving DecidableEq, Repr

/-- What the `select` of `Client_Hub.run` receives: a client on `register`, a client on
`unregister`, or a message on `broadcast`; `full` lists the clients whose send buffer
is full when the message reaches them. -/
inductive Hub_Event where
  | register (client : Nat)
  | unregister (client : Nat)
  | broadcast (full : List Nat)
  deriving DecidableEq, Repr

/-- The hub made by `make(map[*Client]bool)` in `command_serve.go:83`: no client, and
no buffer closed. -/
def new_hub : Client_Hub := ⟨[], []⟩

/-- Go `close(client.send)`: closing a closed channel is a run-time panic (`none`). -/
def close_send (h : Client_Hub) (client : Nat) : Option Client_Hub :=
  if client ∈ h.closed then none else some { h with closed := client :: h.closed }

/-- Go `delete(h.clients, client)`. -/
def delete_client (h : Client_Hub) (client : Nat) : Client_Hub :=
  { h with clients := h.clients.filter (fun c => decide (c ≠ client)) }

/-- The loop `for client := range h.clients` of the `broadcast` case, over the keys
still to be visited. A send on a closed channel is a run-time panic (`none`), whether
the buffer is full or not. -/
def broadcast_loop (full : List Nat) : List Nat → Client_Hub → Option Client_Hub
  | [], h => some h
  | client :: rest, h =>
    if client ∈ full then
      match close_send h client with
      | none => none
      | some h => broadcast_loop full rest (delete_client h client)
    else if client ∈ h.closed then none
    else broadcast_loop full rest h

/-- One turn of the loop of `Client_Hub.run`; `none` is a run-time panic. -/
def Client_Hub.step (h : Client_Hub) : Hub_Event → Option Client_Hub
  | .register client =>
    some { h with clients := if client ∈ h.clients then h.clients else client :: h.clients }
  | .unregister client =>
    if client ∈ h.clients then close_send (delete_client h client) client else some h
  | .broadcast full => broadcast_loop full h.clients h

/-- The hub after a sequence of events, the first event first. -/
def Client_Hub.run (h : Client_Hub) : List Hub_Event → Option Client_Hub
  | [] => some h
  | e :: es =>
    match h.step e with
    | none => none
    | some h => h.run es

/-- The clients of the `register` events of a sequence, in order. -/
def registered : List Hub_Event → List Nat
  | [] => []
  | .register client :: es => client :: registered es
  | _ :: es => registered es

/-- Every client is registered at most once. -/
def registered_once (events : List Hub_Event) : Prop :=
  (registered events).Nodup

instance (events : List Hub_Event) : Decidable (registered_once events) :=
  inferInstanceAs (Decidable (registered events).Nodup)

/-- Invariant of the hub: every client of the set has an open send buffer, no key is
held twice, and no buffer was closed twice. -/
def hub_inv (h : Client_Hub) : Prop :=
  (∀ c ∈ h.clients, c ∉ h.closed) ∧ h.clients.Nodup ∧ h.closed.Nodup

/-- A sequence of events: two clients register, a broadcast finds the buffer of the
first one full, then both unregister. -/
def hub_events : List Hub_Event :=
  [.register 1, .register 2, .broadcast [1], .unregister 1, .unregister 2]

/-! ### Plates (`src/markup.go`) -/

/-- The record `markup`, with the one field that `assign_plate` reads and writes:
`vars`, a map from names to texts kept as a list of pairs in which the first pair with
a name counts. -/
structure markup where
  vars : List (String × String)
  deriving DecidableEq, Repr

/-- What `assign_plate` calls and the embedding leaves open: the plate files behind
`load_file` (`none` when the file cannot be read), the routine `markup_parser`, the
routine `merge_vars`, and the value of `config.vars`. -/
structure Plate_Env where
  /-- `load_file` of `src/filesystem.go`, on a path. -/
  load_file : String → Option String
  /-- `markup_parser` of `src/markup.go`. -/
  parse_markup : String → markup
  /-- The routine `merge_vars`. -/
  merge_vars : List (String × String) → List (String × String) → List (String × String)
  /-- Value of `config.vars`. -/
  config_vars : List (String × String)

/-- `assign_plate` of `src/markup.go`. The result is the page after the call together
with the map `cache_plate`; `none` means that the given number of nested calls did not
suffice. -/
def assign_plate (env : Plate_Env) :
    Nat → markup → List (String × markup) → Option (markup × List (String × markup))
  | 0, _, _ => none
  | fuel + 1, some_page, cache_plate =>
    match some_page.vars.lookup "plate" with
    | none => some ({ vars := env.merge_vars some_page.vars env.config_vars }, cache_plate)
    | some ident =>
      match cache_plate.lookup ident with
      | some x => some ({ vars := env.merge_vars some_page.vars x.vars }, cache_plate)
      | none =>
        match env.load_file (sprint "config/plates/%s.x" ident) with
        | none => some (some_page, cache_plate)
        | some raw_text =>
          match assign_plate env fuel (env.parse_markup raw_text) cache_plate with
          | none => none
          | some (the_plate, cache_plate) =>
            some ({ vars := env.merge_vars some_page.vars the_plate.vars },
              (ident, the_plate) :: cache_plate)

/-- The plate that the file of the plate `ident` names, when there is such a file and
its text names a plate. -/
def plate_of (env : Plate_Env) (ident : String) : Option String :=
  match env.load_file (sprint "config/plates/%s.x" ident) with
  | none => none
  | some raw_text => (env.parse_markup raw_text).vars.lookup "plate"

/-- A list of plate names closed under `plate_of`, none of them in the cache: every
plate of the list names a plate of the list. -/
def plate_cycle (env : Plate_Env) (cache_plate : List (String × markup))
    (cycle : List String) : Prop :=
  ∀ ident ∈ cycle, cache_plate.lookup ident = none ∧ ∃ next ∈ cycle, plate_of env ident = some next

/-- A plate directory with the one file `config/plates/foo.x`, whose text names the
plate `foo` itself; the parser stand-in reads the one declaration of that text. -/
def self_plate_env : Plate_Env where
  load_file := fun path => if path = "config/plates/foo.x" then some "plate = foo" else none
  parse_markup := fun text => if text = "plate = foo" then ⟨[("plate", "foo")]⟩ else ⟨[]⟩
  merge_vars := fun a b => a ++ b
  config_vars := []

/-- A page that names the plate `foo`. -/
def page_with_plate_foo : markup := ⟨[("title", "Home"), ("plate", "foo")]⟩

/-! ### Reserved hashes (`src/defaults.go`) -/

/-- Constant `default_hash`, with the comment `"default"`. -/
def default_hash : Nat := 2470140894

/-- Constant `base_hash`, with the comment `"%"`. -/
def base_hash : Nat := 537692064

/-- Constant `it_hash`, with the comment `"it"`. -/
def it_hash : Nat := 1194886160

/-- Constant `stop_hash`, with the comment `"."`. -/
def stop_hash : Nat := 722245873

/-- Constant `import_hash`, with the comment `"import"`. -/
def import_hash : Nat := 288002260

/-- Constant `url_hash`, with the comment `"spindle.url"`. -/
def url_hash : Nat := 4233404181

/-- Constant `canonical_hash`, with the comment `"spindle.url_canonical"`. -/
def canonical_hash : Nat := 421032728

/-- Constant `is_server_hash`, with the comment `"spindle.is_server"`. -/
def is_server_hash : Nat := 3014801206

/-- Constant `reload_script_hash`, with the comment `"spindle.reload_script"`. -/
def reload_script_hash : Nat := 2807780945

/-! ### Text routines (`src/text.go`, `src/markup.go`, `src/source/parser.go`) -/

/-- Result of a routine that can fail at run time or run without end: the value, a
run-time panic (index or slice out of range), or the bound on the number of loop turns
being used up. -/
inductive Run (α : Type) where
  | done (a : α)
  | panic
  | out_of_fuel
  deriving DecidableEq, Repr

/-- Index expression on the table `ascii_space` (256 entries); `none` is the index out
of range. -/
def ascii_space (i : Nat) : Option Nat :=
  if i < 256 then some (if (9 ≤ i ∧ i ≤ 13) ∨ i = 32 then 1 else 0) else none

/-- Index expression on the table `ascii_number` (256 entries); `none` is the index out
of range. -/
def ascii_number (i : Nat) : Option Nat :=
  if i < 256 then some (if 48 ≤ i ∧ i ≤ 57 then 1 else 0) else none

/-- Constant `utf8.RuneSelf`. -/
def utf8_RuneSelf : Nat := 128

/-- Go `strings.TrimFunc(s, unicode.IsSpace)` on characters. -/
def trim_space_chars (s : List Char) : List Char :=
  ((s.dropWhile unicode_IsSpace).reverse.dropWhile unicode_IsSpace).reverse

/-- `consume_whitespace` of `src/text.go`, on characters. The source walks bytes; a
byte below `utf8.RuneSelf` is a whole character, and the first byte of any other
character is not below it. -/
def consume_whitespace : List Char → List Char
  | [] => []
  | c :: cs =>
    if c.toNat ≥ utf8_RuneSelf then trim_space_chars (c :: cs)
    else if ascii_space c.toNat = some 0 then c :: cs
    else consume_whitespace cs

/-- `is_all_numbers` of `src/text.go`, on characters; `none` is the run-time panic of
the index expression `ascii_number[c]`. -/
def is_all_numbers_chars (env : Text_Env) : List Char → Option Bool
  | [] => some true
  | c :: cs =>
    if c.toNat ≥ utf8_RuneSelf ∧ env.is_number c = false then some false
    else
      match ascii_number c.toNat with
      | none => none
      | some n => if n = 0 then some false else is_all_numbers_chars env cs

/-- `is_all_numbers` of `src/text.go`. -/
def is_all_numbers (env : Text_Env) (input : String) : Option Bool :=
  is_all_numbers_chars env input.data

/-- `extract_ident` of `src/text.go`, on characters. -/
def extract_ident (env : Text_Env) (input : List Char) : List Char :=
  input.takeWhile (fun c =>
    env.is_letter c || env.is_number c || c = '_' || c = '.' || c = '-')

/-- `extract_arbitrary_word` of `src/text.go`, on characters. -/
def extract_arbitrary_word (input : List Char) : List Char :=
  input.takeWhile (fun c => !unicode_IsSpace c)

/-- The loop of `extract_code_block`: the index at which the function returns
`input[:i]`, `none` when the loop ends without a `return`. -/
def extract_code_block_loop : List Char → Nat → Int → Char → Option Nat
  | [], _, _, _ => none
  | c :: cs, i, depth, lastr =>
    if lastr = '\\' then extract_code_block_loop cs (i + 1) depth c
    else
      let depth := if c = '\x7b' then depth + 1 else if c = '\x7d' then depth - 1 else depth
      if depth = 0 then some i else extract_code_block_loop cs (i + 1) depth c

/-- `extract_code_block` of `src/markup.go`, on characters. -/
def extract_code_block (input : List Char) : List Char :=
  match extract_code_block_loop input 0 1 'a' with
  | some i => input.take i
  | none => input

/-- Go `strings.IndexRune`, on characters; `none` is the result `-1`. -/
def index_rune (c : Char) : List Char → Option Nat
  | [] => none
  | x :: xs => if x = c then some 0 else (index_rune c xs).map (fun i => i + 1)

/-- The loop of `unix_args`, with `input`, `is_quote` and `args` as they stand. The
index `input[0]` panics on an empty text. -/
def unix_args_loop : Nat → List Char → Bool → List String → Run (List String)
  | 0, _, _, _ => .out_of_fuel
  | fuel + 1, input, is_quote, args =>
    if input.length = 0 then .done args
    else if is_quote then
      match index_rune '\x60' input with
      | some i => unix_args_loop fuel (input.drop (i + 1)) false (args ++ [⟨input.take i⟩])
      | none => unix_args_loop fuel input is_quote args
    else
      match consume_whitespace input with
      | [] => .panic
      | first :: rest =>
        if first = '\x60' then unix_args_loop fuel rest true args
        else
          let word := extract_arbitrary_word (first :: rest)
          unix_args_loop fuel ((first :: rest).drop word.length) false (args ++ [⟨word⟩])

/-- `unix_args` of `src/text.go`, with a bound on the number of turns of its loop. -/
def unix_args (fuel : Nat) (input : String) : Run (List String) :=
  unix_args_loop fuel (trim_space input).data false []

/-- The loop of `simple_key_mapper`, with `source` and `buffer` as they stand. -/
def simple_key_mapper_loop (env : Text_Env) (vars : List (String × String)) :
    Nat → List Char → List Char → Run String
  | 0, _, _ => .out_of_fuel
  | fuel + 1, source, buffer =>
    match index_rune '$' source with
    | none => .done ⟨buffer ++ source⟩
    | some i =>
      let buffer := buffer ++ source.take i
      match source[i + 1]? with
      | none => .panic
      | some c =>
        if c = '\x7b' then
          let var_text := extract_code_block (source.drop (i + 2))
          if i + var_text.length + 3 > source.length then .panic
          else
            let source := source.drop (i + var_text.length + 3)
            let var_text := trim_space_chars var_text
            let the_var := extract_ident env var_text
            let var_text := consume_whitespace (var_text.drop the_var.length)
            if var_text.length = 0 then
              match vars.lookup ⟨the_var⟩ with
              | some sub_text => simple_key_mapper_loop env vars fuel source (buffer ++ sub_text.data)
              | none => simple_key_mapper_loop env vars fuel source buffer
            else simple_key_mapper_loop env vars fuel source buffer
        else simple_key_mapper_loop env vars fuel (source.drop (i + 1)) (buffer ++ ['$'])

/-- `simple_key_mapper` of `src/text.go`, with a bound on the number of turns of its
loop. -/
def simple_key_mapper (env : Text_Env) (fuel : Nat) (source : String)
    (vars : List (String × String)) : Run String :=
  if index_rune '$' source.data = none then .done source
  else simple_key_mapper_loop env vars fuel source.data []

/-- What `make_title` uses from the Go library, and the second character of the test
`c == '-' || c == ...`, which the source file shows as three question marks. -/
structure Title_Env where
  /-- Go `unicode.ToUpper`. -/
  to_upper : Char → Char
  /-- Go `unicode.ToLower`. -/
  to_lower : Char → Char
  /-- The second dash character of the test in `make_title`. -/
  second_dash : Char

/-- Constant `utf8.RuneError`, the result of `utf8.DecodeRuneInString` on the empty
text (with width 0). -/
def utf8_RuneError : Char := Char.ofNat 65533

/-- The map `short_words`. -/
def short_words : List String :=
  ["a", "an", "and", "the", "on", "to", "in", "for", "nor", "or", "from", "but", "is"]

/-- The inner loop of `make_title` on one word, with `buffer` as it stands. After a
dash the next character is decoded and written whether or not the word has one. -/
def make_title_word (env : Title_Env) : List Char → List Char → List Char
  | [], buffer => buffer
  | c :: word, buffer =>
    if buffer.length = 0 then make_title_word env word (buffer ++ [env.to_upper c])
    else if c = '-' ∨ c = env.second_dash then
      match word with
      | [] => buffer ++ [env.to_lower c] ++ [env.to_upper utf8_RuneError]
      | c2 :: word2 =>
        make_title_word env word2 (buffer ++ [env.to_lower c] ++ [env.to_upper c2])
    else make_title_word env word (buffer ++ [env.to_lower c])

/-- Go `strings.Split(input, " ")`, on characters; `word` is the piece being read. -/
def split_on_space : List Char → List Char → List (List Char)
  | [], word => [word]
  | c :: cs, word =>
    if c = ' ' then word :: split_on_space cs [] else split_on_space cs (word ++ [c])

/-- The outer loop of `make_title`: the words from index `i` on. -/
def make_title_words (env : Title_Env) : List (List Char) → Nat → List (List Char)
  | [], _ => []
  | word :: words, i =>
    (if i > 0 ∧ (⟨word⟩ : String) ∈ short_words then word else make_title_word env word []) ::
      make_title_words env words (i + 1)

/-- `make_title` of `src/text.go`. -/
def make_title (env : Title_Env) (input : String) : String :=
  ⟨List.intercalate [' '] (make_title_words env (split_on_space input.data []) 0)⟩

/-- The library routines on ASCII letters, with the em dash as second dash. They agree
with the Go routines on every ASCII character and on `utf8.RuneError`. -/
def ascii_title_env : Title_Env where
  to_upper := Char.toUpper
  to_lower := Char.toLower
  second_dash := Char.ofNat 8212

/-- `is_ext_url` of `src/source/parser.go`, on characters. On the empty text
`utf8.DecodeRuneInString` gives `utf8.RuneError` with width 0. -/
def is_ext_url_chars : List Char → Bool
  | [] => false
  | r :: input =>
    if r = ':' then
      match input with
      | [] => false
      | a :: input =>
        let b := input.headD utf8_RuneError
        if a = b ∧ a = '/' then true else is_ext_url_chars input
    else is_ext_url_chars input

/-- `is_ext_url` of `src/source/parser.go`. -/
def is_ext_url (input : String) : Bool :=
  is_ext_url_chars input.data

/-- The text contains `://`. -/
def has_scheme_separator (s : String) : Prop :=
  List.IsInfix [':', '/', '/'] s.data

/-- A part of the table behind `unicode.IsNumber`: the ASCII digits and the
Arabic-Indic digits U+0660 to U+0669; letters as in `ascii_text_env`. -/
def arabic_digits_env : Text_Env where
  is_letter := Char.isAlpha
  is_number := fun c => c.isDigit || (1632 ≤ c.toNat && c.toNat ≤ 1641)
  to_lower := fun s => ⟨s.data.map Char.toLower⟩

/-- Token stream of the three lines `/ a \x7d b`, `c` and the empty line: a comment
whose text holds a closing brace, then a paragraph. -/
def comment_with_brace : List Lexer_Token :=
  tokens_of [(.FORWARD_SLASH, "/"), (.WHITESPACE, " "), (.WORD, "a"), (.WHITESPACE, " "),
    (.BRACE_CLOSE, "\x7d"), (.WHITESPACE, " "), (.WORD, "b"), (.NEWLINE, "\n"),
    (.WORD, "c"), (.NEWLINE, "\n"), (.EOF, "")]

/-- Token stream of the same lines without the closing brace: `/ a b`, `c`. -/
def comment_plain : List Lexer_Token :=
  tokens_of [(.FORWARD_SLASH, "/"), (.WHITESPACE, " "), (.WORD, "a"), (.WHITESPACE, " "),
    (.WORD, "b"), (.NEWLINE, "\n"), (.WORD, "c"), (.NEWLINE, "\n"), (.EOF, "")]

/-- The character at index `i` of the text directly follows a backslash. -/
def follows_backslash (cs : List Char) (i : Nat) : Bool :=
  decide (0 < i ∧ cs[i - 1]? = some '\\')

/-- What the character at index `i` adds to the depth: nothing when it directly follows
a backslash, and otherwise 1 for an opening brace, -1 for a closing brace. -/
def depth_step (cs : List Char) (i : Nat) : Int :=
  if follows_backslash cs i = true then 0
  else if cs[i]? = some '\x7b' then 1
  else if cs[i]? = some '\x7d' then -1
  else 0

/-- The depth after the first `n` characters of the text, starting from 1. -/
def depth_after (cs : List Char) (n : Nat) : Int :=
  1 + ((List.range n).map (depth_step cs)).sum

/-- The text that a run of paragraph tokens writes: the token texts one after the
other, a single space in the place of every `WHITESPACE` token. -/
def paragraph_text : List Lexer_Token → String
  | [] => ""
  | t :: ts => (if t.ast_type = .WHITESPACE then " " else t.field) ++ paragraph_text ts

/-- Token stream of the line `a  b` followed by a second line `c`. -/
def two_lines : List Lexer_Token :=
  tokens_of [(.WORD, "a"), (.WHITESPACE, "  "), (.WORD, "b"), (.NEWLINE, "\n"), (.WORD, "c"),
    (.EOF, "")]

/-! ### Specification vocabulary for the sitemap -/

/-- The page files of a file list, in the order of the list: the files of the kinds
`MARKUP` and `STATIC_HTML`. -/
def page_files (files : List file) : List file :=
  files.filter has_sitemap_entry

/-- The absolute URL of a page file: the domain joined with the URL path of the source
path without its first six bytes (`source`); `none` when the source path is shorter
than that, or when one of the two URLs cannot be parsed. -/
def page_url (env : Sitemap_Env) (f : file) : Option String :=
  match slice_from f.source 6 with
  | none => none
  | some rel => join_url env env.domain (make_url_from_path env rel)

/-- The sitemap entry of a URL: the text `sitemap_entry` with the URL in the place of
`%s`. -/
def url_entry (env : Sitemap_Env) (url : String) : String :=
  sprint env.sitemap_entry url

/-- Every page file of the list has a URL. -/
def pages_have_urls (env : Sitemap_Env) (files : List file) : Prop :=
  ∀ f ∈ files, has_sitemap_entry f = true → (page_url env f).isSome = true

/-- The text `urls` are the URLs of the page files of the list, file by file. -/
def urls_of_pages (env : Sitemap_Env) (files : List file) (urls : List String) : Prop :=
  List.Forall₂ (fun f url => page_url env f = some url) (page_files files) urls

/-- The entry of the page `source/a.x` of `demo_files` under `demo_sitemap_env`. -/
def demo_entry_a : String := "<url><loc>https://example.com//a</loc></url>"

/-- The entry of the page `source/b.x` of `demo_files` under `demo_sitemap_env`. -/
def demo_entry_b : String := "<url><loc>https://example.com//b</loc></url>"

/-! ### Specification vocabulary for the finder -/

mutual
/-- The order in which `find_file` tests the nodes below a node when no test succeeds:
first the children, in order; then, for each child that is a directory, in order, the
nodes below it in the same order. -/
def disk_object.visit_order : disk_object → List disk_object
  | .mk _ _ _ _ _ children => children ++ disk_object.visit_order_directories children
/-- The nodes below the directories of a list, directory by directory. -/
def disk_object.visit_order_directories : List disk_object → List disk_object
  | [] => []
  | entry :: rest =>
    (if entry.file_type = .DIRECTORY then entry.visit_order else []) ++
      disk_object.visit_order_directories rest
end

/-- The nodes that `find_file` tests before it tests `n`, searching from `root`. -/
def visited_before (root n : disk_object) : List disk_object :=
  root.visit_order.takeWhile (fun m => decide (m ≠ n))

/-- The file `source/z/b/c.x` of `later_candidate_tree`. -/
def file_z_b_c : disk_object :=
  .mk 4 .MARKUP (fnv1a "c") false "source/z/b/c.x" []

/-- A tree that holds `source/b/c.x` and, in a directory that is searched later,
`source/z/b/c.x`. -/
def later_candidate_tree : disk_object :=
  .mk 0 .ROOT (fnv1a "source") false "source" [
    .mk 1 .DIRECTORY (fnv1a "b") false "source/b" [file_b_c],
    .mk 2 .DIRECTORY (fnv1a "z") false "source/z" [
      .mk 3 .DIRECTORY (fnv1a "b") false "source/z/b" [file_z_b_c]]]

/-! ### Specification of a raw block, token by token

The tokens are those of `parser.stream[parser.index:]`, named by their index `i` in
that slice; `len` is `len(parser.stream)` and `base` is `parser.index`. These
definitions do not use `raw_block_loop`. -/

/-- Kind of the token at index `i`, if there is one. -/
def kind_at (rest : List Lexer_Token) (i : Nat) : Option AST_Type :=
  rest[i]?.map (fun t => t.ast_type)

/-- Text of the token at index `i` (empty past the end). -/
def field_at (rest : List Lexer_Token) (i : Nat) : String :=
  (rest[i]?.map (fun t => t.field)).getD ""

/-- The token at index `i` is written as an entity in raw mode: an `ANGLE_OPEN`, an
`ANGLE_CLOSE`, or a bare `AMPERSAND`, one whose next token exists before the last
token of the stream (`len - 1 > base + i + 1`) and is not a `WORD`. -/
def is_entity (len base : Int) (rest : List Lexer_Token) (i : Nat) : Bool :=
  decide (kind_at rest i = some .ANGLE_OPEN) || decide (kind_at rest i = some .ANGLE_CLOSE) ||
    decide (kind_at rest i = some .AMPERSAND ∧ len - 1 > base + i + 1 ∧
      kind_at rest (i + 1) ≠ some .WORD)

/-- The escape flag seen by the token at index `i`: an `ESCAPE` token sets it, a token
written as an entity leaves it as it was, any other token clears it. -/
def escaped_at (len base : Int) (rest : List Lexer_Token) : Nat → Bool
  | 0 => false
  | i + 1 =>
    if kind_at rest i = some .ESCAPE then true
    else if is_entity len base rest i then escaped_at len base rest i
    else false

/-- Change of the brace balance made by the token at index `i`. -/
def brace_step (len base : Int) (rest : List Lexer_Token) (i : Nat) : Int :=
  if kind_at rest i = some .BRACE_OPEN ∧ escaped_at len base rest i = false then 1
  else if kind_at rest i = some .BRACE_CLOSE ∧ escaped_at len base rest i = false then -1
  else 0

/-- Brace balance after the first `n` tokens; the block starts inside one brace. -/
def balance_after (len base : Int) (rest : List Lexer_Token) (n : Nat) : Int :=
  1 + ((List.range n).map (brace_step len base rest)).sum

/-- The token at index `i` ends the block: it is the `EOF` token, or with it the brace
balance is no longer positive. -/
def ends_block (len base : Int) (rest : List Lexer_Token) (i : Nat) : Prop :=
  kind_at rest i = some .EOF ∨ balance_after len base rest (i + 1) ≤ 0

/-- What the token at index `i` adds to the text of a raw block in raw mode: nothing
for an `ESCAPE`, `&lt;` for an `ANGLE_OPEN`, `&gt;` for an `ANGLE_CLOSE`, `&amp;` for a
bare `AMPERSAND`, its own text otherwise. -/
def raw_piece (len base : Int) (rest : List Lexer_Token) (i : Nat) : String :=
  if kind_at rest i = some .ESCAPE then ""
  else if kind_at rest i = some .ANGLE_OPEN then "&lt;"
  else if kind_at rest i = some .ANGLE_CLOSE then "&gt;"
  else if is_entity len base rest i then "&amp;"
  else field_at rest i

/-- The pieces of the first `n` tokens, one after the other. -/
def raw_text (len base : Int) (rest : List Lexer_Token) (n : Nat) : String :=
  String.join ((List.range n).map (raw_piece len base rest))

/-- The parser at the first token after the opening brace of `x raw { \<}y}`. -/
def raw_escape_block_start : Parser :=
  parser_at (raw_escape_scenario "raw") 5 false new_error_handler

/-! ## Part 2. Theorems -/

/-! ### Sitemap -/

theorem sitemap_appended_eq (env : Sitemap_Env) (files : List file) :
    sitemap_appended env files =
      if files.all (fun f => (sitemap_item env f).isSome) then some (sitemap_urls env files)
      else none := by
  induction files with
  | nil => simp [sitemap_appended, sitemap_urls]
  | cons f fs ih =>
    unfold sitemap_appended
    cases hf : sitemap_item env f with
    | none => simp [hf]
    | some xs =>
      rw [ih]
      by_cases hall : fs.all (fun f => (sitemap_item env f).isSome) = true
      · simp only [hall, if_true, List.all_cons, hf, Option.isSome_some, Bool.and_self]
        simp [sitemap_urls, hf]
      · simp only [hall, List.all_cons, hf, Option.isSome_some, Bool.true_and]
        simp

theorem sitemap_appended_perm (env : Sitemap_Env) {files files' : List file}
    (h : files.Perm files') :
    (sitemap_appended env files = none ↔ sitemap_appended env files' = none) ∧
    ∀ xs ys, sitemap_appended env files = some xs → sitemap_appended env files' = some ys →
      xs.Perm ys := by
  have hall : files.all (fun f => (sitemap_item env f).isSome) =
      files'.all (fun f => (sitemap_item env f).isSome) := by
    rw [Bool.eq_iff_iff, List.all_eq_true, List.all_eq_true]
    exact ⟨fun k x hx => k x (h.mem_iff.2 hx), fun k x hx => k x (h.mem_iff.1 hx)⟩
  have hurls : (sitemap_urls env files).Perm (sitemap_urls env files') :=
    (h.filterMap _).flatten
  rw [sitemap_appended_eq, sitemap_appended_eq, hall]
  by_cases hc : files'.all (fun f => (sitemap_item env f).isSome) = true
  · simp only [hc, if_true]
    refine ⟨by simp, ?_⟩
    intro xs ys hx hy
    cases hx; cases hy
    exact hurls
  · simp [hc]

theorem sort_stable_sorted (l : List String) :
    (sort_stable l).Sorted (fun a b => a ≤ b) :=
  List.sorted_insertionSort _ l

theorem sort_stable_perm (l : List String) : (sort_stable l).Perm l :=
  List.perm_insertionSort _ l

theorem sort_stable_eq_of_perm {l l' : List String} (h : l.Perm l') :
    sort_stable l = sort_stable l' :=
  List.eq_of_perm_of_sorted
    (((sort_stable_perm l).trans h).trans (sort_stable_perm l').symm)
    (sort_stable_sorted l) (sort_stable_sorted l')

theorem sorted_replicate_empty_append (n : Nat) (l : List String)
    (h : l.Sorted (fun a b => a ≤ b)) :
    (List.replicate n "" ++ l).Sorted (fun a b => a ≤ b) := by
  induction n with
  | zero => simpa using h
  | succ n ih =>
    rw [List.replicate_succ, List.cons_append]
    refine List.sorted_cons.2 ⟨?_, ih⟩
    intro b _
    show ("" : String) ≤ b
    rw [String.le_iff_toList_le]
    simp

theorem join_replicate_empty_append (n : Nat) (l : List String) :
    String.join (List.replicate n "" ++ l) = String.join l := by
  apply String.ext
  induction n with
  | zero => simp
  | succ n ih => simp [List.replicate_succ]

theorem sort_stable_replicate_empty_append (n : Nat) (l : List String) :
    sort_stable (List.replicate n "" ++ l) = List.replicate n "" ++ sort_stable l :=
  List.eq_of_perm_of_sorted
    ((sort_stable_perm _).trans ((List.perm_append_left_iff _).2 (sort_stable_perm l).symm))
    (sort_stable_sorted _) (sorted_replicate_empty_append n _ (sort_stable_sorted l))

/-! ### Finder -/

theorem mem_descendants_list {l : List disk_object} {e : disk_object} (he : e ∈ l) :
    e ∈ disk_object.descendants_list l := by
  induction l with
  | nil => cases he
  | cons a rest ih =>
    rw [disk_object.descendants_list]
    rcases List.mem_cons.1 he with h | h
    · rw [h]; exact List.mem_cons_self _ _
    · exact List.mem_cons_of_mem _ (List.mem_append_right _ (ih h))

theorem descendants_mk (a : Nat) (t : file_type) (h : Nat) (d : Bool) (p : String)
    (c : List disk_object) :
    (disk_object.mk a t h d p c).descendants = disk_object.descendants_list c := by
  rw [disk_object.descendants]

theorem descendants_eq (t : disk_object) :
    t.descendants = disk_object.descendants_list t.children := by
  cases t
  rw [disk_object.descendants]
  rfl

theorem mem_descendants_of_child {l : List disk_object} {e x : disk_object} (he : e ∈ l)
    (hx : x ∈ e.descendants) : x ∈ disk_object.descendants_list l := by
  induction l with
  | nil => cases he
  | cons a rest ih =>
    rw [disk_object.descendants_list]
    rcases List.mem_cons.1 he with h | h
    · subst h; exact List.mem_cons_of_mem _ (List.mem_append_left _ hx)
    · exact List.mem_cons_of_mem _ (List.mem_append_right _ (ih h))

mutual
theorem find_file_sound (lev : String → String → Nat) (target : String) :
    ∀ (t : disk_object) (x : disk_object), find_file lev t target = some x →
      ∃ e ∈ t.descendants, is_candidate lev target e = true ∧
        (e = x ∨ e.file_type = .DIRECTORY)
  | .mk a ft h d p children, x, hx => by
    rw [find_file] at hx
    rw [descendants_mk]
    cases hf : children.find? (is_candidate lev target) with
    | some e =>
      have hmem : e ∈ children := List.mem_of_find?_eq_some hf
      have hc : is_candidate lev target e = true := List.find?_some hf
      rw [hf] at hx
      simp only at hx
      by_cases hdir : e.file_type = .DIRECTORY
      · exact ⟨e, mem_descendants_list hmem, hc, Or.inr hdir⟩
      · rw [if_neg hdir] at hx
        exact ⟨e, mem_descendants_list hmem, hc, Or.inl (Option.some.inj hx)⟩
    | none =>
      rw [hf] at hx
      exact find_file_in_directories_sound lev target children x hx
theorem find_file_in_directories_sound (lev : String → String → Nat) (target : String) :
    ∀ (l : List disk_object) (x : disk_object),
      find_file_in_directories lev l target = some x →
      ∃ e ∈ disk_object.descendants_list l, is_candidate lev target e = true ∧
        (e = x ∨ e.file_type = .DIRECTORY)
  | [], x, hx => by
    rw [find_file_in_directories] at hx
    cases hx
  | entry :: rest, x, hx => by
    rw [find_file_in_directories] at hx
    rw [disk_object.descendants_list]
    by_cases hdir : entry.file_type = .DIRECTORY
    · rw [if_pos hdir] at hx
      cases hr : find_file lev entry target with
      | some y =>
        rw [hr] at hx
        obtain ⟨e, he, hc, h⟩ := find_file_sound lev target entry y hr
        refine ⟨e, List.mem_cons_of_mem _ (List.mem_append_left _ he), hc, ?_⟩
        rcases h with h | h
        · exact Or.inl (h.trans (Option.some.inj hx))
        · exact Or.inr h
      | none =>
        rw [hr] at hx
        obtain ⟨e, he, hc, h⟩ := find_file_in_directories_sound lev target rest x hx
        exact ⟨e, List.mem_cons_of_mem _ (List.mem_append_right _ he), hc, h⟩
    · rw [if_neg hdir] at hx
      obtain ⟨e, he, hc, h⟩ := find_file_in_directories_sound lev target rest x hx
      exact ⟨e, List.mem_cons_of_mem _ (List.mem_append_right _ he), hc, h⟩
end

theorem files_mk (a : Nat) (t : file_type) (h : Nat) (d : Bool) (p : String)
    (c : List disk_object) :
    (disk_object.mk a t h d p c).files = disk_object.files_list c := by
  rw [disk_object.files]

mutual
theorem find_file_unique (lev : String → String → Nat) (target : String) (n : disk_object)
    (hfile : n.file_type ≠ .DIRECTORY) (hcand : is_candidate lev target n = true) :
    ∀ (t : disk_object), (∀ m ∈ t.descendants, is_candidate lev target m = true → m = n) →
      n ∈ t.files → find_file lev t target = some n
  | .mk a ft h d p children, huniq, hn => by
    rw [descendants_mk] at huniq
    rw [files_mk] at hn
    rw [find_file]
    cases hf : children.find? (is_candidate lev target) with
    | some e =>
      have hmem : e ∈ children := List.mem_of_find?_eq_some hf
      have hc : is_candidate lev target e = true := List.find?_some hf
      have : e = n := huniq e (mem_descendants_list hmem) hc
      subst this
      simp only [if_neg hfile]
    | none =>
      exact find_file_in_directories_unique lev target n hfile hcand children huniq hn hf
theorem find_file_in_directories_unique (lev : String → String → Nat) (target : String)
    (n : disk_object) (hfile : n.file_type ≠ .DIRECTORY)
    (hcand : is_candidate lev target n = true) :
    ∀ (l : List disk_object),
      (∀ m ∈ disk_object.descendants_list l, is_candidate lev target m = true → m = n) →
      n ∈ disk_object.files_list l →
      l.find? (is_candidate lev target) = none →
      find_file_in_directories lev l target = some n
  | [], _, hn, _ => by
    rw [disk_object.files_list] at hn
    cases hn
  | entry :: rest, huniq, hn, hnone => by
    rw [disk_object.descendants_list] at huniq
    rw [disk_object.files_list] at hn
    rw [find_file_in_directories]
    have hnone' : rest.find? (is_candidate lev target) = none := by
      rw [List.find?_eq_none] at hnone ⊢
      exact fun x hx => hnone x (List.mem_cons_of_mem _ hx)
    have hrest : ∀ m ∈ disk_object.descendants_list rest,
        is_candidate lev target m = true → m = n :=
      fun m hm => huniq m (List.mem_cons_of_mem _ (List.mem_append_right _ hm))
    by_cases hdir : entry.file_type = .DIRECTORY
    · rw [if_pos hdir] at hn ⊢
      have hentry : ∀ m ∈ entry.descendants, is_candidate lev target m = true → m = n :=
        fun m hm => huniq m (List.mem_cons_of_mem _ (List.mem_append_left _ hm))
      cases hr : find_file lev entry target with
      | some y =>
        obtain ⟨e, he, hc, h⟩ := find_file_sound lev target entry y hr
        have hen : e = n := hentry e he hc
        rcases h with h | h
        · rw [← h, hen]
        · rw [hen] at h
          exact absurd h hfile
      | none =>
        simp only
        rcases List.mem_append.1 hn with h | h
        · rw [find_file_unique lev target n hfile hcand entry hentry h] at hr
          cases hr
        · exact find_file_in_directories_unique lev target n hfile hcand rest hrest h hnone'
    · rw [if_neg hdir] at hn ⊢
      rcases List.mem_cons.1 hn with h | h
      · rw [List.find?_eq_none] at hnone
        have := hnone entry (List.mem_cons_self _ _)
        rw [← h, hcand] at this
        simp at this
      · exact find_file_in_directories_unique lev target n hfile hcand rest hrest h hnone'
end

mutual
theorem mem_files_of_mem_descendants (n : disk_object) (hfile : n.file_type ≠ .DIRECTORY) :
    ∀ (t : disk_object),
      (∀ m ∈ t.descendants, m.file_type ≠ .DIRECTORY → m.children = []) →
      n ∈ t.descendants → n ∈ t.files
  | .mk a ft h d p children, hwf, hn => by
    rw [descendants_mk] at hwf hn
    rw [files_mk]
    exact mem_files_list_of_mem_descendants n hfile children hwf hn
theorem mem_files_list_of_mem_descendants (n : disk_object)
    (hfile : n.file_type ≠ .DIRECTORY) :
    ∀ (l : List disk_object),
      (∀ m ∈ disk_object.descendants_list l, m.file_type ≠ .DIRECTORY → m.children = []) →
      n ∈ disk_object.descendants_list l → n ∈ disk_object.files_list l
  | [], _, hn => by
    rw [disk_object.descendants_list] at hn
    cases hn
  | entry :: rest, hwf, hn => by
    rw [disk_object.descendants_list] at hwf hn
    rw [disk_object.files_list]
    have hrest : ∀ m ∈ disk_object.descendants_list rest,
        m.file_type ≠ .DIRECTORY → m.children = [] :=
      fun m hm => hwf m (List.mem_cons_of_mem _ (List.mem_append_right _ hm))
    have hentry : ∀ m ∈ entry.descendants, m.file_type ≠ .DIRECTORY → m.children = [] :=
      fun m hm => hwf m (List.mem_cons_of_mem _ (List.mem_append_left _ hm))
    rcases List.mem_cons.1 hn with h | h
    · subst h
      rw [if_neg hfile]
      exact List.mem_cons_self _ _
    · by_cases hdir : entry.file_type = .DIRECTORY
      · rw [if_pos hdir]
        rcases List.mem_append.1 h with h | h
        · exact List.mem_append_left _ (mem_files_of_mem_descendants n hfile entry hentry h)
        · exact List.mem_append_right _
            (mem_files_list_of_mem_descendants n hfile rest hrest h)
      · rw [if_neg hdir]
        rcases List.mem_append.1 h with h | h
        · have hnil : entry.children = [] := hwf entry (List.mem_cons_self _ _) hdir
          rw [descendants_eq, hnil, disk_object.descendants_list] at h
          cases h
        · exact List.mem_cons_of_mem _
            (mem_files_list_of_mem_descendants n hfile rest hrest h)
end

theorem levenshtein_row_le (x : Char) (f : List Char → Nat) (ys : List Char) :
    levenshtein_row x f ys ≤ f ys + 1 := by
  cases ys with
  | nil => simp [levenshtein_row]
  | cons y ys =>
    rw [levenshtein_row]
    exact Nat.le_trans (Nat.min_le_left _ _) (Nat.min_le_left _ _)

theorem levenshtein_chars_self (t : List Char) : levenshtein_chars t t = 0 := by
  induction t with
  | nil => rfl
  | cons x xs ih =>
    rw [levenshtein_chars, levenshtein_row]
    apply Nat.le_zero.1
    refine Nat.le_trans (Nat.min_le_right _ _) ?_
    simp [ih]

theorem levenshtein_chars_append_left (p t : List Char) :
    levenshtein_chars (p ++ t) t ≤ p.length := by
  induction p with
  | nil => simp [levenshtein_chars_self]
  | cons x xs ih =>
    rw [List.cons_append, levenshtein_chars]
    refine Nat.le_trans (levenshtein_row_le _ _ _) ?_
    simp only [List.length_cons]
    omega

theorem base_aux_append (a b : List Char) : base_aux (a ++ '/' :: b) = base_aux a := by
  induction a with
  | nil => simp [base_aux]
  | cons c cs ih =>
    rw [List.cons_append, base_aux, base_aux, ih]

theorem filepath_Base_source (t : String) (hne : t.data ≠ [])
    (hlast : t.data.getLast? ≠ some '/') :
    filepath_Base ("source/" ++ t) = filepath_Base t := by
  obtain ⟨c, cs, hrev⟩ : ∃ c cs, t.data.reverse = c :: cs := by
    cases h : t.data.reverse with
    | nil => exact absurd (List.reverse_eq_nil_iff.1 h) hne
    | cons c cs => exact ⟨c, cs, rfl⟩
  have hc : c ≠ '/' := by
    intro h
    apply hlast
    rw [List.getLast?_eq_head?_reverse, hrev, h]
    rfl
  unfold filepath_Base
  have e1 : ("source/" ++ t).data = "source/".data ++ t.data := rfl
  rw [e1, if_neg (by simp), if_neg hne, List.reverse_append, hrev]
  rw [List.dropWhile_cons_of_neg (by simpa using hc)]
  rw [List.cons_append, List.dropWhile_cons_of_neg (by simpa using hc)]
  simp only
  congr 2
  show base_aux (c :: (cs ++ '/' :: "source".data.reverse)) = base_aux (c :: cs)
  rw [← List.cons_append, base_aux_append]

theorem is_candidate_own_path (n : disk_object) (target : String)
    (hpath : check_path n = "source/" ++ target) (hne : target.data ≠ [])
    (hlast : target.data.getLast? ≠ some '/') :
    is_candidate levenshtein_distance target n = true := by
  have hlen : ("source/" ++ target).length = target.length + 7 := by
    rw [String.length_append]
    have : "source/".length = 7 := by decide
    omega
  have hlev : levenshtein_distance ("source/" ++ target) target ≤ 7 :=
    levenshtein_chars_append_left "source/".data target.data
  unfold is_candidate
  simp only [hpath, hlen, filepath_Base_source target hne hlast]
  rw [if_neg (by omega), if_pos (by omega), if_neg (by simp)]

/-- C8. Directory redirect in `find_file`. When the first child that passes the
candidate test is a directory `d`, the result is the first child of `d` whose
`hash_name` is `index_hash`, and not-found when `d` has none: the children after `d`
and the sub-directories play no part. -/
theorem find_file_directory_redirect (lev : String → String → Nat) (target : String)
    (addr : Nat) (ft : file_type) (hash : Nat) (draft : Bool) (path : String)
    (before after : List disk_object) (d : disk_object)
    (hbefore : ∀ e ∈ before, is_candidate lev target e = false)
    (hd : is_candidate lev target d = true)
    (hdir : d.file_type = .DIRECTORY) :
    find_file lev (.mk addr ft hash draft path (before ++ d :: after)) target =
      d.children.find? (fun child => child.hash_name = index_hash) := by
  have hfind : (before ++ d :: after).find? (is_candidate lev target) = some d := by
    rw [List.find?_append]
    have : before.find? (is_candidate lev target) = none := by
      rw [List.find?_eq_none]
      intro e he
      simp [hbefore e he]
    rw [this]
    simp [List.find?_cons, hd]
  rw [find_file, hfind]
  simp [hdir, index_child]


/-- C7 (counterexample). In a tree that holds both `source/a/b/c.x` and `source/b/c.x`,
`find_file` called on the root with `b/c`, the path of the second file relative to the
source directory, does not return that file: it returns `source/a/b/c.x`. -/
theorem find_file_exact_path_fails :
    file_b_c ∈ finder_tree.descendants ∧
    check_path file_b_c = "source/" ++ "b/c" ∧
    find_file levenshtein_distance finder_tree "b/c" = some file_a_b_c ∧
    find_file levenshtein_distance finder_tree "b/c" ≠ some file_b_c := by
  refine ⟨?_, ?_, ?_, ?_⟩ <;> decide!

theorem find_file_directory_redirect_witness :
    (∀ e ∈ [file_about], is_candidate levenshtein_distance "posts" e = false) ∧
    is_candidate levenshtein_distance "posts" directory_posts = true ∧
    directory_posts.file_type = .DIRECTORY ∧
    find_file levenshtein_distance
        (.mk 0 .ROOT (fnv1a "source") false "source"
          ([file_about] ++ directory_posts :: [file_zebra])) "posts" =
      directory_posts.children.find? (fun child => child.hash_name = index_hash) :=
  ⟨by decide!, by decide!, by decide,
    find_file_directory_redirect levenshtein_distance "posts" 0 .ROOT (fnv1a "source") false
      "source" [file_about] [file_zebra] directory_posts (by decide!) (by decide!)
      (by decide)⟩

/-! ### Build driver -/

mutual
theorem build_pages_done (env : Build_Env) :
    ∀ (t : disk_object) (s s' : Build_State), build_pages env t s = .done true s' →
      s' = s ∧ ∀ n ∈ t.files, eligible env s n → s.is_built n = true
  | .mk a ft h d p children, s, s', hrun => by
    rw [build_pages] at hrun
    rw [files_mk]
    exact (build_pages_loop_done env children true s s' hrun).2
theorem build_pages_loop_done (env : Build_Env) :
    ∀ (l : List disk_object) (is_done : Bool) (s s' : Build_State),
      build_pages_loop env l is_done s = .done true s' →
      is_done = true ∧ s' = s ∧
        ∀ n ∈ disk_object.files_list l, eligible env s n → s.is_built n = true
  | [], is_done, s, s', hrun => by
    rw [build_pages_loop] at hrun
    injection hrun with h1 h2
    refine ⟨h1, h2.symm, ?_⟩
    intro n hn
    rw [disk_object.files_list] at hn
    cases hn
  | file :: rest, is_done, s, s', hrun => by
    rw [build_pages_loop] at hrun
    rw [disk_object.files_list]
    by_cases hdir : file.file_type = .DIRECTORY
    · rw [if_pos hdir] at hrun ⊢
      cases hsub : build_pages env file s with
      | panicked s1 => rw [hsub] at hrun; cases hrun
      | done d s1 =>
        rw [hsub] at hrun
        simp only at hrun
        obtain ⟨h1, h2, h3⟩ := build_pages_loop_done env rest _ s1 s' hrun
        cases d with
        | false => simp at h1
        | true =>
          simp only [if_true] at h1
          obtain ⟨h4, h5⟩ := build_pages_done env file s s1 hsub
          subst h4
          refine ⟨h1, h2, ?_⟩
          intro n hn
          rcases List.mem_append.1 hn with h | h
          · exact h5 n h
          · exact h3 n h
    · rw [if_neg hdir] at hrun ⊢
      by_cases hb : s.is_built file = true
      · rw [if_pos hb] at hrun
        obtain ⟨h1, h2, h3⟩ := build_pages_loop_done env rest _ s s' hrun
        refine ⟨h1, h2, ?_⟩
        intro n hn he
        rcases List.mem_cons.1 hn with h | h
        · rw [h]; exact hb
        · exact h3 n h he
      rw [if_neg hb] at hrun
      by_cases hdraft : file.is_draft = true ∧ ¬ env.build_drafts = true
      · rw [if_pos hdraft] at hrun
        obtain ⟨h1, h2, h3⟩ := build_pages_loop_done env rest _ s s' hrun
        refine ⟨h1, h2, ?_⟩
        intro n hn he
        rcases List.mem_cons.1 hn with h | h
        · subst h
          rcases he.1 with h | h
          · rw [hdraft.1] at h; cases h
          · exact absurd h hdraft.2
        · exact h3 n h he
      rw [if_neg hdraft] at hrun
      by_cases hused : env.build_only_used = true ∧ ¬ s.is_used file = true
      · rw [if_pos hused] at hrun
        obtain ⟨h1, h2, h3⟩ := build_pages_loop_done env rest _ s s' hrun
        refine ⟨h1, h2, ?_⟩
        intro n hn he
        rcases List.mem_cons.1 hn with h | h
        · subst h
          rcases he.2 with h | h
          · exact absurd h hused.2
          · rw [hused.1] at h; cases h
        · exact h3 n h he
      rw [if_neg hused] at hrun
      simp only at hrun
      exfalso
      split at hrun
      · split at hrun
        · cases hrun
        · split at hrun
          · cases hrun
          · have := (build_pages_loop_done env rest _ _ s' hrun).1
            cases this
      · split at hrun
        · cases hrun
        · have := (build_pages_loop_done env rest _ _ s' hrun).1
          cases this
end

theorem log_inv_begin_file (built0 : List Nat) (s : Build_State) (file : disk_object)
    (h : log_inv built0 s) (hb : ¬ s.is_built file = true) :
    log_inv built0 (s.begin_file file) := by
  obtain ⟨h1, h2, h3, h4⟩ := h
  have hnot : file.addr ∉ s.built := by
    simpa [Build_State.is_built] using hb
  refine ⟨?_, ?_, ?_, ?_⟩
  · show (s.log ++ [file.addr]).Nodup
    rw [List.nodup_append]
    refine ⟨h1, List.nodup_singleton _, ?_⟩
    intro a ha hb'
    rw [List.mem_singleton] at hb'
    subst hb'
    exact hnot (h2 _ ha)
  · intro a ha
    show a ∈ file.addr :: s.built
    rcases List.mem_append.1 ha with h | h
    · exact List.mem_cons_of_mem _ (h2 a h)
    · rw [List.mem_singleton] at h
      rw [h]; exact List.mem_cons_self _ _
  · intro a ha
    exact List.mem_cons_of_mem _ (h3 a ha)
  · intro a ha
    rcases List.mem_append.1 ha with h | h
    · exact h4 a h
    · rw [List.mem_singleton] at h
      rw [h]
      exact fun hc => hnot (h3 _ hc)

theorem log_inv_rendered (built0 : List Nat) (env : Build_Env) (s : Build_State)
    (file : disk_object) (h : log_inv built0 s) : log_inv built0 (s.rendered env file) := h

theorem log_inv_failure (built0 : List Nat) (s : Build_State) (h : log_inv built0 s) :
    log_inv built0 { s with has_failures := true } := h

mutual
theorem build_pages_log_inv (env : Build_Env) (built0 : List Nat) :
    ∀ (t : disk_object) (s : Build_State), log_inv built0 s →
      log_inv built0 (build_pages env t s).state
  | .mk a ft h d p children, s, hs => by
    rw [build_pages]
    exact build_pages_loop_log_inv env built0 children true s hs
theorem build_pages_loop_log_inv (env : Build_Env) (built0 : List Nat) :
    ∀ (l : List disk_object) (is_done : Bool) (s : Build_State), log_inv built0 s →
      log_inv built0 (build_pages_loop env l is_done s).state
  | [], is_done, s, hs => by
    rw [build_pages_loop]
    exact hs
  | file :: rest, is_done, s, hs => by
    rw [build_pages_loop]
    by_cases hdir : file.file_type = .DIRECTORY
    · rw [if_pos hdir]
      have hsub := build_pages_log_inv env built0 file s hs
      cases hrun : build_pages env file s with
      | panicked s1 => rw [hrun] at hsub; exact hsub
      | done d s1 =>
        rw [hrun] at hsub
        exact build_pages_loop_log_inv env built0 rest _ s1 hsub
    · rw [if_neg hdir]
      by_cases hb : s.is_built file = true
      · rw [if_pos hb]
        exact build_pages_loop_log_inv env built0 rest _ s hs
      rw [if_neg hb]
      by_cases hdraft : file.is_draft = true ∧ ¬ env.build_drafts = true
      · rw [if_pos hdraft]
        exact build_pages_loop_log_inv env built0 rest _ s hs
      rw [if_neg hdraft]
      by_cases hused : env.build_only_used = true ∧ ¬ s.is_used file = true
      · rw [if_pos hused]
        exact build_pages_loop_log_inv env built0 rest _ s hs
      rw [if_neg hused]
      have hbegin := log_inv_begin_file built0 s file hs hb
      simp only
      split
      · split
        · exact hbegin
        · split
          · exact log_inv_failure built0 _ (log_inv_rendered built0 env _ file hbegin)
          · exact build_pages_loop_log_inv env built0 rest _ _
              (log_inv_rendered built0 env _ file hbegin)
      · split
        · exact hbegin
        · exact build_pages_loop_log_inv env built0 rest _ _ hbegin
end

theorem build_loop_log_inv (env : Build_Env) (built0 : List Nat) (root : disk_object) :
    ∀ (fuel : Nat) (s : Build_State), log_inv built0 s →
      log_inv built0 (build_loop env root fuel s).state := by
  intro fuel
  induction fuel with
  | zero => intro s hs; exact hs
  | succ k ih =>
    intro s hs
    rw [build_loop]
    have hsub := build_pages_log_inv env built0 root s hs
    cases hrun : build_pages env root s with
    | panicked s1 => rw [hrun] at hsub; exact hsub
    | done d s1 =>
      rw [hrun] at hsub
      simp only
      split
      · exact hsub
      · split
        · exact hsub
        · exact ih s1 hsub

/-- C5. No file is built twice. Whatever the number of passes of the build loop, and
from any state with an empty log, the log of processed files holds no address twice
(so every node is processed at most once), every processed file has `is_built` set,
and no file that was already built at the start is processed. -/
theorem no_file_built_twice (env : Build_Env) (root : disk_object) (fuel : Nat)
    (used built : List Nat) (has_failures : Bool) :
    (build_loop env root fuel (initial_state used built has_failures)).state.log.Nodup ∧
    (∀ n : disk_object,
      (build_loop env root fuel (initial_state used built has_failures)).state.log.count
        n.addr ≤ 1) ∧
    (∀ a ∈ (build_loop env root fuel (initial_state used built has_failures)).state.log,
      a ∈ (build_loop env root fuel (initial_state used built has_failures)).state.built ∧
      a ∉ built) := by
  have hinit : log_inv built (initial_state used built has_failures) :=
    ⟨List.nodup_nil, fun a ha => (by cases ha), fun a ha => ha, fun a ha => (by cases ha)⟩
  obtain ⟨h1, h2, _, h4⟩ := build_loop_log_inv env built root fuel _ hinit
  exact ⟨h1, fun n => List.nodup_iff_count_le_one.1 h1 n.addr, fun a ha => ⟨h2 a ha, h4 a ha⟩⟩


theorem length_filter_lt {α : Type} (p q : α → Bool) (l : List α)
    (himp : ∀ x, q x = true → p x = true)
    (hex : ∃ x ∈ l, p x = true ∧ q x = false) :
    (l.filter q).length < (l.filter p).length := by
  induction l with
  | nil => obtain ⟨x, hx, _⟩ := hex; cases hx
  | cons a l ih =>
    have hle : (l.filter q).length ≤ (l.filter p).length := by
      clear ih hex
      induction l with
      | nil => simp
      | cons b l ih2 =>
        simp only [List.filter_cons]
        cases hq : q b
        · simp only [Bool.false_eq_true, if_false]
          split
          · simp only [List.length_cons]; omega
          · exact ih2
        · simp only [himp b hq, if_true, List.length_cons]
          omega
    obtain ⟨x, hx, hpx, hqx⟩ := hex
    simp only [List.filter_cons]
    rcases List.mem_cons.1 hx with h | h
    · subst h
      simp only [hpx, hqx, if_true, Bool.false_eq_true, if_false, List.length_cons]
      omega
    · have := ih ⟨x, h, hpx, hqx⟩
      cases hq : q a
      · simp only [Bool.false_eq_true, if_false]
        split
        · simp only [List.length_cons]; omega
        · exact this
      · simp only [himp a hq, if_true, List.length_cons]
        omega

theorem is_built_begin_file (s : Build_State) (file : disk_object) :
    (s.begin_file file).is_built file = true := by
  simp [Build_State.is_built, Build_State.begin_file]

theorem built_mono_is_built {s s' : Build_State} (h : ∀ a ∈ s.built, a ∈ s'.built)
    (n : disk_object) (hn : s.is_built n = true) : s'.is_built n = true := by
  simp only [Build_State.is_built, List.contains_eq_any_beq, List.any_eq_true, beq_iff_eq]
    at hn ⊢
  obtain ⟨x, hx, hxe⟩ := hn
  exact ⟨x, h x hx, hxe⟩

mutual
theorem build_pages_progress (env : Build_Env) :
    ∀ (t : disk_object) (s : Build_State),
      (∀ a ∈ s.built, a ∈ (build_pages env t s).state.built) ∧
      ∀ s', build_pages env t s = .done false s' →
        ∃ n ∈ t.files, s.is_built n = false ∧ s'.is_built n = true
  | .mk a ft h d p children, s => by
    rw [build_pages, files_mk]
    obtain ⟨h1, h2⟩ := build_pages_loop_progress env children true s
    refine ⟨h1, fun s' hs' => ?_⟩
    rcases h2 s' hs' with h | h
    · cases h
    · exact h
theorem build_pages_loop_progress (env : Build_Env) :
    ∀ (l : List disk_object) (is_done : Bool) (s : Build_State),
      (∀ a ∈ s.built, a ∈ (build_pages_loop env l is_done s).state.built) ∧
      ∀ s', build_pages_loop env l is_done s = .done false s' →
        is_done = false ∨
        ∃ n ∈ disk_object.files_list l, s.is_built n = false ∧ s'.is_built n = true
  | [], is_done, s => by
    rw [build_pages_loop]
    refine ⟨fun a ha => ha, fun s' hs' => ?_⟩
    injection hs' with h1 _
    exact Or.inl h1
  | file :: rest, is_done, s => by
    rw [build_pages_loop, disk_object.files_list]
    by_cases hdir : file.file_type = .DIRECTORY
    · rw [if_pos hdir, if_pos hdir]
      obtain ⟨hm, hp⟩ := build_pages_progress env file s
      cases hrun : build_pages env file s with
      | panicked s1 =>
        rw [hrun] at hm
        exact ⟨hm, fun s' hs' => by cases hs'⟩
      | done d s1 =>
        rw [hrun] at hm
        simp only
        obtain ⟨hm2, hp2⟩ := build_pages_loop_progress env rest (if d then is_done else false) s1
        refine ⟨fun a ha => hm2 a (hm a ha), fun s' hs' => ?_⟩
        have hm3 : ∀ a ∈ s1.built, a ∈ s'.built := by
          have := hm2
          rw [hs'] at this
          exact this
        rcases hp2 s' hs' with h | ⟨n, hn, hn1, hn2⟩
        · cases d with
          | true =>
            simp only [if_true] at h
            exact Or.inl h
          | false =>
            obtain ⟨n, hn, hn1, hn2⟩ := hp s1 hrun
            exact Or.inr ⟨n, List.mem_append_left _ hn, hn1, built_mono_is_built hm3 n hn2⟩
        · refine Or.inr ⟨n, List.mem_append_right _ hn, ?_, hn2⟩
          cases hb : s.is_built n with
          | false => rfl
          | true =>
            have := built_mono_is_built hm n hb
            have e : (Build_Outcome.done d s1).state = s1 := rfl
            rw [e, hn1] at this
            cases this
    · rw [if_neg hdir, if_neg hdir]
      have skip : (∀ a ∈ s.built, a ∈ (build_pages_loop env rest is_done s).state.built) ∧
          ∀ s', build_pages_loop env rest is_done s = .done false s' →
            is_done = false ∨
            ∃ n ∈ file :: disk_object.files_list rest,
              s.is_built n = false ∧ s'.is_built n = true := by
        obtain ⟨hm, hp⟩ := build_pages_loop_progress env rest is_done s
        refine ⟨hm, fun s' hs' => ?_⟩
        rcases hp s' hs' with h | ⟨n, hn, h⟩
        · exact Or.inl h
        · exact Or.inr ⟨n, List.mem_cons_of_mem _ hn, h⟩
      by_cases hb : s.is_built file = true
      · rw [if_pos hb]; exact skip
      rw [if_neg hb]
      by_cases hdraft : file.is_draft = true ∧ ¬ env.build_drafts = true
      · rw [if_pos hdraft]; exact skip
      rw [if_neg hdraft]
      by_cases hused : env.build_only_used = true ∧ ¬ s.is_used file = true
      · rw [if_pos hused]; exact skip
      rw [if_neg hused]
      have hb' : s.is_built file = false := by
        cases h : s.is_built file
        · rfl
        · exact absurd h hb
      have hbegin : ∀ a ∈ s.built, a ∈ (s.begin_file file).built :=
        fun a ha => List.mem_cons_of_mem _ ha
      have finish : ∀ (s2 : Build_State), (∀ a ∈ (s.begin_file file).built, a ∈ s2.built) →
          (∀ a ∈ s.built, a ∈ (build_pages_loop env rest false s2).state.built) ∧
          ∀ s', build_pages_loop env rest false s2 = .done false s' →
            is_done = false ∨
            ∃ n ∈ file :: disk_object.files_list rest,
              s.is_built n = false ∧ s'.is_built n = true := by
        intro s2 h2
        obtain ⟨hm, _⟩ := build_pages_loop_progress env rest false s2
        refine ⟨fun a ha => hm a (h2 a (hbegin a ha)), fun s' hs' => ?_⟩
        refine Or.inr ⟨file, List.mem_cons_self _ _, hb', ?_⟩
        have hm' : ∀ a ∈ s2.built, a ∈ s'.built := by
          have := hm
          rw [hs'] at this
          exact this
        exact built_mono_is_built (fun a ha => hm' a (h2 a ha)) file (is_built_begin_file s file)
      simp only
      split
      · split
        · exact ⟨hbegin, fun s' hs' => by cases hs'⟩
        · split
          · refine ⟨hbegin, fun s' hs' => ?_⟩
            injection hs' with _ h2
            refine Or.inr ⟨file, List.mem_cons_self _ _, hb', ?_⟩
            rw [← h2]
            exact is_built_begin_file s file
          · exact finish _ (fun a ha => ha)
      · split
        · exact ⟨hbegin, fun s' hs' => by cases hs'⟩
        · exact finish _ (fun a ha => ha)
end

theorem unbuilt_lt_of_progress (root : disk_object) (s s' : Build_State)
    (hm : ∀ a ∈ s.built, a ∈ s'.built)
    (hp : ∃ n ∈ root.files, s.is_built n = false ∧ s'.is_built n = true) :
    unbuilt root s' < unbuilt root s := by
  unfold unbuilt
  apply length_filter_lt
  · intro x hx
    cases hb : s.is_built x with
    | false => rfl
    | true =>
      rw [built_mono_is_built hm x hb] at hx
      cases hx
  · obtain ⟨n, hn, h1, h2⟩ := hp
    exact ⟨n, hn, by simp [h1], by simp [h2]⟩

theorem build_loop_fuel (env : Build_Env) (root : disk_object) :
    ∀ (fuel : Nat) (s : Build_State), unbuilt root s < fuel →
      ∀ s0, build_loop env root fuel s ≠ .out_of_fuel s0 := by
  intro fuel
  induction fuel with
  | zero => intro s h; omega
  | succ k ih =>
    intro s h s0
    rw [build_loop]
    obtain ⟨hm, hp⟩ := build_pages_progress env root s
    cases hrun : build_pages env root s with
    | panicked s1 => simp
    | done d s1 =>
      rw [hrun] at hm
      simp only
      split
      · simp
      · split
        · simp
        · next hd =>
          have hd' : d = false := by
            cases d
            · rfl
            · exact absurd rfl hd
          subst hd'
          have := unbuilt_lt_of_progress root s s1 hm (hp s1 hrun)
          exact ih s1 (by omega) s0

mutual
theorem files_sublist :
    ∀ (t : disk_object),
      List.Sublist t.files (t.descendants.filter (fun n => n.file_type ≠ .DIRECTORY))
  | .mk a ft h d p children => by
    rw [files_mk, descendants_mk]
    exact files_list_sublist children
theorem files_list_sublist :
    ∀ (l : List disk_object),
      List.Sublist (disk_object.files_list l)
        ((disk_object.descendants_list l).filter (fun n => n.file_type ≠ .DIRECTORY))
  | [] => by
    rw [disk_object.files_list, disk_object.descendants_list]
    exact List.Sublist.slnil
  | entry :: rest => by
    rw [disk_object.files_list, disk_object.descendants_list, List.filter_cons,
      List.filter_append]
    by_cases hdir : entry.file_type = .DIRECTORY
    · rw [if_pos hdir, if_neg (by simp [hdir])]
      exact List.Sublist.append (files_sublist entry) (files_list_sublist rest)
    · rw [if_neg hdir, if_pos (by simp [hdir])]
      exact List.Sublist.cons₂ _
        (List.Sublist.trans (files_list_sublist rest) (List.sublist_append_right _ _))
end

theorem unbuilt_le_count_files (root : disk_object) (s : Build_State) :
    unbuilt root s ≤ count_files root := by
  unfold unbuilt count_files
  exact Nat.le_trans (List.length_filter_le _ _) (files_sublist root).length_le

/-- C6. The build loop terminates. Every pass of `build_pages` that returns
`done = false` has turned at least one node that is no directory from unbuilt to
built, no pass clears an `is_built` flag, and from every state the loop of
`command_build` comes to an end (it finishes or panics) within `N + 1` passes, `N`
being the number of nodes of the tree that are no directories. -/
theorem build_loop_terminates (env : Build_Env) (root : disk_object) :
    (∀ s s', build_pages env root s = .done false s' →
      ∃ n ∈ root.descendants, n.file_type ≠ .DIRECTORY ∧
        s.is_built n = false ∧ s'.is_built n = true) ∧
    (∀ s a, a ∈ s.built → a ∈ (build_pages env root s).state.built) ∧
    (∀ s, ∃ s', build_loop env root (count_files root + 1) s = .finished s' ∨
      build_loop env root (count_files root + 1) s = .panicked s') := by
  refine ⟨?_, ?_, ?_⟩
  · intro s s' hrun
    obtain ⟨n, hn, h1, h2⟩ := (build_pages_progress env root s).2 s' hrun
    have := (files_sublist root).subset hn
    rw [List.mem_filter] at this
    exact ⟨n, this.1, by simpa using this.2, h1, h2⟩
  · intro s a ha
    exact (build_pages_progress env root s).1 a ha
  · intro s
    have h := build_loop_fuel env root (count_files root + 1) s
      (Nat.lt_succ_of_le (unbuilt_le_count_files root s))
    cases hr : build_loop env root (count_files root + 1) s with
    | finished s' => exact ⟨s', Or.inl rfl⟩
    | panicked s' => exact ⟨s', Or.inr rfl⟩
    | out_of_fuel s' => exact absurd hr (h s')

/-- C4. Fixed point of the build. When `build_pages` returns `done = true` on a tree
in which only directories have children, the pass changed nothing (in particular it
rendered, copied and wrote nothing: the log is the same), and every node that is no
directory and is eligible already has `is_built = true`. -/
theorem build_fixed_point (env : Build_Env) (root : disk_object) (s s' : Build_State)
    (hleaves : files_are_leaves root)
    (hrun : build_pages env root s = .done true s') :
    s' = s ∧ s'.log = s.log ∧
    ∀ n ∈ root.descendants, n.file_type ≠ .DIRECTORY → eligible env s n →
      s.is_built n = true := by
  obtain ⟨h1, h2⟩ := build_pages_done env root s s' hrun
  refine ⟨h1, by rw [h1], ?_⟩
  intro n hn hfile he
  exact h2 n (mem_files_of_mem_descendants n hfile root hleaves hn) he

theorem build_fixed_point_witness :
    files_are_leaves finder_tree ∧
    build_pages quiet_build_env finder_tree ⟨[], [3, 5], false, []⟩ =
      .done true ⟨[], [3, 5], false, []⟩ ∧
    (⟨[], [3, 5], false, []⟩ : Build_State) = ⟨[], [3, 5], false, []⟩ ∧
    (⟨[], [3, 5], false, []⟩ : Build_State).log = (⟨[], [3, 5], false, []⟩ : Build_State).log ∧
    ∀ n ∈ finder_tree.descendants, n.file_type ≠ .DIRECTORY →
      eligible quiet_build_env ⟨[], [3, 5], false, []⟩ n →
      (⟨[], [3, 5], false, []⟩ : Build_State).is_built n = true :=
  ⟨by unfold files_are_leaves; decide!, by decide!,
    build_fixed_point quiet_build_env finder_tree ⟨[], [3, 5], false, []⟩
      ⟨[], [3, 5], false, []⟩ (by unfold files_are_leaves; decide!) (by decide!)⟩

/-! ### Re-indentation only touches blank characters -/

theorem skeleton_append (a b : List Char) : skeleton (a ++ b) = skeleton a ++ skeleton b := by
  simp [skeleton]

theorem skeleton_cons_blank (c : Char) (l : List Char) (h : is_blank c = true) :
    skeleton (c :: l) = skeleton l := by
  simp [skeleton, h]

theorem skeleton_cons_not_blank (c : Char) (l : List Char) (h : is_blank c = false) :
    skeleton (c :: l) = c :: skeleton l := by
  simp [skeleton, h]

theorem skeleton_reverse (l : List Char) : skeleton l.reverse = (skeleton l).reverse := by
  simp [skeleton, List.filter_reverse]

theorem skeleton_expand_tabs (l : List Char) : skeleton (expand_tabs l) = skeleton l := by
  induction l with
  | nil => rfl
  | cons c cs ih =>
    unfold expand_tabs
    by_cases hc : c = tab
    · subst hc
      simp only [if_true]
      rw [skeleton_cons_blank ' ' _ (by decide), skeleton_cons_blank ' ' _ (by decide),
        skeleton_cons_blank ' ' _ (by decide), skeleton_cons_blank ' ' _ (by decide), ih,
        skeleton_cons_blank tab _ (by decide)]
    · simp only [hc, if_false]
      show skeleton ([c] ++ expand_tabs cs) = skeleton ([c] ++ cs)
      rw [skeleton_append, skeleton_append, ih]

theorem skeleton_split_lines_aux (l cur : List Char) :
    ((split_lines_aux l cur).map skeleton).flatten = skeleton cur.reverse ++ skeleton l := by
  induction l generalizing cur with
  | nil => simp [split_lines_aux, skeleton]
  | cons c cs ih =>
    unfold split_lines_aux
    by_cases hc : c = nl
    · subst hc
      simp only [if_true, List.map_cons, List.flatten_cons]
      rw [ih, skeleton_cons_blank nl _ (by decide)]
      simp [skeleton]
    · simp only [hc, if_false]
      rw [ih]
      show skeleton (c :: cur).reverse ++ skeleton cs = skeleton cur.reverse ++ skeleton ([c] ++ cs)
      rw [List.reverse_cons, skeleton_append, skeleton_append, List.append_assoc]

theorem skeleton_split_lines (l : List Char) :
    ((split_lines l).map skeleton).flatten = skeleton l := by
  unfold split_lines
  rw [skeleton_split_lines_aux]
  simp [skeleton]

theorem skeleton_dropWhile_nl (l : List Char) :
    skeleton (l.dropWhile (fun c => c = nl)) = skeleton l := by
  induction l with
  | nil => rfl
  | cons c cs ih =>
    by_cases hc : c = nl
    · subst hc
      rw [List.dropWhile_cons_of_pos (by simp), ih, skeleton_cons_blank nl _ (by decide)]
    · rw [List.dropWhile_cons_of_neg (by simpa using hc)]

theorem skeleton_strip_leading_newlines (l : List Char) :
    skeleton (strip_leading_newlines l) = skeleton l := by
  unfold strip_leading_newlines
  split
  · rfl
  · exact skeleton_dropWhile_nl l

theorem skeleton_strip_trailing_newlines (l : List Char) :
    skeleton (strip_trailing_newlines l) = skeleton l := by
  unfold strip_trailing_newlines
  rw [skeleton_reverse, skeleton_strip_leading_newlines, skeleton_reverse, List.reverse_reverse]

theorem leading_spaces_le_length (line : List Char) : leading_spaces line ≤ line.length := by
  induction line with
  | nil => simp [leading_spaces]
  | cons c cs ih =>
    unfold leading_spaces
    split
    · simp only [List.length_cons]
      omega
    · simp

theorem shortest_indent_loop_le_start (lines : List (List Char)) (s : Nat) :
    shortest_indent_loop lines s ≤ s := by
  induction lines generalizing s with
  | nil => simp [shortest_indent_loop]
  | cons line lines ih =>
    unfold shortest_indent_loop
    split
    · exact ih s
    · simp only
      split
      · exact Nat.le_trans (ih _) (by omega)
      · exact ih s

theorem shortest_indent_loop_le (lines : List (List Char)) (s : Nat) (line : List Char)
    (hmem : line ∈ lines) (hlen : line.length ≠ 0) :
    shortest_indent_loop lines s ≤ leading_spaces line := by
  induction lines generalizing s with
  | nil => cases hmem
  | cons l ls ih =>
    unfold shortest_indent_loop
    rcases List.mem_cons.1 hmem with h | h
    · subst h
      simp only [hlen, if_false]
      split
      · exact shortest_indent_loop_le_start _ _
      · exact Nat.le_trans (shortest_indent_loop_le_start _ _) (by omega)
    · split
      · exact ih s h
      · exact ih _ h

/-- The slice `line[shortest_indent:]` of `reindent_text` is always in range. -/
theorem shortest_indent_le_length (lines : List (List Char)) (s : Nat) (line : List Char)
    (hmem : line ∈ lines) (hlen : line.length ≠ 0) :
    shortest_indent_loop lines s ≤ line.length :=
  Nat.le_trans (shortest_indent_loop_le lines s line hmem hlen) (leading_spaces_le_length line)

theorem skeleton_drop_leading (line : List Char) (k : Nat) (h : k ≤ leading_spaces line) :
    skeleton (line.drop k) = skeleton line := by
  induction line generalizing k with
  | nil => simp
  | cons c cs ih =>
    cases k with
    | zero => rfl
    | succ k =>
      unfold leading_spaces at h
      by_cases hc : c = ' '
      · subst hc
        simp only [if_true] at h
        rw [List.drop_succ_cons, ih k (by omega), skeleton_cons_blank ' ' _ (by decide)]
      · simp [hc] at h

theorem skeleton_write_lines (k : Nat) (lines : List (List Char))
    (h : ∀ line ∈ lines, line.length ≠ 0 → k ≤ leading_spaces line) :
    skeleton (write_lines k lines) = ((lines.map skeleton).flatten) := by
  induction lines with
  | nil => rfl
  | cons line lines ih =>
    have ih' := ih (fun l hl => h l (List.mem_cons_of_mem _ hl))
    unfold write_lines
    by_cases hlen : line.length = 0
    · have hnil : line = [] := List.length_eq_zero.1 hlen
      subst hnil
      simp only [List.length_nil, if_true, List.map_cons, List.flatten_cons]
      rw [skeleton_cons_blank nl _ (by decide), ih']
      simp [skeleton]
    · simp only [hlen, if_false, List.map_cons, List.flatten_cons]
      rw [skeleton_append, skeleton_cons_blank nl _ (by decide), ih',
        skeleton_drop_leading line k (h line (List.mem_cons_self _ _) hlen)]

/-- `reindent_text` adds, removes and replaces blank characters only. -/
theorem skeleton_reindent_chars (input : List Char) :
    skeleton (reindent_chars input) = skeleton input := by
  unfold reindent_chars
  simp only
  split
  · rw [skeleton_strip_leading_newlines, skeleton_expand_tabs]
  · rw [skeleton_strip_trailing_newlines, skeleton_strip_leading_newlines,
      skeleton_write_lines _ _ (fun line hl hlen => shortest_indent_loop_le _ _ line hl hlen),
      skeleton_split_lines, skeleton_expand_tabs]

theorem mem_reindent_chars (input : List Char) (c : Char) (hc : is_blank c = false)
    (h : c ∈ reindent_chars input) : c ∈ input := by
  have h1 : c ∈ skeleton (reindent_chars input) := by
    simp [skeleton, h, hc]
  rw [skeleton_reindent_chars] at h1
  simp [skeleton] at h1
  exact h1.1

/-! ### Stepping through `parse_block` -/

/-! Unfolding one turn of the main loop of `parse_block`. -/

theorem parse_stream_eq (env : Parser_Env) (fuel : Nat) (stream : List Lexer_Token)
    (is_support : Bool) (errors : Error_Handler) :
    parse_stream env fuel stream is_support errors =
      parse_block_loop env fuel 0 is_support [] (parser_at stream 0 false errors) := rfl

theorem parse_block_loop_item (env : Parser_Env) (fuel max_depth : Nat) (is_support : Bool)
    (array array' : List AST_Data) (p p1 p2 : Parser) (token : Lexer_Token)
    (hn : next p = .ok (some token) p1)
    (h1 : token.ast_type.is [.EOF, .BRACE_CLOSE] = false)
    (h2 : ¬ (max_depth > 0 ∧ array.length ≥ max_depth))
    (h3 : token.ast_type ≠ .NEWLINE)
    (hi : parse_item env fuel (parse_paragraph env fuel)
        (fun max_depth is_support q =>
          if q.unwind then Res.ok [] q
          else parse_block_loop env fuel max_depth is_support [] q)
        is_support array token p1 = .ok (some array') p2) :
    parse_block_loop env (fuel + 1) max_depth is_support array p =
      parse_block_loop env fuel max_depth is_support array' p2 := by
  rw [parse_block_loop]
  simp only [bind, hn, h1, h2, h3]
  simp only [↓reduceIte, Bool.false_eq_true]
  rw [hi]

theorem parse_block_loop_end (env : Parser_Env) (fuel max_depth : Nat) (is_support : Bool)
    (array : List AST_Data) (p p1 : Parser) (token : Lexer_Token)
    (hn : next p = .ok (some token) p1)
    (h1 : token.ast_type.is [.EOF, .BRACE_CLOSE] = true) :
    parse_block_loop env (fuel + 1) max_depth is_support array p = .ok array p1 := by
  rw [parse_block_loop]
  simp only [bind, hn, h1]
  simp [pure]

/-! ### Raw blocks -/

theorem skeleton_flatten (ls : List (List Char)) :
    skeleton ls.flatten = (ls.map skeleton).flatten := by
  induction ls with
  | nil => rfl
  | cons l ls ih => simp only [List.flatten_cons, List.map_cons, skeleton_append, ih]

/-! ### The raw block scenario -/

theorem env_word_not_glyph (env : Parser_Env) (h : env.gt_is_non_word .WORD = false) :
    env = { env with gt_is_non_word :=
              fun t => if t = .WORD then false else env.gt_is_non_word t } := by
  cases env
  simp only [Parser_Env.mk.injEq, and_true] at h ⊢
  funext t
  split
  · next ht => rw [ht]; exact h
  · rfl

theorem raw_scenario_item (env : Parser_Env) (h : env.gt_is_non_word .WORD = false)
    (fuel : Nat) (pp : Bool → List AST_Type → PM (List AST_Data))
    (pb : Nat → Bool → PM (List AST_Data)) (is_support : Bool) (e : Error_Handler) :
    parse_item env fuel pp pb is_support [] ⟨.WORD, "x", ⟨"page.x", 0, 1, 1⟩⟩
        (parser_at (raw_scenario "raw") 1 false e) =
      .ok (some [AST_Data.Block position.zero (env.new_hash "x")
            [AST_Data.Base .RAW position.zero "&lt;b&gt;&amp;&lt;/b&gt; " []]])
        (parser_at (raw_scenario "raw") 16 false e) := by
  rw [env_word_not_glyph env h]
  rfl

theorem html_scenario_item (env : Parser_Env) (h : env.gt_is_non_word .WORD = false)
    (fuel : Nat) (pp : Bool → List AST_Type → PM (List AST_Data))
    (pb : Nat → Bool → PM (List AST_Data)) (is_support : Bool) (e : Error_Handler) :
    parse_item env fuel pp pb is_support [] ⟨.WORD, "x", ⟨"page.x", 0, 1, 1⟩⟩
        (parser_at (raw_scenario "html") 1 false e) =
      .ok (some [AST_Data.Block position.zero (env.new_hash "x")
            [AST_Data.Base .RAW position.zero "<b>&</b> " []]])
        (parser_at (raw_scenario "html") 16 false e) := by
  rw [env_word_not_glyph env h]
  rfl

theorem raw_scenario_eval (env : Parser_Env) (h : env.gt_is_non_word .WORD = false)
    (fuel : Nat) (is_support : Bool) (e : Error_Handler) :
    parse_stream env (fuel + 2) (raw_scenario "raw") is_support e =
      .ok [AST_Data.Block position.zero (env.new_hash "x")
            [AST_Data.Base .RAW position.zero "&lt;b&gt;&amp;&lt;/b&gt; " []]]
        (parser_at (raw_scenario "raw") 17 false e) := by
  rw [parse_stream_eq]
  rw [parse_block_loop_item env (fuel + 1) 0 is_support [] _
      (parser_at (raw_scenario "raw") 0 false e) (parser_at (raw_scenario "raw") 1 false e) _
      ⟨.WORD, "x", ⟨"page.x", 0, 1, 1⟩⟩ rfl (by decide) (by simp) (by decide)
      (raw_scenario_item env h _ _ _ _ e)]
  exact parse_block_loop_end env fuel 0 is_support _
      (parser_at (raw_scenario "raw") 16 false e) (parser_at (raw_scenario "raw") 17 false e)
      ⟨.EOF, "", ⟨"page.x", 18, 18, 1⟩⟩ rfl (by decide)

theorem html_scenario_eval (env : Parser_Env) (h : env.gt_is_non_word .WORD = false)
    (fuel : Nat) (is_support : Bool) (e : Error_Handler) :
    parse_stream env (fuel + 2) (raw_scenario "html") is_support e =
      .ok [AST_Data.Block position.zero (env.new_hash "x")
            [AST_Data.Base .RAW position.zero "<b>&</b> " []]]
        (parser_at (raw_scenario "html") 17 false e) := by
  rw [parse_stream_eq]
  rw [parse_block_loop_item env (fuel + 1) 0 is_support [] _
      (parser_at (raw_scenario "html") 0 false e) (parser_at (raw_scenario "html") 1 false e) _
      ⟨.WORD, "x", ⟨"page.x", 0, 1, 1⟩⟩ rfl (by decide) (by simp) (by decide)
      (html_scenario_item env h _ _ _ _ e)]
  exact parse_block_loop_end env fuel 0 is_support _
      (parser_at (raw_scenario "html") 16 false e) (parser_at (raw_scenario "html") 17 false e)
      ⟨.EOF, "", ⟨"page.x", 19, 19, 1⟩⟩ rfl (by decide)

/-- C10 (as amended). Parsing the token stream of `x raw { <b>&</b> }`, in every
environment in which `WORD` does not come after `is_non_word` and with any fuel of at
least two, yields exactly one block, named `x`, whose only child is a `RAW` node with
the text `&lt;b&gt;&amp;&lt;/b&gt; `: the blank after the opening brace is removed, the
blank before the closing brace is kept. With `html` in the place of `raw` the text is
`<b>&</b> `. -/
theorem raw_block_scenario (env : Parser_Env) (h : env.gt_is_non_word .WORD = false)
    (fuel : Nat) (is_support : Bool) (e : Error_Handler) :
    parse_stream env (fuel + 2) (raw_scenario "raw") is_support e =
      .ok [AST_Data.Block position.zero (env.new_hash "x")
            [AST_Data.Base .RAW position.zero "&lt;b&gt;&amp;&lt;/b&gt; " []]]
        (parser_at (raw_scenario "raw") 17 false e) ∧
    parse_stream env (fuel + 2) (raw_scenario "html") is_support e =
      .ok [AST_Data.Block position.zero (env.new_hash "x")
            [AST_Data.Base .RAW position.zero "<b>&</b> " []]]
        (parser_at (raw_scenario "html") 17 false e) :=
  ⟨raw_scenario_eval env h fuel is_support e, html_scenario_eval env h fuel is_support e⟩

theorem raw_block_scenario_witness :
    std_env.gt_is_non_word .WORD = false ∧
    parse_stream std_env (0 + 2) (raw_scenario "raw") false new_error_handler =
      .ok [AST_Data.Block position.zero (std_env.new_hash "x")
            [AST_Data.Base .RAW position.zero "&lt;b&gt;&amp;&lt;/b&gt; " []]]
        (parser_at (raw_scenario "raw") 17 false new_error_handler) ∧
    parse_stream std_env (0 + 2) (raw_scenario "html") false new_error_handler =
      .ok [AST_Data.Block position.zero (std_env.new_hash "x")
            [AST_Data.Base .RAW position.zero "<b>&</b> " []]]
        (parser_at (raw_scenario "html") 17 false new_error_handler) :=
  ⟨by decide, raw_block_scenario std_env (by decide) 0 false new_error_handler⟩

/-- C10 (counterexample). On the token stream of `x raw { <b>&</b> }` the text of the
`RAW` node is not `&lt;b&gt;&amp;&lt;/b&gt;`, and with `html` it is not `<b>&</b>`:
both end with a blank. -/
theorem raw_block_scenario_keeps_trailing_blank :
    raw_block_text (parse_stream std_env 2 (raw_scenario "raw") false new_error_handler)
      = some "&lt;b&gt;&amp;&lt;/b&gt; " ∧
    raw_block_text (parse_stream std_env 2 (raw_scenario "raw") false new_error_handler)
      ≠ some "&lt;b&gt;&amp;&lt;/b&gt;" ∧
    raw_block_text (parse_stream std_env 2 (raw_scenario "html") false new_error_handler)
      ≠ some "<b>&</b>" := by
  refine ⟨?_, ?_, ?_⟩ <;> decide!

/-! ### Parser: run-time failures and non-termination -/

/-- C1 (failing inputs). On the token streams of the documents `~`, `else`,
`if %% { a }` and `*foo bar`, each ended by EOF, `parse_stream` does not return a
syntax tree: it stops with the explicit panic, an index out of range, a nil
dereference and an index out of range. -/
theorem parse_stream_run_time_failures :
    parse_stream std_env 100 lone_tilde false new_error_handler
      = .fault (.panic "no children") ∧
    parse_stream std_env 100 leading_else false new_error_handler
      = .fault .index_out_of_range ∧
    parse_stream std_env 100 if_anonymous false new_error_handler
      = .fault .nil_dereference ∧
    parse_stream std_env 100 leading_unset false new_error_handler
      = .fault .index_out_of_range := by
  refine ⟨?_, ?_, ?_, ?_⟩ <;> decide!

/-! The document `a`, `else b`. -/

theorem else_item_a (fuel : Nat) (pb : Nat → Bool → PM (List AST_Data)) :
    parse_item std_env (fuel + 2) (parse_paragraph std_env (fuel + 2)) pb false []
        ⟨.WORD, "a", ⟨"page.x", 0, 1, 1⟩⟩
        (parser_at else_after_paragraph 1 false new_error_handler) =
      .ok (some [paragraph_a]) (parser_at else_after_paragraph 2 false new_error_handler) :=
  rfl

theorem else_item_else (fuel : Nat) (pp : Bool → List AST_Type → PM (List AST_Data))
    (pb : Nat → Bool → PM (List AST_Data)) :
    parse_item std_env fuel pp pb false [paragraph_a]
        ⟨.WORD, "else", ⟨"page.x", 2, 6, 1⟩⟩
        (parser_at else_after_paragraph 3 false new_error_handler) =
      .ok (some [paragraph_a]) (parser_at else_after_paragraph 3 true else_failure) :=
  rfl

theorem else_item_space (fuel : Nat) (pp : Bool → List AST_Type → PM (List AST_Data))
    (pb : Nat → Bool → PM (List AST_Data)) (array : List AST_Data) :
    parse_item std_env fuel pp pb false array
        ⟨.WHITESPACE, " ", ⟨"page.x", 6, 7, 1⟩⟩
        (parser_at else_after_paragraph 4 true else_failure) =
      .ok (some array) (parser_at else_after_paragraph 4 true else_failure) :=
  rfl

theorem else_item_b (fuel : Nat) (pb : Nat → Bool → PM (List AST_Data))
    (array : List AST_Data) :
    parse_item std_env fuel (parse_paragraph std_env fuel) pb false array
        ⟨.WORD, "b", ⟨"page.x", 7, 8, 1⟩⟩
        (parser_at else_after_paragraph 5 true else_failure) =
      .ok (some (array ++ [paragraph_b_empty]))
        (parser_at else_after_paragraph 4 true else_failure) :=
  rfl

theorem else_cycle (fuel : Nat) (array : List AST_Data) :
    parse_block_loop std_env fuel 0 false array
        (parser_at else_after_paragraph 4 true else_failure) = .out_of_fuel := by
  induction fuel generalizing array with
  | zero => rfl
  | succ n ih =>
    rw [parse_block_loop_item std_env n 0 false array _
      (parser_at else_after_paragraph 4 true else_failure)
      (parser_at else_after_paragraph 5 true else_failure) _
      ⟨.WORD, "b", ⟨"page.x", 7, 8, 1⟩⟩ rfl (by decide) (by simp) (by decide)
      (else_item_b n _ array)]
    exact ih _

theorem else_after_paragraph_diverges (fuel : Nat) :
    parse_stream std_env fuel else_after_paragraph false new_error_handler = .out_of_fuel := by
  rw [parse_stream_eq]
  match fuel with
  | 0 => rfl
  | 1 => rfl
  | 2 => rfl
  | n + 3 =>
    rw [parse_block_loop_item std_env (n + 2) 0 false [] _
      (parser_at else_after_paragraph 0 false new_error_handler)
      (parser_at else_after_paragraph 1 false new_error_handler) _
      ⟨.WORD, "a", ⟨"page.x", 0, 1, 1⟩⟩ rfl (by decide) (by simp) (by decide)
      (else_item_a n _)]
    rw [parse_block_loop_item std_env (n + 1) 0 false _ _
      (parser_at else_after_paragraph 2 false new_error_handler)
      (parser_at else_after_paragraph 3 false new_error_handler) _
      ⟨.WORD, "else", ⟨"page.x", 2, 6, 1⟩⟩ rfl (by decide) (by simp) (by decide)
      (else_item_else (n + 1) _ _)]
    rw [parse_block_loop_item std_env n 0 false _ _
      (parser_at else_after_paragraph 3 true else_failure)
      (parser_at else_after_paragraph 4 true else_failure) _
      ⟨.WHITESPACE, " ", ⟨"page.x", 6, 7, 1⟩⟩ rfl (by decide) (by simp) (by decide)
      (else_item_space n _ _ _)]
    exact else_cycle _ _

/-! The document `a`, `*foo bar`. -/

theorem unset_item_a (fuel : Nat) (pb : Nat → Bool → PM (List AST_Data)) :
    parse_item std_env (fuel + 2) (parse_paragraph std_env (fuel + 2)) pb false []
        ⟨.WORD, "a", ⟨"page.x", 0, 1, 1⟩⟩
        (parser_at unset_after_newline 1 false new_error_handler) =
      .ok (some [paragraph_a]) (parser_at unset_after_newline 2 false new_error_handler) :=
  rfl

theorem unset_item_star (fuel : Nat) (pb : Nat → Bool → PM (List AST_Data))
    (array : List AST_Data) (e : Error_Handler) :
    parse_item std_env (fuel + 1) (parse_paragraph std_env (fuel + 1)) pb false array
        ⟨.MULTIPLY, "*", ⟨"page.x", 2, 3, 1⟩⟩
        (parser_at unset_after_newline 3 false e) =
      .ok (some (array ++ [paragraph_unset_empty]))
        (parser_at unset_after_newline 2 false (unset_failure e)) :=
  rfl

theorem unset_cycle_one (array : List AST_Data) (e : Error_Handler) :
    parse_block_loop std_env 1 0 false array
        (parser_at unset_after_newline 2 false e) = .out_of_fuel := rfl

theorem unset_cycle (fuel : Nat) :
    ∀ (array : List AST_Data) (e : Error_Handler),
      parse_block_loop std_env fuel 0 false array
        (parser_at unset_after_newline 2 false e) = .out_of_fuel := by
  induction fuel using Nat.strong_induction_on with
  | _ n ih =>
    intro array e
    match n with
    | 0 => rfl
    | 1 => exact unset_cycle_one array e
    | k + 2 =>
      rw [parse_block_loop_item std_env (k + 1) 0 false array _
        (parser_at unset_after_newline 2 false e)
        (parser_at unset_after_newline 3 false e) _
        ⟨.MULTIPLY, "*", ⟨"page.x", 2, 3, 1⟩⟩ rfl (by decide) (by simp) (by decide)
        (unset_item_star k _ array e)]
      exact ih (k + 1) (by omega) _ _

theorem unset_after_newline_diverges (fuel : Nat) :
    parse_stream std_env fuel unset_after_newline false new_error_handler = .out_of_fuel := by
  rw [parse_stream_eq]
  match fuel with
  | 0 => rfl
  | 1 => rfl
  | 2 => rfl
  | n + 3 =>
    rw [parse_block_loop_item std_env (n + 2) 0 false [] _
      (parser_at unset_after_newline 0 false new_error_handler)
      (parser_at unset_after_newline 1 false new_error_handler) _
      ⟨.WORD, "a", ⟨"page.x", 0, 1, 1⟩⟩ rfl (by decide) (by simp) (by decide)
      (unset_item_a n _)]
    exact unset_cycle _ _ _

/-- C2 (failing inputs). On the token streams of the two-line documents `a`, `else b`
and `a`, `*foo bar`, each ended by EOF, `parse_stream` never returns: whatever the
fuel, the embedded parser runs out of it (the main loop of `parse_block` keeps
appending an empty paragraph without moving on). -/
theorem parse_stream_does_not_terminate (fuel : Nat) :
    parse_stream std_env fuel else_after_paragraph false new_error_handler = .out_of_fuel ∧
    parse_stream std_env fuel unset_after_newline false new_error_handler = .out_of_fuel :=
  ⟨else_after_paragraph_diverges fuel, unset_after_newline_diverges fuel⟩

/-! ### Re-indentation and lines made of spaces -/

/-- C11 (failing input). On the text `    a`, `  `, `    b` (two lines indented by four
spaces around a line of two spaces) `reindent_text` takes the indent to be 2, the length
of the line made of spaces, and removes only two of the four leading spaces: the result
is `  a`, an empty line, `  b`, in which no line starts with a character that is not a
space. With an empty line in the middle the four spaces are removed. -/
theorem reindent_text_counts_space_only_line :
    reindent_text space_only_line_text = "  a\n\n  b" ∧
    shortest_indent_loop (split_lines (expand_tabs space_only_line_text.data))
      space_only_line_text.length = 2 ∧
    reindent_text "    a\n\n    b" = "a\n\nb" := by
  refine ⟨?_, ?_, ?_⟩ <;> decide!

/-! ### Keywords, sigils and declarations -/

/-- C12 (failing input). When `else` is the first item of a block, the expression
`array[len(array) - 1]` is out of range: the `else` case stops with a run-time failure
and records nothing, for every environment and parser state; so does `parse_stream` on
the document `\x7b else \x7d`, where the block is a nested one. The other two cases of
the claim hold: after an item that is no if-statement the failure is recorded, `unwind`
is set and the array stays as it is; after an if-statement the node added has
`is_else = true` and the condition list of that if-statement. -/
theorem else_without_earlier_item (env : Parser_Env) (fuel : Nat)
    (pp : Bool → List AST_Type → PM (List AST_Data)) (pb : Nat → Bool → PM (List AST_Data))
    (is_support : Bool) (pos : position) (p : Parser) :
    parse_keyword_case env fuel pp pb is_support [] ⟨.WORD, "else", pos⟩ p
      = .fault .index_out_of_range ∧
    parse_stream std_env 100 else_in_block false new_error_handler
      = .fault .index_out_of_range ∧
    (∀ (array : List AST_Data) (previous : AST_Data),
      previous.type_check env ≠ .CONTROL_IF →
      parse_keyword_case env fuel pp pb is_support (array ++ [previous])
          ⟨.WORD, "else", pos⟩ p =
        .ok (.continue_ (array ++ [previous]))
          { p with
            errors := p.errors.new_pos .PARSER_FAILURE pos "'else' must follow if-statement" [],
            unwind := true }) ∧
    (∀ (array : List AST_Data) (pos0 : position) (is_else : Bool)
        (condition_list children0 children : List AST_Data) (did : Bool) (p1 p2 : Parser),
      eat_whitespace p = .ok did p1 → pb 1 is_support p1 = .ok children p2 →
      parse_keyword_case env fuel pp pb is_support
          (array ++ [AST_Data.If pos0 is_else condition_list children0])
          ⟨.WORD, "else", pos⟩ p =
        .ok (.continue_ (array ++ [AST_Data.If pos0 is_else condition_list children0] ++
          [AST_Data.If pos true condition_list children])) p2) := by
  refine ⟨rfl, by decide!, ?_, ?_⟩
  · intro array previous hprev
    have hl : (array ++ [previous]).getLast? = some previous := by simp
    simp only [parse_keyword_case, hl, hprev, bind, pure, new_pos, set_unwind, ne_eq,
      not_false_eq_true, if_true, if_false, String.reduceEq]
  · intro array pos0 is_else condition_list children0 children did p1 p2 hws hpb
    have hl : (array ++ [AST_Data.If pos0 is_else condition_list children0]).getLast? =
        some (AST_Data.If pos0 is_else condition_list children0) := by simp
    simp only [parse_keyword_case, hl, AST_Data.type_check, bind, pure, hws, hpb, ne_eq,
      not_true_eq_false, if_true, if_false, String.reduceEq]

/-- C14 (failing input). On the lines `& foo bar`, `> foo bar` and `* foo bar` the
parser rewinds and emits the whole line as a paragraph, and the one diagnostic it
records has the kind `PARSER_FAILURE`: `has_failures` is true afterwards. -/
theorem stray_sigil_records_failure :
    parse_stream std_env 100 (stray_sigil .AMPERSAND "&") false new_error_handler =
      .ok [paragraph_of_line "& foo bar"]
        (parser_at (stray_sigil .AMPERSAND "&") 7 false (ambiguous_failure "&")) ∧
    parse_stream std_env 100 (stray_sigil .ANGLE_CLOSE ">") false new_error_handler =
      .ok [paragraph_of_line "> foo bar"]
        (parser_at (stray_sigil .ANGLE_CLOSE ">") 7 false (ambiguous_failure ">")) ∧
    parse_stream std_env 100 (stray_sigil .MULTIPLY "*") false new_error_handler =
      .ok [paragraph_of_line "* foo bar"]
        (parser_at (stray_sigil .MULTIPLY "*") 7 false (ambiguous_failure "*")) ∧
    (∀ sigil, (ambiguous_failure sigil).has_failures = true ∧
      (ambiguous_failure sigil).all_errors.map (fun e => e.kind) = [.PARSER_FAILURE]) :=
  ⟨by decide!, by decide!, by decide!, fun _ => ⟨rfl, rfl⟩⟩

/-- C16 (failing input). The lines `name = v` and `name =v` parse to one `DECL` node
whose only child is the `NORMAL` node `v`; the lines `name= v` and `name=v`, where no
blank comes before `=`, parse to a `DECL` node without children: the token `v` is
dropped. -/
theorem declaration_spacing_drops_value :
    parse_stream std_env 100 (declaration_line true true) false new_error_handler =
      .ok [declaration_node [AST_Data.Base .NORMAL position.zero "v" []]]
        (parser_at (declaration_line true true) 7 false new_error_handler) ∧
    parse_stream std_env 100 (declaration_line true false) false new_error_handler =
      .ok [declaration_node [AST_Data.Base .NORMAL position.zero "v" []]]
        (parser_at (declaration_line true false) 6 false new_error_handler) ∧
    parse_stream std_env 100 (declaration_line false true) false new_error_handler =
      .ok [declaration_node []]
        (parser_at (declaration_line false true) 6 false new_error_handler) ∧
    parse_stream std_env 100 (declaration_line false false) false new_error_handler =
      .ok [declaration_node []]
        (parser_at (declaration_line false false) 5 false new_error_handler) := by
  refine ⟨?_, ?_, ?_, ?_⟩ <;> decide!

/-! ### Variable modifiers -/

/-- C17 (as amended). `check_modifier_type` returns `ok = true` exactly for the words
whose lower-case form is one of `slug`, `s`, `unique_slug`, `uslug`, `us`, `upper`, `u`,
`lower`, `l`, `title`, `t`; the modifier is `SLUG`, `UNIQUE_SLUG`, `UPPER`, `LOWER` or
`TITLE`, the same for a short form as for its long form; for every other word, `raw`
among them, the result is `NONE` with `ok = false`, and the line `%x:raw` records the
failure `unknown variable modifier`. -/
theorem check_modifier_type_spellings (env : Parser_Env) (input : String) :
    ((check_modifier_type env input).2 = true ↔ env.to_lower input ∈ modifier_spellings) ∧
    (env.to_lower input ∈ ["slug", "s"] → check_modifier_type env input = (.SLUG, true)) ∧
    (env.to_lower input ∈ ["unique_slug", "uslug", "us"] →
      check_modifier_type env input = (.UNIQUE_SLUG, true)) ∧
    (env.to_lower input ∈ ["upper", "u"] → check_modifier_type env input = (.UPPER, true)) ∧
    (env.to_lower input ∈ ["lower", "l"] → check_modifier_type env input = (.LOWER, true)) ∧
    (env.to_lower input ∈ ["title", "t"] → check_modifier_type env input = (.TITLE, true)) ∧
    (env.to_lower input ∉ modifier_spellings →
      check_modifier_type env input = (.NONE, false)) ∧
    parse_stream std_env 100 variable_with_raw false new_error_handler =
      .ok [AST_Data.Base .NORMAL ⟨"page.x", 0, 1, 1⟩ ""
            [AST_Data.Variable ⟨.VAR, ⟨"page.x", 0, 1, 1⟩, fnv1a "x", 0, 0, .NONE⟩]]
        (parser_at variable_with_raw 6 false unknown_modifier_failure) := by
  have none_case : ∀ s : String, s ∉ modifier_spellings →
      (if s = "slug" ∨ s = "s" then (Modifier.SLUG, true)
      else if s = "unique_slug" ∨ s = "uslug" ∨ s = "us" then (Modifier.UNIQUE_SLUG, true)
      else if s = "upper" ∨ s = "u" then (Modifier.UPPER, true)
      else if s = "lower" ∨ s = "l" then (Modifier.LOWER, true)
      else if s = "title" ∨ s = "t" then (Modifier.TITLE, true)
      else (Modifier.NONE, false)) = (Modifier.NONE, false) := by
    intro s hs
    simp only [modifier_spellings, List.mem_cons, List.mem_singleton, List.not_mem_nil,
      or_false, not_or] at hs
    obtain ⟨h1, h2, h3, h4, h5, h6, h7, h8, h9, h10, h11⟩ := hs
    simp only [h1, h2, h3, h4, h5, h6, h7, h8, h9, h10, h11, or_self, if_false]
  refine ⟨?_, ?_, ?_, ?_, ?_, ?_, ?_, by decide!⟩
  · by_cases hs : env.to_lower input ∈ modifier_spellings
    · simp only [hs, iff_true]
      simp only [modifier_spellings, List.mem_cons, List.mem_singleton, List.not_mem_nil,
        or_false] at hs
      rcases hs with h | h | h | h | h | h | h | h | h | h | h <;>
        simp only [check_modifier_type, h] <;> decide
    · simp only [check_modifier_type, none_case _ hs, hs, iff_false]
      simp
  · intro h
    simp only [List.mem_cons, List.mem_singleton, List.not_mem_nil, or_false] at h
    rcases h with h | h <;> simp only [check_modifier_type, h] <;> decide
  · intro h
    simp only [List.mem_cons, List.mem_singleton, List.not_mem_nil, or_false] at h
    rcases h with h | h | h <;> simp only [check_modifier_type, h] <;> decide
  · intro h
    simp only [List.mem_cons, List.mem_singleton, List.not_mem_nil, or_false] at h
    rcases h with h | h <;> simp only [check_modifier_type, h] <;> decide
  · intro h
    simp only [List.mem_cons, List.mem_singleton, List.not_mem_nil, or_false] at h
    rcases h with h | h <;> simp only [check_modifier_type, h] <;> decide
  · intro h
    simp only [List.mem_cons, List.mem_singleton, List.not_mem_nil, or_false] at h
    rcases h with h | h <;> simp only [check_modifier_type, h] <;> decide
  · intro h
    simp only [check_modifier_type, none_case _ h]

/-- C17 (counterexample). The word `s`, which is none of the six names, is accepted
with the modifier `SLUG`, and the word `raw` is not accepted. -/
theorem check_modifier_type_short_forms :
    check_modifier_type std_env "s" = (.SLUG, true) ∧
    check_modifier_type std_env "raw" = (.NONE, false) := by
  constructor <;> decide!

/-! ### Image settings -/

theorem parse_image_settings_eq (env : Parser_Env) (fuel : Nat) :
    parse_image_settings env fuel =
      parse_image_settings_loop env fuel (default_image_settings env).1
        (default_image_settings env).2 := rfl

theorem image_settings_result_true (env : Parser_Env) (s : Image_Settings) :
    image_settings_result env s true =
      some ⟨final_quality env s.quality, s.max_size, s.file_type⟩ := by
  unfold image_settings_result final_quality
  simp only [if_true]
  split <;> rfl

theorem image_tail_spaced_eval (env : Parser_Env) (fuel : Nat) (n c : String)
    (p1 p2 p3 p4 : position) (unwind : Bool) (errors : Error_Handler)
    (hc : c ∈ ["png", "jpg", "jpeg", "webp"]) :
    parse_image_settings env (fuel + 3)
        (parser_at (⟨.NUMBER, n, p1⟩ :: ⟨.WHITESPACE, " ", p2⟩ :: ⟨.WORD, c, p3⟩ ::
          ⟨.BRACE_CLOSE, "\x7d", p4⟩ :: []) 0 unwind errors) =
      .ok (some ⟨final_quality env (parse_int n 64), (default_image_settings env).1.max_size,
        codec_file_type c⟩)
        { index := 3, unwind := unwind, errors := errors, has_webp := decide (c = "webp"),
          stream := ⟨.NUMBER, n, p1⟩ :: ⟨.WHITESPACE, " ", p2⟩ :: ⟨.WORD, c, p3⟩ ::
            ⟨.BRACE_CLOSE, "\x7d", p4⟩ :: [] } := by
  rw [parse_image_settings_eq,
    ← image_settings_result_true env
      ⟨parse_int n 64, (default_image_settings env).1.max_size, codec_file_type c⟩]
  simp only [List.mem_cons, List.mem_singleton, List.not_mem_nil, or_false] at hc
  rcases hc with h | h | h | h <;> subst h <;> rfl

theorem image_tail_joined_eval (env : Parser_Env) (fuel : Nat) (n c : String)
    (p1 p3 p4 : position) (unwind : Bool) (errors : Error_Handler)
    (hc : c ∈ ["png", "jpg", "jpeg", "webp"]) :
    parse_image_settings env (fuel + 3)
        (parser_at (⟨.NUMBER, n, p1⟩ :: ⟨.WORD, c, p3⟩ ::
          ⟨.BRACE_CLOSE, "\x7d", p4⟩ :: []) 0 unwind errors) =
      .ok (some ⟨final_quality env (default_image_settings env).1.quality,
        to_uint (parse_int n 64), codec_file_type c⟩)
        { index := 2, unwind := unwind, errors := errors, has_webp := decide (c = "webp"),
          stream := ⟨.NUMBER, n, p1⟩ :: ⟨.WORD, c, p3⟩ ::
            ⟨.BRACE_CLOSE, "\x7d", p4⟩ :: [] } := by
  rw [parse_image_settings_eq,
    ← image_settings_result_true env
      ⟨(default_image_settings env).1.quality, to_uint (parse_int n 64), codec_file_type c⟩]
  simp only [List.mem_cons, List.mem_singleton, List.not_mem_nil, or_false] at hc
  rcases hc with h | h | h | h <;> subst h <;> rfl

theorem image_tail_number_eval (env : Parser_Env) (fuel : Nat) (n : String)
    (p1 p4 : position) (unwind : Bool) (errors : Error_Handler) :
    parse_image_settings env (fuel + 2)
        (parser_at (⟨.NUMBER, n, p1⟩ :: ⟨.BRACE_CLOSE, "\x7d", p4⟩ :: []) 0 unwind errors) =
      .ok (some ⟨final_quality env (parse_int n 64), (default_image_settings env).1.max_size,
        (default_image_settings env).1.file_type⟩)
        (parser_at (⟨.NUMBER, n, p1⟩ :: ⟨.BRACE_CLOSE, "\x7d", p4⟩ :: []) 1 unwind errors) := by
  rw [parse_image_settings_eq,
    ← image_settings_result_true env
      ⟨parse_int n 64, (default_image_settings env).1.max_size,
        (default_image_settings env).1.file_type⟩]
  rfl

/-- C18 (as amended). For every number text `n` and codec word `c` among `png`, `jpg`,
`jpeg`, `webp`: on the tokens NUMBER `n`, WHITESPACE, WORD `c`, BRACE_CLOSE,
`parse_image_settings` returns the codec `c` with `n` as the quality (the constant
`DEFAULT_QUALITY` when `n` is zero) and the maximal size left at its default; the
number is the maximal size only when the WORD token follows it directly (NUMBER `n`,
WORD `c`, BRACE_CLOSE), and then the quality is the default one; on the tokens NUMBER
`n`, BRACE_CLOSE the quality is `n` (again `DEFAULT_QUALITY` for zero). No failure is
recorded and `unwind` is not touched. -/
theorem image_settings_tail (env : Parser_Env) (fuel : Nat) (n c : String)
    (p1 p2 p3 p4 : position) (unwind : Bool) (errors : Error_Handler)
    (hc : c ∈ ["png", "jpg", "jpeg", "webp"]) :
    parse_image_settings env (fuel + 3)
        (parser_at (⟨.NUMBER, n, p1⟩ :: ⟨.WHITESPACE, " ", p2⟩ :: ⟨.WORD, c, p3⟩ ::
          ⟨.BRACE_CLOSE, "\x7d", p4⟩ :: []) 0 unwind errors) =
      .ok (some ⟨final_quality env (parse_int n 64), (default_image_settings env).1.max_size,
        codec_file_type c⟩)
        { index := 3, unwind := unwind, errors := errors, has_webp := decide (c = "webp"),
          stream := ⟨.NUMBER, n, p1⟩ :: ⟨.WHITESPACE, " ", p2⟩ :: ⟨.WORD, c, p3⟩ ::
            ⟨.BRACE_CLOSE, "\x7d", p4⟩ :: [] } ∧
    parse_image_settings env (fuel + 3)
        (parser_at (⟨.NUMBER, n, p1⟩ :: ⟨.WORD, c, p3⟩ ::
          ⟨.BRACE_CLOSE, "\x7d", p4⟩ :: []) 0 unwind errors) =
      .ok (some ⟨final_quality env (default_image_settings env).1.quality,
        to_uint (parse_int n 64), codec_file_type c⟩)
        { index := 2, unwind := unwind, errors := errors, has_webp := decide (c = "webp"),
          stream := ⟨.NUMBER, n, p1⟩ :: ⟨.WORD, c, p3⟩ ::
            ⟨.BRACE_CLOSE, "\x7d", p4⟩ :: [] } ∧
    parse_image_settings env (fuel + 2)
        (parser_at (⟨.NUMBER, n, p1⟩ :: ⟨.BRACE_CLOSE, "\x7d", p4⟩ :: []) 0 unwind errors) =
      .ok (some ⟨final_quality env (parse_int n 64), (default_image_settings env).1.max_size,
        (default_image_settings env).1.file_type⟩)
        (parser_at (⟨.NUMBER, n, p1⟩ :: ⟨.BRACE_CLOSE, "\x7d", p4⟩ :: []) 1 unwind errors) :=
  ⟨image_tail_spaced_eval env fuel n c p1 p2 p3 p4 unwind errors hc,
    image_tail_joined_eval env fuel n c p1 p3 p4 unwind errors hc,
    image_tail_number_eval env fuel n p1 p4 unwind errors⟩

theorem image_settings_tail_witness :
    "png" ∈ ["png", "jpg", "jpeg", "webp"] ∧
    parse_image_settings std_env (0 + 3)
        (parser_at (⟨.NUMBER, "300", position.zero⟩ :: ⟨.WHITESPACE, " ", position.zero⟩ ::
          ⟨.WORD, "png", position.zero⟩ :: ⟨.BRACE_CLOSE, "\x7d", position.zero⟩ :: [])
          0 false new_error_handler) =
      .ok (some ⟨final_quality std_env (parse_int "300" 64),
        (default_image_settings std_env).1.max_size, codec_file_type "png"⟩)
        { index := 3, unwind := false, errors := new_error_handler,
          has_webp := decide ("png" = "webp"),
          stream := ⟨.NUMBER, "300", position.zero⟩ :: ⟨.WHITESPACE, " ", position.zero⟩ ::
            ⟨.WORD, "png", position.zero⟩ :: ⟨.BRACE_CLOSE, "\x7d", position.zero⟩ :: [] } :=
  ⟨by decide,
    (image_settings_tail std_env 0 "300" "png" position.zero position.zero position.zero
      position.zero false new_error_handler (by decide)).1⟩

/-- C18 (counterexample). On the tail `300 png\x7d` the settings returned have the
quality 300 and the maximal size 0: the number is not taken as the maximal size. -/
theorem image_tail_spaced_sets_quality :
    parse_image_settings std_env 100 (parser_at image_tail_spaced 0 false new_error_handler) =
      .ok (some ⟨300, 0, .IMG_PNG⟩) (parser_at image_tail_spaced 3 false new_error_handler) := by
  decide!

/-! ### Sitemap entries -/

theorem sitemap_static_html_eval :
    sitemap demo_sitemap_env static_html_only =
      some "<urlset><url><loc>https://example.com//a</loc></url></urlset>" := by
  unfold sitemap
  have h1 : sitemap_appended demo_sitemap_env static_html_only =
      some ["<url><loc>https://example.com//a</loc></url>"] := by decide!
  rw [h1]
  simp only [Option.some.injEq]
  rw [sort_stable_replicate_empty_append, join_replicate_empty_append]
  have h2 : sort_stable ["<url><loc>https://example.com//a</loc></url>"] =
      ["<url><loc>https://example.com//a</loc></url>"] := by
    simp [sort_stable]
  rw [h2]
  decide!

/-- C20 (counterexample). For a file list that holds one static HTML file and no
markup file, `sitemap` writes one entry, while the number of `MARKUP` files is zero. -/
theorem sitemap_lists_static_html :
    sitemap demo_sitemap_env static_html_only =
      some "<urlset><url><loc>https://example.com//a</loc></url></urlset>" ∧
    sitemap_appended demo_sitemap_env static_html_only =
      some ["<url><loc>https://example.com//a</loc></url>"] ∧
    (static_html_only.filter (fun f => f.file_type = .MARKUP)).length = 0 :=
  ⟨sitemap_static_html_eval, by decide!, by decide!⟩

/-! ### Drafts -/

theorem only_non_drafts_refl (files : List disk_object) (s : Build_State) :
    only_non_drafts files s s :=
  ⟨fun _ ha => Or.inl ha, [], by simp, fun a ha => (by cases ha)⟩

theorem only_non_drafts_same (files : List disk_object) (s s1 s2 : Build_State)
    (h : only_non_drafts files s s1) (hb : s2.built = s1.built) (hl : s2.log = s1.log) :
    only_non_drafts files s s2 := by
  unfold only_non_drafts at h ⊢
  rw [hb, hl]
  exact h

theorem only_non_drafts_trans (f1 f2 files : List disk_object) (s s1 s2 : Build_State)
    (h1 : only_non_drafts f1 s s1) (h2 : only_non_drafts f2 s1 s2)
    (hf1 : ∀ m ∈ f1, m ∈ files) (hf2 : ∀ m ∈ f2, m ∈ files) :
    only_non_drafts files s s2 := by
  obtain ⟨b1, n1, l1, c1⟩ := h1
  obtain ⟨b2, n2, l2, c2⟩ := h2
  refine ⟨?_, n1 ++ n2, by rw [l2, l1, List.append_assoc], ?_⟩
  · intro a ha
    rcases b2 a ha with h | ⟨m, hm, e⟩
    · rcases b1 a h with h | ⟨m, hm, e⟩
      · exact Or.inl h
      · exact Or.inr ⟨m, hf1 m hm, e⟩
    · exact Or.inr ⟨m, hf2 m hm, e⟩
  · intro a ha
    rcases List.mem_append.1 ha with h | h
    · obtain ⟨m, hm, e⟩ := c1 a h
      exact ⟨m, hf1 m hm, e⟩
    · obtain ⟨m, hm, e⟩ := c2 a h
      exact ⟨m, hf2 m hm, e⟩

theorem only_non_drafts_begin_file (s : Build_State) (file : disk_object)
    (h : file.is_draft = false) : only_non_drafts [file] s (s.begin_file file) := by
  refine ⟨?_, [file.addr], rfl, ?_⟩
  · intro a ha
    rcases List.mem_cons.1 ha with h1 | h1
    · exact Or.inr ⟨file, List.mem_singleton.2 rfl, h1.symm, h⟩
    · exact Or.inl h1
  · intro a ha
    exact ⟨file, List.mem_singleton.2 rfl, (List.mem_singleton.1 ha).symm, h⟩

mutual
theorem build_pages_drafts (env : Build_Env) (hd : env.build_drafts = false) :
    ∀ (t : disk_object) (s : Build_State),
      only_non_drafts t.files s (build_pages env t s).state
  | .mk a ft h d p children, s => by
    rw [build_pages, files_mk]
    exact build_pages_loop_drafts env hd children true s
theorem build_pages_loop_drafts (env : Build_Env) (hd : env.build_drafts = false) :
    ∀ (l : List disk_object) (is_done : Bool) (s : Build_State),
      only_non_drafts (disk_object.files_list l) s (build_pages_loop env l is_done s).state
  | [], is_done, s => by
    rw [build_pages_loop]
    exact only_non_drafts_refl _ s
  | file :: rest, is_done, s => by
    rw [build_pages_loop, disk_object.files_list]
    by_cases hdir : file.file_type = .DIRECTORY
    · rw [if_pos hdir, if_pos hdir]
      have hsub := build_pages_drafts env hd file s
      cases hrun : build_pages env file s with
      | panicked s1 =>
        rw [hrun] at hsub
        exact only_non_drafts_trans _ [] _ s s1 s1 hsub (only_non_drafts_refl _ _)
          (fun m hm => List.mem_append_left _ hm) (fun m hm => (by cases hm))
      | done d s1 =>
        rw [hrun] at hsub
        exact only_non_drafts_trans _ _ _ s s1 _ hsub
          (build_pages_loop_drafts env hd rest _ s1)
          (fun m hm => List.mem_append_left _ hm) (fun m hm => List.mem_append_right _ hm)
    · rw [if_neg hdir, if_neg hdir]
      have skip : only_non_drafts (file :: disk_object.files_list rest) s
          (build_pages_loop env rest is_done s).state :=
        only_non_drafts_trans [] _ _ s s _ (only_non_drafts_refl _ _)
          (build_pages_loop_drafts env hd rest is_done s)
          (fun m hm => (by cases hm)) (fun m hm => List.mem_cons_of_mem _ hm)
      by_cases hb : s.is_built file = true
      · rw [if_pos hb]; exact skip
      rw [if_neg hb]
      by_cases hdraft : file.is_draft = true ∧ ¬ env.build_drafts = true
      · rw [if_pos hdraft]; exact skip
      rw [if_neg hdraft]
      by_cases hused : env.build_only_used = true ∧ ¬ s.is_used file = true
      · rw [if_pos hused]; exact skip
      rw [if_neg hused]
      have hnd : file.is_draft = false := by
        cases h : file.is_draft
        · rfl
        · exact absurd ⟨h, by rw [hd]; simp⟩ hdraft
      have hbegin : only_non_drafts (file :: disk_object.files_list rest) s
          (s.begin_file file) :=
        only_non_drafts_trans _ [] _ s _ _ (only_non_drafts_begin_file s file hnd)
          (only_non_drafts_refl _ _)
          (fun m hm => (by rw [List.mem_singleton.1 hm]; exact List.mem_cons_self _ _))
          (fun m hm => (by cases hm))
      have finish : ∀ s2 : Build_State, s2.built = (s.begin_file file).built →
          s2.log = (s.begin_file file).log →
          only_non_drafts (file :: disk_object.files_list rest) s
            (build_pages_loop env rest false s2).state := by
        intro s2 e1 e2
        exact only_non_drafts_trans _ _ _ s s2 _
          (only_non_drafts_same _ s _ s2 hbegin e1 e2)
          (build_pages_loop_drafts env hd rest false s2)
          (fun m hm => hm) (fun m hm => List.mem_cons_of_mem _ hm)
      simp only
      split
      · split
        · exact hbegin
        · split
          · exact only_non_drafts_same _ s _ _ hbegin rfl rfl
          · exact finish _ rfl rfl
      · split
        · exact hbegin
        · exact finish _ rfl rfl
end

/-- C19 (as amended). When `build_drafts` is false, a pass of `build_pages` over a tree
whose nodes have pairwise different addresses leaves the `is_built` flag of every node
whose own `is_draft` flag is set as it was, and processes (renders, copies, writes) no
such node: its address is not among those the pass adds to the log. The flag of a
directory is not consulted, so the statement is about the node's own flag only. -/
theorem drafts_excluded (env : Build_Env) (hd : env.build_drafts = false)
    (root : disk_object) (s : Build_State)
    (hnodup : (root.descendants.map disk_object.addr).Nodup) :
    ∀ n ∈ root.descendants, n.is_draft = true →
      (build_pages env root s).state.is_built n = s.is_built n ∧
      ∃ new, (build_pages env root s).state.log = s.log ++ new ∧ n.addr ∉ new := by
  intro n hn hdraft
  obtain ⟨hb, new, hl, hc⟩ := build_pages_drafts env hd root s
  have key : ∀ m ∈ root.files, m.addr = n.addr → m.is_draft = false → False := by
    intro m hm e hmd
    have hm' : m ∈ root.descendants := by
      have := (files_sublist root).subset hm
      exact (List.mem_filter.1 this).1
    have := List.inj_on_of_nodup_map hnodup hm' hn e
    rw [this, hdraft] at hmd
    cases hmd
  refine ⟨?_, new, hl, ?_⟩
  · cases h0 : s.is_built n with
    | true => exact built_mono_is_built (build_pages_progress env root s).1 n h0
    | false =>
      cases h1 : (build_pages env root s).state.is_built n with
      | false => rfl
      | true =>
        exfalso
        simp only [Build_State.is_built, List.contains_eq_any_beq, List.any_eq_true,
          beq_iff_eq] at h0 h1
        obtain ⟨x, hx, hxe⟩ := h1
        subst hxe
        rcases hb _ hx with h | ⟨m, hm, e, hmd⟩
        · rw [List.any_eq_false] at h0
          exact h0 _ h (by simp)
        · exact key m hm e hmd
  · intro hmem
    obtain ⟨m, hm, e, hmd⟩ := hc _ hmem
    exact key m hm e hmd

theorem drafts_excluded_witness :
    quiet_build_env.build_drafts = false ∧
    (draft_tree.descendants.map disk_object.addr).Nodup ∧
    ∀ n ∈ draft_tree.descendants, n.is_draft = true →
      (build_pages quiet_build_env draft_tree (initial_state [] [] false)).state.is_built n =
        (initial_state [] [] false).is_built n ∧
      ∃ new, (build_pages quiet_build_env draft_tree (initial_state [] [] false)).state.log =
        (initial_state [] [] false).log ++ new ∧ n.addr ∉ new :=
  ⟨rfl, by decide!,
    drafts_excluded quiet_build_env rfl draft_tree (initial_state [] [] false) (by decide!)⟩

/-- C19 (counterexample). With `build_drafts` false, `build_pages` enters a directory
whose `is_draft` flag is set and builds the file beneath it whose own flag is not set:
the file is unbuilt before the pass, built after it, and it is the one file the pass
processes. -/
theorem draft_directory_is_entered :
    quiet_build_env.build_drafts = false ∧
    draft_directory.is_draft = true ∧
    file_in_draft_directory ∈ draft_directory.descendants ∧
    (initial_state [] [] false).is_built file_in_draft_directory = false ∧
    (build_pages quiet_build_env draft_tree (initial_state [] [] false)).state.is_built
      file_in_draft_directory = true ∧
    build_pages quiet_build_env draft_tree (initial_state [] [] false) =
      .done false ⟨[], [file_in_draft_directory.addr], false,
        [file_in_draft_directory.addr]⟩ := by
  refine ⟨rfl, rfl, ?_, ?_, ?_, ?_⟩ <;> decide!

/-! ### Parser failures and `unwind` -/

theorem triple_bind {α β : Type} {P Q R : Parser → Prop} {m : PM α} {f : α → PM β}
    (hm : Triple P m Q) (hf : ∀ a, Triple Q (f a) R) : Triple P (m >>= f) R := by
  intro p b q hp h
  simp only [bind] at h
  cases hmp : m p with
  | ok a p' =>
    rw [hmp] at h
    exact hf a p' b q (hm p a p' hp hmp) h
  | fault e => rw [hmp] at h; cases h
  | out_of_fuel => rw [hmp] at h; cases h

theorem triple_pure {α : Type} {P : Parser → Prop} (a : α) : Triple P (pure a : PM α) P := by
  intro p b q hp h
  cases h
  exact hp

theorem triple_fail {α : Type} {P Q : Parser → Prop} (f : Fault) :
    Triple P (PM.fail f : PM α) Q := by
  intro p b q _ h
  cases h

theorem triple_out_of_fuel {α : Type} {P Q : Parser → Prop} :
    Triple P (fun _ => (Res.out_of_fuel : Res α)) Q := by
  intro p b q _ h
  cases h

theorem frame_bind {α β : Type} {m : PM α} {f : α → PM β}
    (hm : Frame m) (hf : ∀ a, Frame (f a)) : Frame (m >>= f) := by
  intro p b q h
  simp only [bind] at h
  cases hmp : m p with
  | ok a p' =>
    rw [hmp] at h
    obtain ⟨h1, h2⟩ := hm p a p' hmp
    obtain ⟨h3, h4⟩ := hf a p' b q h
    exact ⟨h3.trans h1, h4.trans h2⟩
  | fault e => rw [hmp] at h; cases h
  | out_of_fuel => rw [hmp] at h; cases h

theorem frame_pure {α : Type} (a : α) : Frame (pure a : PM α) := by
  intro p b q h
  cases h
  exact ⟨rfl, rfl⟩

theorem frame_fail {α : Type} (f : Fault) : Frame (PM.fail f : PM α) := by
  intro p b q h
  cases h

theorem frame_deref {α : Type} (x : Option α) : Frame (deref x) := by
  cases x
  · exact frame_fail _
  · exact frame_pure _

theorem frame_stream_at (i : Int) : Frame (stream_at i) := by
  intro p a q h
  unfold stream_at at h
  split at h
  · cases h
  · split at h
    · cases h; exact ⟨rfl, rfl⟩
    · cases h

theorem frame_stream_rest : Frame stream_rest := by
  intro p a q h
  unfold stream_rest at h
  split at h
  · cases h
  · cases h; exact ⟨rfl, rfl⟩

theorem frame_advance (n : Int) : Frame (advance n) := by
  intro p a q h
  cases h
  exact ⟨rfl, rfl⟩

theorem frame_step_back : Frame step_back := by
  intro p a q h
  cases h
  exact ⟨rfl, rfl⟩

theorem frame_step_backn (n : Int) : Frame (step_backn n) := by
  intro p a q h
  cases h
  exact ⟨rfl, rfl⟩

theorem frame_set_has_webp : Frame set_has_webp := by
  intro p a q h
  cases h
  exact ⟨rfl, rfl⟩

theorem frame_get_unwind : Frame get_unwind := by
  intro p a q h
  cases h
  exact ⟨rfl, rfl⟩

theorem frame_prev : Frame prev := by
  intro p a q h
  unfold prev at h
  split at h
  · cases h; exact ⟨rfl, rfl⟩
  · exact frame_bind (frame_stream_at _) (fun _ => frame_pure _) p a q h

theorem frame_next : Frame next := by
  intro p a q h
  unfold next at h
  split at h
  · cases h; exact ⟨rfl, rfl⟩
  · exact frame_bind (frame_stream_at _)
      (fun _ => frame_bind (frame_advance _) (fun _ => frame_pure _)) p a q h

theorem frame_peek : Frame peek := by
  intro p a q h
  unfold peek at h
  split at h
  · cases h; exact ⟨rfl, rfl⟩
  · exact frame_bind (frame_stream_at _) (fun _ => frame_pure _) p a q h

theorem frame_peek_whitespace : Frame peek_whitespace := by
  intro p a q h
  exact frame_bind frame_stream_rest (fun _ => frame_stream_at _) p a q h

theorem frame_eat_whitespace : Frame eat_whitespace :=
  frame_bind frame_stream_rest (fun _ => frame_bind (frame_advance _) (fun _ => frame_pure _))

theorem frame_get_non_word (token : Lexer_Token) : Frame (get_non_word token) := by
  unfold get_non_word
  split
  · exact frame_pure _
  · exact frame_bind frame_stream_rest
      (fun _ => frame_bind (frame_advance _) (fun _ => frame_pure _))

theorem frame_eat_comment : Frame eat_comment := by
  unfold eat_comment
  refine frame_bind frame_eat_whitespace (fun _ => frame_bind frame_stream_rest (fun rest => ?_))
  split
  · exact frame_advance _
  · exact frame_pure _

theorem frame_parse_raw_block (intact_html : Bool) : Frame (parse_raw_block intact_html) := by
  intro p a q h
  unfold parse_raw_block at h
  refine frame_bind frame_stream_rest (fun rest => ?_) p a q h
  simp only
  split
  · exact frame_bind (frame_advance _) (fun _ => frame_pure _)
  · exact frame_bind (frame_pure _) (fun _ => frame_pure _)

theorem frame_parse_variable_ident (env : Parser_Env) : Frame (parse_variable_ident env) := by
  unfold parse_variable_ident
  repeat (first
    | exact frame_next | exact frame_peek | exact frame_deref _ | exact frame_pure _
    | exact frame_step_back
    | refine frame_bind ?_ (fun _ => ?_)
    | split)

theorem triple_of_frame {α : Type} {m : PM α} (h : Frame m) (before : List spindle_error) :
    Triple (unwind_inv before) m (unwind_inv before) := by
  intro p a q hp hr
  obtain ⟨h1, h2⟩ := h p a q hr
  unfold unwind_inv at hp ⊢
  rw [h1, h2]
  exact hp

theorem keeps_of_frame {α : Type} {m : PM α} (before : List spindle_error) (h : Frame m) :
    Keeps before m :=
  triple_of_frame h before

theorem keeps_bind {α β : Type} {before : List spindle_error} {m : PM α} {f : α → PM β}
    (hm : Keeps before m) (hf : ∀ a, Keeps before (f a)) : Keeps before (m >>= f) :=
  triple_bind hm hf

theorem keeps_pure {α : Type} (before : List spindle_error) (a : α) :
    Keeps before (pure a : PM α) :=
  triple_pure a

theorem keeps_fail {α : Type} (before : List spindle_error) (f : Fault) :
    Keeps before (PM.fail f : PM α) :=
  triple_fail f

theorem keeps_out_of_fuel {α : Type} (before : List spindle_error) :
    Keeps before (fun _ => (Res.out_of_fuel : Res α)) :=
  triple_out_of_fuel

theorem keeps_gate {α : Type} (before : List spindle_error) (a : α) (m : PM α)
    (h : Keeps before m) :
    Keeps before (fun p => if p.unwind then Res.ok a p else m p) := by
  intro p b q hp hr
  simp only at hr
  split at hr
  · cases hr; exact hp
  · exact h p b q hp hr

theorem keeps_recoverable (before : List spindle_error) (kind : error_type) (pos : position)
    (message : String) (subst : List String) (h : message ∈ recoverable_messages) :
    Keeps before (new_pos kind pos message subst) := by
  intro p a q hp hr
  cases hr
  obtain ⟨new, h1, h2⟩ := hp
  refine ⟨new ++ [⟨kind, some pos, message, subst⟩], ?_, ?_⟩
  · show p.errors.all_errors ++ _ = _
    rw [h1, List.append_assoc]
  · rintro ⟨err, herr, hf⟩
    rcases List.mem_append.1 herr with h3 | h3
    · exact h2 ⟨err, h3, hf⟩
    · rw [List.mem_singleton] at h3
      subst h3
      exact absurd h hf.2

theorem keeps_fatal {α : Type} (before : List spindle_error) (m : PM Unit) (k : PM α)
    (hm : Triple (unwind_inv before) m (recorded_since before))
    (hk : Keeps before k) :
    Keeps before (m >>= fun _ => set_unwind >>= fun _ => k) := by
  refine triple_bind hm (fun _ => triple_bind ?_ (fun _ => hk))
  intro p a q hp hr
  cases hr
  obtain ⟨new, h1⟩ := hp
  exact ⟨new, h1, fun _ => rfl⟩

theorem records_new_pos (before : List spindle_error) (kind : error_type) (pos : position)
    (message : String) (subst : List String) :
    Triple (unwind_inv before) (new_pos kind pos message subst) (recorded_since before) := by
  intro p a q hp hr
  cases hr
  obtain ⟨new, h1, _⟩ := hp
  refine ⟨new ++ [⟨kind, some pos, message, subst⟩], ?_⟩
  show p.errors.all_errors ++ _ = _
  rw [h1, List.append_assoc]

theorem keeps_parse_variable_modifier (before : List spindle_error) (env : Parser_Env)
    (v : AST_Variable) : Keeps before (parse_variable_modifier env v) := by
  unfold parse_variable_modifier
  repeat (first
    | exact keeps_of_frame _ frame_next | exact keeps_of_frame _ frame_peek
    | exact keeps_of_frame _ (frame_deref _) | exact keeps_pure _ _
    | exact keeps_of_frame _ frame_step_back
    | exact keeps_recoverable _ _ _ _ _ (by decide)
    | refine keeps_bind ?_ (fun _ => ?_)
    | split)

theorem keeps_parse_variable (before : List spindle_error) (env : Parser_Env)
    (is_support : Bool) : Keeps before (parse_variable env is_support) := by
  unfold parse_variable
  repeat (first
    | exact keeps_of_frame _ frame_next | exact keeps_of_frame _ frame_peek
    | exact keeps_of_frame _ (frame_deref _) | exact keeps_pure _ _
    | exact keeps_of_frame _ (frame_parse_variable_ident _)
    | exact keeps_parse_variable_modifier _ _ _
    | refine keeps_bind ?_ (fun _ => ?_)
    | split)

theorem keeps_parse_if_loop (before : List spindle_error) (env : Parser_Env) :
    ∀ (fuel : Nat) (array : List AST_Data), Keeps before (parse_if_loop env fuel array) := by
  intro fuel
  induction fuel with
  | zero => intro array; exact keeps_out_of_fuel _
  | succ n ih =>
    intro array
    unfold parse_if_loop
    repeat (first
      | exact keeps_of_frame _ frame_next | exact keeps_of_frame _ frame_eat_whitespace
      | exact keeps_of_frame _ (frame_deref _) | exact keeps_pure _ _
      | exact keeps_of_frame _ frame_step_back
      | exact keeps_parse_variable _ _ _
      | exact ih _
      | exact keeps_fail _ _
      | refine keeps_fatal _ _ _ (records_new_pos _ _ _ _ _) ?_
      | refine keeps_bind ?_ (fun _ => ?_)
      | split)

theorem keeps_parse_image_settings_loop (before : List spindle_error) (env : Parser_Env) :
    ∀ (fuel : Nat) (settings : Image_Settings) (got_anything : Bool),
      Keeps before (parse_image_settings_loop env fuel settings got_anything) := by
  intro fuel
  induction fuel with
  | zero => intro settings got_anything; exact keeps_out_of_fuel _
  | succ n ih =>
    intro settings got_anything
    unfold parse_image_settings_loop
    repeat (first
      | exact keeps_of_frame _ frame_next | exact keeps_of_frame _ frame_eat_whitespace
      | exact keeps_of_frame _ frame_peek
      | exact keeps_of_frame _ (frame_deref _) | exact keeps_pure _ _
      | exact keeps_of_frame _ frame_step_back
      | exact keeps_of_frame _ frame_set_has_webp
      | exact ih _ _
      | refine keeps_fatal _ _ _ (records_new_pos _ _ _ _ _) ?_
      | refine keeps_bind ?_ (fun _ => ?_)
      | split)

theorem keeps_parse_image_settings (before : List spindle_error) (env : Parser_Env)
    (fuel : Nat) : Keeps before (parse_image_settings env fuel) :=
  keeps_parse_image_settings_loop before env fuel _ _

theorem frame_parse_exec_head (env : Parser_Env) (word : Lexer_Token) :
    Frame (parse_exec_head env word) := by
  unfold parse_exec_head
  repeat (first
    | exact frame_next | exact frame_peek | exact frame_deref _ | exact frame_pure _
    | refine frame_bind ?_ (fun _ => ?_)
    | split)

theorem keeps_parse_paragraph_loop (before : List spindle_error) (env : Parser_Env) :
    ∀ (fuel : Nat) (is_support : Bool) (exit_upon : List AST_Type) (array : List AST_Data)
      (buffer : String),
      Keeps before (parse_paragraph_loop env fuel is_support exit_upon array buffer) := by
  intro fuel
  induction fuel with
  | zero => intro is_support exit_upon array buffer; exact keeps_out_of_fuel _
  | succ n ih =>
    intro is_support exit_upon array buffer
    unfold parse_paragraph_loop
    repeat (first
      | exact keeps_of_frame _ frame_next | exact keeps_of_frame _ frame_eat_whitespace
      | exact keeps_of_frame _ frame_peek
      | exact keeps_of_frame _ (frame_deref _) | exact keeps_pure _ _
      | exact keeps_of_frame _ frame_get_unwind
      | exact keeps_of_frame _ (frame_parse_exec_head _ _)
      | exact keeps_parse_variable _ _ _
      | exact keeps_parse_image_settings _ _ _
      | exact ih _ _ _ _
      | exact keeps_gate _ _ _ (ih _ _ _ _)
      | refine keeps_bind ?_ (fun _ => ?_)
      | split)

theorem keeps_parse_paragraph (before : List spindle_error) (env : Parser_Env) (fuel : Nat)
    (is_support : Bool) (exit_upon : List AST_Type) :
    Keeps before (parse_paragraph env fuel is_support exit_upon) :=
  keeps_gate _ _ _ (keeps_parse_paragraph_loop before env fuel _ _ _ _)

theorem keeps_parse_decl_value (before : List spindle_error) (env : Parser_Env)
    (pp : Bool → List AST_Type → PM (List AST_Data)) (pb : Nat → Bool → PM (List AST_Data))
    (hpp : ∀ s x, Keeps before (pp s x)) (hpb : ∀ d s, Keeps before (pb d s))
    (is_support : Bool) (token : Lexer_Token) (field taxonomy subname : Nat)
    (is_immediate : Bool) :
    Keeps before (parse_decl_value env pp pb is_support token field taxonomy subname is_immediate) := by
  unfold parse_decl_value
  repeat (first
    | exact keeps_of_frame _ frame_next | exact keeps_of_frame _ frame_eat_whitespace
    | exact keeps_of_frame _ frame_peek | exact keeps_of_frame _ frame_peek_whitespace
    | exact keeps_of_frame _ (frame_deref _) | exact keeps_pure _ _
    | exact keeps_of_frame _ frame_step_back | exact keeps_of_frame _ (frame_step_backn _)
    | exact keeps_of_frame _ (frame_parse_variable_ident _)
    | exact keeps_of_frame _ (frame_get_non_word _)
    | exact keeps_of_frame _ (frame_parse_raw_block _)
    | exact keeps_of_frame _ frame_eat_comment
    | exact keeps_fail _ _
    | exact hpp _ _ | exact hpb _ _
    | exact keeps_recoverable _ _ _ _ _ (by decide)
    | refine keeps_fatal _ _ _ (records_new_pos _ _ _ _ _) ?_
    | refine keeps_bind ?_ (fun _ => ?_)
    | split)

theorem keeps_parse_word_case (before : List spindle_error) (env : Parser_Env)
    (pp : Bool → List AST_Type → PM (List AST_Data)) (pb : Nat → Bool → PM (List AST_Data))
    (hpp : ∀ s x, Keeps before (pp s x)) (hpb : ∀ d s, Keeps before (pb d s))
    (is_support : Bool) (array : List AST_Data) (token : Lexer_Token) :
    Keeps before (parse_word_case env pp pb is_support array token) := by
  unfold parse_word_case
  repeat (first
    | exact keeps_of_frame _ frame_next | exact keeps_of_frame _ frame_eat_whitespace
    | exact keeps_of_frame _ frame_peek | exact keeps_of_frame _ frame_peek_whitespace
    | exact keeps_of_frame _ (frame_deref _) | exact keeps_pure _ _
    | exact keeps_of_frame _ frame_step_back | exact keeps_of_frame _ (frame_step_backn _)
    | exact keeps_of_frame _ (frame_parse_variable_ident _)
    | exact keeps_of_frame _ (frame_get_non_word _)
    | exact keeps_of_frame _ (frame_parse_raw_block _)
    | exact keeps_of_frame _ frame_eat_comment
    | exact keeps_fail _ _
    | exact keeps_parse_decl_value _ _ _ _ hpp hpb _ _ _ _ _ _
    | exact hpp _ _ | exact hpb _ _
    | exact keeps_recoverable _ _ _ _ _ (by decide)
    | refine keeps_fatal _ _ _ (records_new_pos _ _ _ _ _) ?_
    | refine keeps_bind ?_ (fun _ => ?_)
    | split)

theorem keeps_parse_template_value (before : List spindle_error) (env : Parser_Env)
    (pp : Bool → List AST_Type → PM (List AST_Data)) (pb : Nat → Bool → PM (List AST_Data))
    (hpp : ∀ s x, Keeps before (pp s x)) (hpb : ∀ d s, Keeps before (pb d s))
    (ast_type : AST_Type) (pos : position) (field taxonomy subname : Nat) (is_soft : Bool) :
    Keeps before (parse_template_value env pp pb ast_type pos field taxonomy subname is_soft) := by
  unfold parse_template_value
  repeat (first
    | exact keeps_of_frame _ frame_next | exact keeps_of_frame _ frame_eat_whitespace
    | exact keeps_of_frame _ frame_peek | exact keeps_of_frame _ frame_peek_whitespace
    | exact keeps_of_frame _ (frame_deref _) | exact keeps_pure _ _
    | exact keeps_of_frame _ frame_step_back | exact keeps_of_frame _ (frame_step_backn _)
    | exact keeps_of_frame _ (frame_parse_variable_ident _)
    | exact keeps_of_frame _ (frame_get_non_word _)
    | exact keeps_of_frame _ (frame_parse_raw_block _)
    | exact keeps_of_frame _ frame_eat_comment
    | exact keeps_fail _ _
    | exact hpp _ _ | exact hpb _ _
    | exact keeps_recoverable _ _ _ _ _ (by decide)
    | refine keeps_fatal _ _ _ (records_new_pos _ _ _ _ _) ?_
    | refine keeps_bind ?_ (fun _ => ?_)
    | split)

theorem keeps_parse_bracket_case (before : List spindle_error) (env : Parser_Env)
    (pp : Bool → List AST_Type → PM (List AST_Data)) (pb : Nat → Bool → PM (List AST_Data))
    (hpp : ∀ s x, Keeps before (pp s x)) (hpb : ∀ d s, Keeps before (pb d s))
    (is_support : Bool) (array : List AST_Data) (token : Lexer_Token) :
    Keeps before (parse_bracket_case env pp pb is_support array token) := by
  unfold parse_bracket_case
  repeat (first
    | exact keeps_of_frame _ frame_next | exact keeps_of_frame _ frame_eat_whitespace
    | exact keeps_of_frame _ frame_peek | exact keeps_of_frame _ frame_peek_whitespace
    | exact keeps_of_frame _ (frame_deref _) | exact keeps_pure _ _
    | exact keeps_of_frame _ frame_step_back | exact keeps_of_frame _ (frame_step_backn _)
    | exact keeps_of_frame _ (frame_parse_variable_ident _)
    | exact keeps_of_frame _ (frame_get_non_word _)
    | exact keeps_of_frame _ (frame_parse_raw_block _)
    | exact keeps_of_frame _ frame_eat_comment
    | exact keeps_fail _ _
    | exact keeps_parse_template_value _ _ _ _ hpp hpb _ _ _ _ _ _
    | exact hpp _ _ | exact hpb _ _
    | exact keeps_recoverable _ _ _ _ _ (by decide)
    | refine keeps_fatal _ _ _ (records_new_pos _ _ _ _ _) ?_
    | refine keeps_bind ?_ (fun _ => ?_)
    | split)

theorem keeps_parse_builtin_case (before : List spindle_error) (env : Parser_Env)
    (array : List AST_Data) (token : Lexer_Token) :
    Keeps before (parse_builtin_case env array token) := by
  unfold parse_builtin_case
  repeat (first
    | exact keeps_of_frame _ frame_next | exact keeps_of_frame _ frame_eat_whitespace
    | exact keeps_of_frame _ frame_peek | exact keeps_of_frame _ frame_peek_whitespace
    | exact keeps_of_frame _ (frame_deref _) | exact keeps_pure _ _
    | exact keeps_of_frame _ frame_step_back | exact keeps_of_frame _ (frame_step_backn _)
    | exact keeps_of_frame _ (frame_parse_variable_ident _)
    | exact keeps_of_frame _ (frame_get_non_word _)
    | exact keeps_of_frame _ (frame_parse_raw_block _)
    | exact keeps_of_frame _ frame_eat_comment
    | exact keeps_fail _ _
    | exact keeps_recoverable _ _ _ _ _ (by decide)
    | refine keeps_fatal _ _ _ (records_new_pos _ _ _ _ _) ?_
    | refine keeps_bind ?_ (fun _ => ?_)
    | split)

theorem keeps_parse_import_case (before : List spindle_error) (env : Parser_Env)
    (pp : Bool → List AST_Type → PM (List AST_Data))
    (hpp : ∀ s x, Keeps before (pp s x))
    (is_support : Bool) (array : List AST_Data) (token : Lexer_Token) :
    Keeps before (parse_import_case env pp is_support array token) := by
  unfold parse_import_case
  repeat (first
    | exact keeps_of_frame _ frame_next | exact keeps_of_frame _ frame_eat_whitespace
    | exact keeps_of_frame _ frame_peek | exact keeps_of_frame _ frame_peek_whitespace
    | exact keeps_of_frame _ (frame_deref _) | exact keeps_pure _ _
    | exact keeps_of_frame _ frame_step_back | exact keeps_of_frame _ (frame_step_backn _)
    | exact keeps_of_frame _ (frame_parse_variable_ident _)
    | exact keeps_of_frame _ (frame_get_non_word _)
    | exact keeps_of_frame _ (frame_parse_raw_block _)
    | exact keeps_of_frame _ frame_eat_comment
    | exact keeps_fail _ _
    | exact hpp _ _
    | exact keeps_recoverable _ _ _ _ _ (by decide)
    | refine keeps_fatal _ _ _ (records_new_pos _ _ _ _ _) ?_
    | refine keeps_bind ?_ (fun _ => ?_)
    | split)

theorem keeps_parse_script_case (before : List spindle_error) (env : Parser_Env)
    (pp : Bool → List AST_Type → PM (List AST_Data))
    (hpp : ∀ s x, Keeps before (pp s x))
    (is_support : Bool) (array : List AST_Data) (token : Lexer_Token) :
    Keeps before (parse_script_case env pp is_support array token) := by
  unfold parse_script_case
  repeat (first
    | exact keeps_of_frame _ frame_next | exact keeps_of_frame _ frame_eat_whitespace
    | exact keeps_of_frame _ frame_peek | exact keeps_of_frame _ frame_peek_whitespace
    | exact keeps_of_frame _ (frame_deref _) | exact keeps_pure _ _
    | exact keeps_of_frame _ frame_step_back | exact keeps_of_frame _ (frame_step_backn _)
    | exact keeps_of_frame _ (frame_parse_variable_ident _)
    | exact keeps_of_frame _ (frame_get_non_word _)
    | exact keeps_of_frame _ (frame_parse_raw_block _)
    | exact keeps_of_frame _ frame_eat_comment
    | exact keeps_fail _ _
    | exact hpp _ _
    | exact keeps_recoverable _ _ _ _ _ (by decide)
    | refine keeps_fatal _ _ _ (records_new_pos _ _ _ _ _) ?_
    | refine keeps_bind ?_ (fun _ => ?_)
    | split)

theorem keeps_parse_keyword_case (before : List spindle_error) (env : Parser_Env)
    (pp : Bool → List AST_Type → PM (List AST_Data)) (pb : Nat → Bool → PM (List AST_Data))
    (hpp : ∀ s x, Keeps before (pp s x)) (hpb : ∀ d s, Keeps before (pb d s))
    (fuel : Nat) (is_support : Bool) (array : List AST_Data) (token : Lexer_Token) :
    Keeps before (parse_keyword_case env fuel pp pb is_support array token) := by
  unfold parse_keyword_case
  repeat (first
    | exact keeps_of_frame _ frame_next | exact keeps_of_frame _ frame_eat_whitespace
    | exact keeps_of_frame _ frame_peek | exact keeps_of_frame _ frame_peek_whitespace
    | exact keeps_of_frame _ (frame_deref _) | exact keeps_pure _ _
    | exact keeps_of_frame _ frame_step_back | exact keeps_of_frame _ (frame_step_backn _)
    | exact keeps_of_frame _ (frame_parse_variable_ident _)
    | exact keeps_of_frame _ (frame_get_non_word _)
    | exact keeps_of_frame _ (frame_parse_raw_block _)
    | exact keeps_of_frame _ frame_eat_comment
    | exact keeps_fail _ _
    | exact keeps_parse_word_case _ _ _ _ hpp hpb _ _ _
    | exact keeps_parse_if_loop _ _ _ _
    | exact hpp _ _ | exact hpb _ _
    | exact keeps_recoverable _ _ _ _ _ (by decide)
    | refine keeps_fatal _ _ _ (records_new_pos _ _ _ _ _) ?_
    | refine keeps_bind ?_ (fun _ => ?_)
    | split)

theorem keeps_parse_switch (before : List spindle_error) (env : Parser_Env)
    (pp : Bool → List AST_Type → PM (List AST_Data)) (pb : Nat → Bool → PM (List AST_Data))
    (hpp : ∀ s x, Keeps before (pp s x)) (hpb : ∀ d s, Keeps before (pb d s))
    (fuel : Nat) (is_support : Bool) (array : List AST_Data) (token : Lexer_Token) :
    Keeps before (parse_switch env fuel pp pb is_support array token) := by
  unfold parse_switch
  repeat (first
    | exact keeps_of_frame _ frame_next | exact keeps_of_frame _ frame_eat_whitespace
    | exact keeps_of_frame _ frame_peek | exact keeps_of_frame _ frame_peek_whitespace
    | exact keeps_of_frame _ (frame_deref _) | exact keeps_pure _ _
    | exact keeps_of_frame _ frame_step_back | exact keeps_of_frame _ (frame_step_backn _)
    | exact keeps_of_frame _ (frame_parse_variable_ident _)
    | exact keeps_of_frame _ (frame_get_non_word _)
    | exact keeps_of_frame _ (frame_parse_raw_block _)
    | exact keeps_of_frame _ frame_eat_comment
    | exact keeps_fail _ _
    | exact keeps_parse_keyword_case _ _ _ _ hpp hpb _ _ _ _
    | exact keeps_parse_bracket_case _ _ _ _ hpp hpb _ _ _
    | exact keeps_parse_builtin_case _ _ _ _
    | exact keeps_parse_import_case _ _ _ hpp _ _ _
    | exact keeps_parse_script_case _ _ _ hpp _ _ _
    | exact hpp _ _ | exact hpb _ _
    | exact keeps_recoverable _ _ _ _ _ (by decide)
    | refine keeps_fatal _ _ _ (records_new_pos _ _ _ _ _) ?_
    | refine keeps_bind ?_ (fun _ => ?_)
    | split)

theorem keeps_parse_item (before : List spindle_error) (env : Parser_Env)
    (pp : Bool → List AST_Type → PM (List AST_Data)) (pb : Nat → Bool → PM (List AST_Data))
    (hpp : ∀ s x, Keeps before (pp s x)) (hpb : ∀ d s, Keeps before (pb d s))
    (fuel : Nat) (is_support : Bool) (array : List AST_Data) (token : Lexer_Token) :
    Keeps before (parse_item env fuel pp pb is_support array token) := by
  unfold parse_item
  repeat (first
    | exact keeps_of_frame _ frame_next | exact keeps_of_frame _ frame_eat_whitespace
    | exact keeps_of_frame _ frame_peek | exact keeps_of_frame _ frame_peek_whitespace
    | exact keeps_of_frame _ (frame_deref _) | exact keeps_pure _ _
    | exact keeps_of_frame _ frame_step_back | exact keeps_of_frame _ (frame_step_backn _)
    | exact keeps_of_frame _ (frame_parse_variable_ident _)
    | exact keeps_of_frame _ (frame_get_non_word _)
    | exact keeps_of_frame _ (frame_parse_raw_block _)
    | exact keeps_of_frame _ frame_eat_comment
    | exact keeps_fail _ _
    | exact keeps_parse_switch _ _ _ _ hpp hpb _ _ _ _
    | exact hpp _ _ | exact hpb _ _
    | exact keeps_recoverable _ _ _ _ _ (by decide)
    | refine keeps_fatal _ _ _ (records_new_pos _ _ _ _ _) ?_
    | refine keeps_bind ?_ (fun _ => ?_)
    | split)

theorem keeps_parse_block_loop (before : List spindle_error) (env : Parser_Env) :
    ∀ (fuel max_depth : Nat) (is_support : Bool) (array : List AST_Data),
      Keeps before (parse_block_loop env fuel max_depth is_support array) := by
  intro fuel
  induction fuel with
  | zero => intro max_depth is_support array; exact keeps_out_of_fuel _
  | succ n ih =>
    intro max_depth is_support array
    unfold parse_block_loop
    repeat (first
      | exact keeps_of_frame _ frame_next | exact keeps_of_frame _ frame_prev
      | exact keeps_pure _ _
      | exact ih _ _ _
      | exact keeps_parse_item _ _ _ _ (fun _ _ => keeps_parse_paragraph _ _ _ _ _)
          (fun _ _ => keeps_gate _ _ _ (ih _ _ _)) _ _ _ _
      | refine keeps_bind ?_ (fun _ => ?_)
      | split)

theorem keeps_parse_block (before : List spindle_error) (env : Parser_Env)
    (fuel max_depth : Nat) (is_support : Bool) :
    Keeps before (parse_block env fuel max_depth is_support) :=
  keeps_gate _ _ _ (keeps_parse_block_loop before env fuel _ _ _)

/-- C13 (as amended). For every token stream, environment and fuel: when `parse_stream`
returns, the diagnostics of the handler are those it held before followed by the ones
recorded during the parse, and if one of the latter is a `PARSER_FAILURE` whose message
is not `malformed script call`, `ambiguous token ... should be escaped` or `unknown
variable modifier`, then `unwind` is true in the final state. This covers the failures
of `else`, of the taginator, of the declarations, of the image format and of the
if-statement. -/
theorem fatal_failure_sets_unwind (env : Parser_Env) (fuel : Nat) (stream : List Lexer_Token)
    (is_support : Bool) (errors : Error_Handler) (tree : List AST_Data) (p : Parser)
    (h : parse_stream env fuel stream is_support errors = .ok tree p) :
    ∃ new, p.errors.all_errors = errors.all_errors ++ new ∧
      ((∃ err ∈ new, err.kind = .PARSER_FAILURE ∧ err.message ∉ recoverable_messages) →
        p.unwind = true) :=
  keeps_parse_block errors.all_errors env fuel 0 is_support _ tree p
    ⟨[], by simp, fun ⟨_, h, _⟩ => (by cases h)⟩ h

theorem fatal_failure_sets_unwind_witness :
    parse_stream std_env 100 else_at_end false new_error_handler =
      .ok [paragraph_a] (parser_at else_at_end 4 true else_failure) ∧
    ∃ new, (parser_at else_at_end 4 true else_failure).errors.all_errors =
        new_error_handler.all_errors ++ new ∧
      ((∃ err ∈ new, err.kind = .PARSER_FAILURE ∧ err.message ∉ recoverable_messages) →
        (parser_at else_at_end 4 true else_failure).unwind = true) :=
  ⟨by decide!,
    fatal_failure_sets_unwind std_env 100 else_at_end false new_error_handler [paragraph_a]
      (parser_at else_at_end 4 true else_failure) (by decide!)⟩

/-- C13 (counterexample). On the lines `%x:raw`, `$` and `& foo bar` the parser records
a diagnostic of kind `PARSER_FAILURE` (`unknown variable modifier`, `malformed script
call`, `ambiguous token`) and returns with `unwind` false. -/
theorem recoverable_failures_leave_unwind :
    parse_stream std_env 100 variable_with_raw false new_error_handler =
      .ok [AST_Data.Base .NORMAL ⟨"page.x", 0, 1, 1⟩ ""
            [AST_Data.Variable ⟨.VAR, ⟨"page.x", 0, 1, 1⟩, fnv1a "x", 0, 0, .NONE⟩]]
        (parser_at variable_with_raw 6 false unknown_modifier_failure) ∧
    parse_stream std_env 100 lone_dollar false new_error_handler =
      .ok [] (parser_at lone_dollar 3 false script_failure) ∧
    parse_stream std_env 100 (stray_sigil .AMPERSAND "&") false new_error_handler =
      .ok [paragraph_of_line "& foo bar"]
        (parser_at (stray_sigil .AMPERSAND "&") 7 false (ambiguous_failure "&")) ∧
    unknown_modifier_failure.all_errors.map (fun e => e.kind) = [.PARSER_FAILURE] ∧
    script_failure.all_errors.map (fun e => e.kind) = [.PARSER_FAILURE] ∧
    (ambiguous_failure "&").all_errors.map (fun e => e.kind) = [.PARSER_FAILURE] := by
  refine ⟨?_, ?_, ?_, ?_, ?_, ?_⟩ <;> decide!

/-! ### Template declarations -/

theorem returns_bind {α β : Type} {m : PM α} {f : α → PM β} {Q : β → Prop}
    (hf : ∀ a, Returns (f a) Q) : Returns (m >>= f) Q := by
  intro p b q h
  simp only [bind] at h
  cases hmp : m p with
  | ok a p' =>
    rw [hmp] at h
    exact hf a p' b q h
  | fault e => rw [hmp] at h; cases h
  | out_of_fuel => rw [hmp] at h; cases h

theorem returns_pure {α : Type} {Q : α → Prop} (a : α) (h : Q a) :
    Returns (pure a : PM α) Q := by
  intro p b q hr
  cases hr
  exact h

theorem parse_block_loop_break (env : Parser_Env) (fuel max_depth : Nat) (is_support : Bool)
    (array : List AST_Data) (p p1 p2 : Parser) (token : Lexer_Token)
    (hn : next p = .ok (some token) p1)
    (h1 : token.ast_type.is [.EOF, .BRACE_CLOSE] = false)
    (h2 : ¬ (max_depth > 0 ∧ array.length ≥ max_depth))
    (h3 : token.ast_type ≠ .NEWLINE)
    (hi : parse_item env fuel (parse_paragraph env fuel)
        (fun max_depth is_support q =>
          if q.unwind then Res.ok [] q
          else parse_block_loop env fuel max_depth is_support [] q)
        is_support array token p1 = .ok none p2) :
    parse_block_loop env (fuel + 1) max_depth is_support array p = .ok array p2 := by
  rw [parse_block_loop]
  simp only [bind, hn, h1, h2, h3]
  simp only [↓reduceIte, Bool.false_eq_true]
  rw [hi]
  rfl

theorem stream_at_state (i : Int) (p q : Parser) (t : Lexer_Token)
    (h : stream_at i p = .ok t q) : q = p := by
  unfold stream_at at h
  split at h
  · cases h
  · split at h
    · cases h; rfl
    · cases h

theorem next_state (p p1 : Parser) (t : Lexer_Token) (h : next p = .ok (some t) p1) :
    p1 = { p with index := p.index + 1 } ∧ peek p = .ok (some t) p := by
  unfold next at h
  unfold peek
  by_cases hlt : p.index > (p.stream.length : Int) - 1
  · rw [if_pos hlt] at h
    cases h
  · rw [if_neg hlt] at h ⊢
    simp only [bind, pure, advance] at h ⊢
    cases hs : stream_at p.index p with
    | ok a q =>
      rw [hs] at h
      have hq := stream_at_state _ _ _ _ hs
      subst hq
      simp only [Res.ok.injEq, Option.some.injEq] at h
      obtain ⟨h1, h2⟩ := h
      subst h1
      exact ⟨h2.symm, rfl⟩
    | fault e => rw [hs] at h; cases h
    | out_of_fuel => rw [hs] at h; cases h

theorem parse_variable_ident_plain (env : Parser_Env) (p p1 : Parser) (a b : Lexer_Token)
    (ha : next p = .ok (some a) p1) (hb : peek p1 = .ok (some b) p1)
    (hstop : b.ast_type ≠ .STOP) :
    parse_variable_ident env p = .ok (env.new_hash a.field, 0, 0) p1 := by
  simp only [parse_variable_ident, bind, pure, deref, ha, hb, hstop, if_false]

theorem parse_template_value_shape (env : Parser_Env)
    (pp : Bool → List AST_Type → PM (List AST_Data)) (pb : Nat → Bool → PM (List AST_Data))
    (ast_type : AST_Type) (pos : position) (field taxonomy subname : Nat) (is_soft : Bool) :
    Returns (parse_template_value env pp pb ast_type pos field taxonomy subname is_soft)
      (fun decl => ∃ pos' children,
        decl = AST_Data.Declare ast_type pos' field taxonomy subname false is_soft children) := by
  unfold parse_template_value
  repeat (first
    | exact returns_pure _ ⟨_, _, rfl⟩
    | refine returns_bind (fun _ => ?_)
    | split)

theorem brace_name_item (env : Parser_Env) (fuel : Nat)
    (pp : Bool → List AST_Type → PM (List AST_Data)) (pb : Nat → Bool → PM (List AST_Data))
    (is_support : Bool) (array : List AST_Data) (text : String) (pos : position)
    (inner closing equals : Lexer_Token) (did : Bool) (p p1 p2 p3 p4 : Parser)
    (hg : env.gt_is_non_word .BRACE_OPEN = false)
    (hnext : next p = .ok (some inner) p1)
    (hinner : env.gt_is_non_word inner.ast_type = false)
    (hword : inner.ast_type.is [.WORD, .IDENT] = true)
    (hclose : next p1 = .ok (some closing) p2)
    (hc : closing.ast_type.is [.BRACKET_CLOSE, .BRACE_CLOSE] = true)
    (hws : eat_whitespace p2 = .ok did p3)
    (heq : next p3 = .ok (some equals) p4)
    (he : equals.ast_type = .EQUALS) :
    parse_item env fuel pp pb is_support array ⟨.BRACE_OPEN, text, pos⟩ p =
      .ok none { p4 with errors := brace_failure p4.errors pos inner.field, unwind := true } := by
  have hpeek := (next_state p p1 inner hnext).2
  have hblank : inner.ast_type.is [.WHITESPACE, .NEWLINE] = false := by
    revert hword
    cases inner.ast_type <;> decide
  simp only [parse_item, parse_switch, parse_bracket_case, bind, pure, deref, hg, hpeek,
    hblank, hinner, hnext, hclose, hc, hws, heq, he, new_pos, set_unwind, brace_failure,
    Bool.false_eq_true, if_false, if_true, decide_True, decide_False, not_true_eq_false,
    not_false_eq_true, false_and, true_and, ne_eq, not_true, and_false]

theorem bracket_name_item (env : Parser_Env) (fuel : Nat)
    (pp : Bool → List AST_Type → PM (List AST_Data)) (pb : Nat → Bool → PM (List AST_Data))
    (is_support : Bool) (array : List AST_Data) (text : String) (pos : position)
    (inner closing equals : Lexer_Token) (did : Bool) (p p1 p2 p3 p4 p5 : Parser)
    (decl : AST_Data)
    (hg : env.gt_is_non_word .BRACKET_OPEN = false)
    (hnext : next p = .ok (some inner) p1)
    (hinner : env.gt_is_non_word inner.ast_type = false)
    (hword : inner.ast_type.is [.WORD, .IDENT] = true)
    (hclose : next p1 = .ok (some closing) p2)
    (hc : closing.ast_type.is [.BRACKET_CLOSE, .BRACE_CLOSE] = true)
    (hws : eat_whitespace p2 = .ok did p3)
    (heq : next p3 = .ok (some equals) p4)
    (he : equals.ast_type = .EQUALS)
    (hval : parse_template_value env pp pb .DECL_BLOCK pos (env.new_hash inner.field) 0 0
      is_support p4 = .ok decl p5) :
    parse_item env fuel pp pb is_support array ⟨.BRACKET_OPEN, text, pos⟩ p =
      .ok (some (array ++ [decl])) p5 ∧
    ∃ pos' children, decl = AST_Data.Declare .DECL_BLOCK pos' (env.new_hash inner.field) 0 0
      false is_support children := by
  refine ⟨?_, parse_template_value_shape env pp pb _ _ _ _ _ _ p4 decl p5 hval⟩
  obtain ⟨hp1, _⟩ := next_state p p1 inner hnext
  have hpeek := (next_state p1 p2 closing hclose).2
  have hstop : closing.ast_type ≠ .STOP := by
    intro h
    rw [h] at hc
    exact absurd hc (by decide)
  have hvar := parse_variable_ident_plain env p p1 inner closing hnext hpeek hstop
  have hback : step_back p1 = .ok () p := by
    rw [hp1]
    cases p
    simp [step_back]
  simp only [parse_item, parse_switch, parse_bracket_case, bind, pure, deref, hg,
    hinner, hword, hnext, hback, hvar, hclose, hc, hws, heq, he, hval,
    Bool.false_eq_true, if_false, if_true, decide_True, decide_False, not_true_eq_false,
    not_false_eq_true, false_and, true_and, ne_eq, not_true, and_false, and_self,
    reduceCtorEq]

/-- C15 (as amended). After an opening token, when the parser reads a token `inner` of
kind WORD or IDENT (no glyph), a closing bracket or brace, optional whitespace and `=`:
with the opening brace, `parse_block` records the failure `bad type in
\x7bdeclaration\x7d`, sets `unwind` and leaves its loop with the items it had, so no
declaration node is made; with the opening bracket, the item added is the declaration
that `parse_template_value` returns, a `DECL_BLOCK` whose field is `new_hash` of the
name. The brace form is accepted for a glyph: `\x7b!\x7d = bar` yields a `DECL_TOKEN`
whose field is the hash of `!` plus one, `[!] = bar` one whose field is the hash. -/
theorem template_declaration_forms (env : Parser_Env) (fuel : Nat)
    (pp : Bool → List AST_Type → PM (List AST_Data)) (pb : Nat → Bool → PM (List AST_Data))
    (is_support : Bool) (array : List AST_Data) (text : String) (pos : position)
    (inner closing equals : Lexer_Token) (did : Bool) (p p1 p2 p3 p4 : Parser)
    (hbrace : env.gt_is_non_word .BRACE_OPEN = false)
    (hbracket : env.gt_is_non_word .BRACKET_OPEN = false)
    (hnext : next p = .ok (some inner) p1)
    (hinner : env.gt_is_non_word inner.ast_type = false)
    (hword : inner.ast_type.is [.WORD, .IDENT] = true)
    (hclose : next p1 = .ok (some closing) p2)
    (hc : closing.ast_type.is [.BRACKET_CLOSE, .BRACE_CLOSE] = true)
    (hws : eat_whitespace p2 = .ok did p3)
    (heq : next p3 = .ok (some equals) p4)
    (he : equals.ast_type = .EQUALS) :
    parse_item env fuel pp pb is_support array ⟨.BRACE_OPEN, text, pos⟩ p =
      .ok none { p4 with errors := brace_failure p4.errors pos inner.field, unwind := true } ∧
    (∀ (max_depth : Nat) (p0 : Parser),
      next p0 = .ok (some ⟨.BRACE_OPEN, text, pos⟩) p →
      ¬ (max_depth > 0 ∧ array.length ≥ max_depth) →
      parse_block_loop env (fuel + 1) max_depth is_support array p0 =
        .ok array
          { p4 with errors := brace_failure p4.errors pos inner.field, unwind := true }) ∧
    (∀ (decl : AST_Data) (p5 : Parser),
      parse_template_value env pp pb .DECL_BLOCK pos (env.new_hash inner.field) 0 0
        is_support p4 = .ok decl p5 →
      parse_item env fuel pp pb is_support array ⟨.BRACKET_OPEN, text, pos⟩ p =
        .ok (some (array ++ [decl])) p5 ∧
      ∃ pos' children, decl = AST_Data.Declare .DECL_BLOCK pos' (env.new_hash inner.field)
        0 0 false is_support children) ∧
    parse_stream std_env 100
        (template_line (.BRACE_OPEN, "\x7b") (.BRACE_CLOSE, "\x7d") (.BANG, "!")) false
        new_error_handler =
      .ok [AST_Data.Declare .DECL_TOKEN ⟨"page.x", 0, 1, 1⟩ (fnv1a "!" + 1) 0 0 false false
            [AST_Data.Base .NORMAL position.zero " bar" []]]
        (parser_at (template_line (.BRACE_OPEN, "\x7b") (.BRACE_CLOSE, "\x7d") (.BANG, "!"))
          9 false new_error_handler) ∧
    parse_stream std_env 100
        (template_line (.BRACKET_OPEN, "[") (.BRACKET_CLOSE, "]") (.BANG, "!")) false
        new_error_handler =
      .ok [AST_Data.Declare .DECL_TOKEN ⟨"page.x", 0, 1, 1⟩ (fnv1a "!") 0 0 false false
            [AST_Data.Base .NORMAL position.zero " bar" []]]
        (parser_at (template_line (.BRACKET_OPEN, "[") (.BRACKET_CLOSE, "]") (.BANG, "!"))
          9 false new_error_handler) := by
  refine ⟨?_, ?_, ?_, by decide!, by decide!⟩
  · exact brace_name_item env fuel pp pb is_support array text pos inner closing equals did
      p p1 p2 p3 p4 hbrace hnext hinner hword hclose hc hws heq he
  · intro max_depth p0 hopen hdepth
    exact parse_block_loop_break env fuel max_depth is_support array p0 p _ _ hopen
      rfl hdepth (fun h => (by cases h))
      (brace_name_item env fuel _ _ is_support array text pos inner closing equals did
        p p1 p2 p3 p4 hbrace hnext hinner hword hclose hc hws heq he)
  · intro decl p5 hval
    exact bracket_name_item env fuel pp pb is_support array text pos inner closing equals did
      p p1 p2 p3 p4 p5 decl hbracket hnext hinner hword hclose hc hws heq he hval

theorem template_declaration_forms_witness :
    parse_item std_env 0 (parse_paragraph std_env 0) (fun _ _ => pure []) false []
        ⟨.BRACE_OPEN, "\x7b", ⟨"page.x", 0, 1, 1⟩⟩
        (parser_at (template_line (.BRACE_OPEN, "\x7b") (.BRACE_CLOSE, "\x7d") (.WORD, "foo"))
          1 false new_error_handler) =
      .ok none
        (parser_at (template_line (.BRACE_OPEN, "\x7b") (.BRACE_CLOSE, "\x7d") (.WORD, "foo"))
          5 true (brace_failure new_error_handler ⟨"page.x", 0, 1, 1⟩ "foo")) :=
  (template_declaration_forms std_env 0 (parse_paragraph std_env 0) (fun _ _ => pure []) false
    [] "\x7b" ⟨"page.x", 0, 1, 1⟩ ⟨.WORD, "foo", ⟨"page.x", 1, 4, 1⟩⟩
    ⟨.BRACE_CLOSE, "\x7d", ⟨"page.x", 4, 5, 1⟩⟩ ⟨.EQUALS, "=", ⟨"page.x", 6, 7, 1⟩⟩ true
    (parser_at (template_line (.BRACE_OPEN, "\x7b") (.BRACE_CLOSE, "\x7d") (.WORD, "foo"))
      1 false new_error_handler)
    (parser_at (template_line (.BRACE_OPEN, "\x7b") (.BRACE_CLOSE, "\x7d") (.WORD, "foo"))
      2 false new_error_handler)
    (parser_at (template_line (.BRACE_OPEN, "\x7b") (.BRACE_CLOSE, "\x7d") (.WORD, "foo"))
      3 false new_error_handler)
    (parser_at (template_line (.BRACE_OPEN, "\x7b") (.BRACE_CLOSE, "\x7d") (.WORD, "foo"))
      4 false new_error_handler)
    (parser_at (template_line (.BRACE_OPEN, "\x7b") (.BRACE_CLOSE, "\x7d") (.WORD, "foo"))
      5 false new_error_handler)
    (by decide!) (by decide!) (by decide!) (by decide!) (by decide!) (by decide!) (by decide!)
    (by decide!) (by decide!) (by decide!)).1

/-- C15 (counterexample). The line `\x7bfoo\x7d = bar` is not accepted: `parse_stream`
returns no node at all, with `unwind` set and the failure `bad type in
\x7bdeclaration\x7d` recorded, while `[foo] = bar` yields the `DECL_BLOCK` node. -/
theorem brace_name_is_rejected :
    parse_stream std_env 100
        (template_line (.BRACE_OPEN, "\x7b") (.BRACE_CLOSE, "\x7d") (.WORD, "foo")) false
        new_error_handler =
      .ok []
        (parser_at (template_line (.BRACE_OPEN, "\x7b") (.BRACE_CLOSE, "\x7d") (.WORD, "foo"))
          5 true (brace_failure new_error_handler ⟨"page.x", 0, 1, 1⟩ "foo")) ∧
    (brace_failure new_error_handler ⟨"page.x", 0, 1, 1⟩ "foo").has_failures = true ∧
    parse_stream std_env 100
        (template_line (.BRACKET_OPEN, "[") (.BRACKET_CLOSE, "]") (.WORD, "foo")) false
        new_error_handler =
      .ok [AST_Data.Declare .DECL_BLOCK ⟨"page.x", 0, 1, 1⟩ (fnv1a "foo") 0 0 false false
            [AST_Data.Base .NORMAL position.zero " bar" []]]
        (parser_at (template_line (.BRACKET_OPEN, "[") (.BRACKET_CLOSE, "]") (.WORD, "foo"))
          9 false new_error_handler) := by
  refine ⟨?_, ?_, ?_⟩ <;> decide!

/-! ### Claims C21, C23, C25, C29, C30: evaluations -/

/-- C21 (failing input). The test `strings.HasSuffix(input, "index")` of
`make_url_from_path` also holds for the base name `reindex`: `dir/reindex.x` gets the
URL of `dir/re`, the same as the page `dir/re.x` of the same directory, while
`dir/index.x` collapses to `dir/` and `dir/about.x` keeps its name. -/
theorem make_url_from_path_suffix_index (env : Sitemap_Env) :
    make_url_from_path env "dir/index.x" = env.clean "dir/" ∧
    make_url_from_path env "dir/about.x" = env.clean "dir/about" ∧
    make_url_from_path env "dir/reindex.x" = env.clean "dir/re" ∧
    make_url_from_path env "dir/reindex.x" = make_url_from_path env "dir/re.x" :=
  ⟨rfl, rfl, rfl, rfl⟩

/-- C23 (failing input). The terminal report lists the diagnostics in the order in
which they were recorded: the same two diagnostics recorded in the two possible
orders give two different reports, the parser failure before the warning in one and
after it in the other. -/
theorem render_term_errors_keeps_recording_order :
    failure_then_warning.render_term_errors sprintf_plain =
      "Parser Failure! page.x — line 3\n    bad token\n\nWarning!\n    slow build" ∧
    warning_then_failure.render_term_errors sprintf_plain =
      "Warning!\n    slow build\n\nParser Failure! page.x — line 3\n    bad token" ∧
    failure_then_warning.render_term_errors sprintf_plain ≠
      warning_then_failure.render_term_errors sprintf_plain := by
  decide!

/-- C25 (failing input). On two streams whose tokens all have a non-empty byte range
the parser returns nodes with the zero position: the text node of the paragraph `a b`
(whose paragraph node has the range 0..1 of its first token only), and both the block
node and the `RAW` node of the raw block `x raw \x7b b \x7d`. -/
theorem text_and_raw_nodes_have_zero_position :
    nonempty_ranges ranged_line ∧
    parse_stream std_env 20 ranged_line false new_error_handler =
      .ok [AST_Data.Base .NORMAL ⟨"page.x", 0, 1, 1⟩ ""
          [AST_Data.Base .NORMAL position.zero "a b" []]]
        (parser_at ranged_line 4 false new_error_handler) ∧
    nonempty_ranges ranged_raw_block ∧
    parse_stream std_env 20 ranged_raw_block false new_error_handler =
      .ok [AST_Data.Block position.zero (fnv1a "x")
          [AST_Data.Base .RAW position.zero "b " []]]
        (parser_at ranged_raw_block 10 false new_error_handler) := by
  decide!

/-- C29 (failing input). A line of `k` glyphs `!` directly followed by a word: for
`k = 1` and `k = 3` the paragraph holds all the glyphs and the word, for `k = 2` it
holds one glyph only. -/
theorem glyph_run_of_two_loses_a_glyph :
    parse_stream std_env 20 (glyph_run .BANG "!" 1) false new_error_handler =
      .ok [paragraph_of_line "!word"]
        (parser_at (glyph_run .BANG "!" 1) 3 false new_error_handler) ∧
    parse_stream std_env 20 (glyph_run .BANG "!" 2) false new_error_handler =
      .ok [paragraph_of_line "!word"]
        (parser_at (glyph_run .BANG "!" 2) 4 false new_error_handler) ∧
    parse_stream std_env 20 (glyph_run .BANG "!" 3) false new_error_handler =
      .ok [paragraph_of_line "!!!word"]
        (parser_at (glyph_run .BANG "!" 3) 5 false new_error_handler) ∧
    parse_stream std_env 20 (glyph_run .PLUS "+" 2) false new_error_handler =
      .ok [paragraph_of_line "+word"]
        (parser_at (glyph_run .PLUS "+" 2) 4 false new_error_handler) := by
  decide!

/-- C30 (failing input). In the block of `raw_escape_scenario` the first closing brace
follows an `ANGLE_OPEN` token, not an `ESCAPE` token. In html mode the block ends
there: the text is `<` and the index is left on the word `y`. In raw mode the brace
is taken as escaped: it is part of the text and the block ends at the second closing
brace. -/
theorem raw_block_escape_outlives_angle :
    parse_raw_block true (parser_at (raw_escape_scenario "html") 5 false new_error_handler) =
      .ok (AST_Data.Base .RAW position.zero "<" [])
        (parser_at (raw_escape_scenario "html") 9 false new_error_handler) ∧
    parse_raw_block false (parser_at (raw_escape_scenario "raw") 5 false new_error_handler) =
      .ok (AST_Data.Base .RAW position.zero "&lt;\x7dy" [])
        (parser_at (raw_escape_scenario "raw") 11 false new_error_handler) ∧
    raw_block_text
      (parse_stream std_env 20 (raw_escape_scenario "raw") false new_error_handler) =
        some "&lt;\x7dy" := by
  decide!

/-! ### The distance test of the finder -/

theorem levenshtein_chars_cons_nil (x : Char) (xs : List Char) :
    levenshtein_chars (x :: xs) [] = levenshtein_chars xs [] + 1 := rfl

theorem levenshtein_chars_cons_cons (x y : Char) (xs ys : List Char) :
    levenshtein_chars (x :: xs) (y :: ys) =
      min (min (levenshtein_chars xs (y :: ys) + 1) (levenshtein_chars (x :: xs) ys + 1))
        (levenshtein_chars xs ys + if x = y then 0 else 1) := rfl

/-- The edit distance is at least the difference of the lengths. -/
theorem levenshtein_chars_length_le (xs : List Char) :
    ∀ ys : List Char, xs.length ≤ levenshtein_chars xs ys + ys.length := by
  induction xs with
  | nil => intro ys; simp
  | cons x xs ih =>
    intro ys
    induction ys with
    | nil =>
      have h := ih []
      rw [levenshtein_chars_cons_nil]
      simp only [List.length_cons, List.length_nil] at h ⊢
      omega
    | cons y ys ihy =>
      have h1 := ih (y :: ys)
      have h2 := ih ys
      rw [levenshtein_chars_cons_cons]
      simp only [List.length_cons] at h1 h2 ihy ⊢
      simp only [Nat.min_def]
      split_ifs <;> omega

/-- Deleting characters costs at most the number of characters deleted. -/
theorem levenshtein_chars_of_sublist {ys xs : List Char} (h : List.Sublist ys xs) :
    levenshtein_chars xs ys + ys.length ≤ xs.length := by
  induction h with
  | slnil => simp [levenshtein_chars]
  | @cons l₁ l₂ x _ ih =>
    have h1 : levenshtein_chars (x :: l₂) l₁ ≤ levenshtein_chars l₂ l₁ + 1 :=
      levenshtein_row_le x (levenshtein_chars l₂) l₁
    simp only [List.length_cons]
    omega
  | @cons₂ l₁ l₂ x _ ih =>
    have h1 : levenshtein_chars (x :: l₂) (x :: l₁) ≤ levenshtein_chars l₂ l₁ := by
      rw [levenshtein_chars_cons_cons]
      simp
    simp only [List.length_cons]
    omega

theorem min_three_cases (a b c : Nat) :
    min (min a b) c = a ∨ min (min a b) c = b ∨ min (min a b) c = c := by
  omega

/-- A distance that is no more than the difference of the lengths is reached by
deletions only. -/
theorem sublist_of_levenshtein_chars (xs : List Char) :
    ∀ ys : List Char, levenshtein_chars xs ys + ys.length ≤ xs.length → List.Sublist ys xs := by
  induction xs with
  | nil =>
    intro ys h
    cases ys with
    | nil => exact List.Sublist.slnil
    | cons y ys => simp [levenshtein_chars] at h
  | cons x xs ih =>
    intro ys h
    cases ys with
    | nil => exact List.nil_sublist _
    | cons y ys =>
      rw [levenshtein_chars_cons_cons] at h
      simp only [List.length_cons] at h
      have hA := levenshtein_chars_length_le (x :: xs) ys
      have hB := levenshtein_chars_length_le xs ys
      simp only [List.length_cons] at hA
      rcases min_three_cases (levenshtein_chars xs (y :: ys) + 1)
        (levenshtein_chars (x :: xs) ys + 1)
        (levenshtein_chars xs ys + if x = y then 0 else 1) with hm | hm | hm
      · rw [hm] at h
        exact List.Sublist.cons _ (ih _ (by simp only [List.length_cons]; omega))
      · rw [hm] at h
        omega
      · rw [hm] at h
        by_cases hxy : x = y
        · subst hxy
          simp only [if_true] at h
          exact List.Sublist.cons₂ _ (ih _ (by omega))
        · simp only [if_neg hxy] at h
          omega

/-- C28. For texts `check` longer than `target`, the test
`levenshtein_distance(check, target) <= len(check) - len(target)` of `find_file` holds
if and only if `target` can be obtained from `check` by deleting characters. An entry
with the text `check` passes the whole test of `find_file` if and only if `target` is
such a subsequence and the base names have the same length and the same first
character. -/
theorem distance_test_is_subsequence_test (check target : String)
    (h : check.length > target.length) :
    (levenshtein_distance check target ≤ check.length - target.length ↔
      is_subsequence target check) ∧
    (∀ entry : disk_object, check_path entry = check →
      (is_candidate levenshtein_distance target entry = true ↔
        is_subsequence target check ∧
          (filepath_Base target).length = (filepath_Base check).length ∧
          (filepath_Base target).data.head? = (filepath_Base check).data.head?)) := by
  have hl : target.data.length < check.data.length := h
  have key : levenshtein_distance check target ≤ check.length - target.length ↔
      is_subsequence target check := by
    unfold levenshtein_distance is_subsequence
    show levenshtein_chars check.data target.data ≤ check.data.length - target.data.length ↔ _
    constructor
    · intro hd
      exact sublist_of_levenshtein_chars _ _ (by omega)
    · intro hs
      have := levenshtein_chars_of_sublist hs
      omega
  refine ⟨key, ?_⟩
  intro entry he
  have hnle : ¬ check.length ≤ target.length := by omega
  unfold is_candidate
  simp only [he, hnle, if_false]
  by_cases hk : levenshtein_distance check target ≤ check.length - target.length
  · simp only [hk, if_true]
    constructor
    · intro hc
      split at hc
      · cases hc
      · rename_i hb
        simp only [not_or, not_not] at hb
        exact ⟨key.1 hk, hb.1, hb.2⟩
    · rintro ⟨_, h1, h2⟩
      simp [h1, h2]
  · simp only [hk, if_false]
    constructor
    · intro hc; cases hc
    · rintro ⟨hs, _⟩
      exact absurd (key.2 hs) hk

theorem distance_test_is_subsequence_test_witness :
    "source/a/b/c".length > "a/c".length ∧
    (levenshtein_distance "source/a/b/c" "a/c" ≤ "source/a/b/c".length - "a/c".length ↔
      is_subsequence "a/c" "source/a/b/c") ∧
    (∀ entry : disk_object, check_path entry = "source/a/b/c" →
      (is_candidate levenshtein_distance "a/c" entry = true ↔
        is_subsequence "a/c" "source/a/b/c" ∧
          (filepath_Base "a/c").length = (filepath_Base "source/a/b/c").length ∧
          (filepath_Base "a/c").data.head? = (filepath_Base "source/a/b/c").data.head?)) :=
  ⟨by decide, distance_test_is_subsequence_test "source/a/b/c" "a/c" (by decide)⟩

/-! ### The failure flag of the error handler -/

theorem run_append_call (e : Error_Handler) (calls : List Handler_Call) (c : Handler_Call) :
    e.run (calls ++ [c]) = (e.run calls).call c := by
  simp [Error_Handler.run, List.foldl_append]

theorem since_last_reset_append_reset (calls : List Handler_Call) :
    since_last_reset (calls ++ [.reset]) = [] := by
  simp [since_last_reset]

theorem since_last_reset_append (calls : List Handler_Call) (c : Handler_Call)
    (h : c ≠ .reset) : since_last_reset (calls ++ [c]) = since_last_reset calls ++ [c] := by
  simp [since_last_reset, List.takeWhile_cons, h]

theorem rank_gt_is_failure (kind : error_type) :
    kind.rank > is_failure ↔ kind.is_failure_kind := by
  cases kind <;> simp [error_type.rank, is_failure, error_type.is_failure_kind]

theorem warning_not_failure (kind : error_type) (h : kind.is_warning_kind) :
    ¬ kind.rank > is_failure := by
  rcases h with h | h | h <;> subst h <;> decide

/-- The state of the handler after a sequence of calls: its diagnostics are those
recorded since the last `reset`, and the flag says whether one of them is a failure. -/
theorem run_state (calls : List Handler_Call) :
    (new_error_handler.run calls).all_errors = recorded_since_reset calls ∧
    ((new_error_handler.run calls).has_failures = true ↔
      ∃ err ∈ recorded_since_reset calls, err.kind.is_failure_kind) := by
  induction calls using List.reverseRecOn with
  | nil => exact ⟨rfl, by simp [Error_Handler.run, new_error_handler, Error_Handler.reset,
      recorded_since_reset, since_last_reset]⟩
  | append_singleton calls c ih =>
    obtain ⟨ih1, ih2⟩ := ih
    rw [run_append_call]
    cases c with
    | reset =>
      simp [Error_Handler.call, Error_Handler.reset, recorded_since_reset,
        since_last_reset_append_reset]
    | new kind message subst =>
      have hs := since_last_reset_append calls (.new kind message subst) (by simp)
      have hr : recorded_since_reset (calls ++ [.new kind message subst]) =
          recorded_since_reset calls ++ [⟨kind, none, message, subst⟩] := by
        simp [recorded_since_reset, hs, List.filterMap_append, Handler_Call.diagnostic]
      rw [hr]
      refine ⟨by simp [Error_Handler.call, Error_Handler.new, ih1], ?_⟩
      simp only [Error_Handler.call, Error_Handler.new, List.mem_append, List.mem_singleton]
      by_cases hk : kind.rank > is_failure
      · simp only [hk, if_true, true_iff]
        exact ⟨_, Or.inr rfl, (rank_gt_is_failure kind).1 hk⟩
      · simp only [hk, if_false, ih2]
        constructor
        · rintro ⟨err, he, hf⟩
          exact ⟨err, Or.inl he, hf⟩
        · rintro ⟨err, he | he, hf⟩
          · exact ⟨err, he, hf⟩
          · subst he
            exact absurd ((rank_gt_is_failure kind).2 hf) hk
    | new_pos kind pos message subst =>
      have hs := since_last_reset_append calls (.new_pos kind pos message subst) (by simp)
      have hr : recorded_since_reset (calls ++ [.new_pos kind pos message subst]) =
          recorded_since_reset calls ++ [⟨kind, some pos, message, subst⟩] := by
        simp [recorded_since_reset, hs, List.filterMap_append, Handler_Call.diagnostic]
      rw [hr]
      refine ⟨by simp [Error_Handler.call, Error_Handler.new_pos, ih1], ?_⟩
      simp only [Error_Handler.call, Error_Handler.new_pos, List.mem_append, List.mem_singleton]
      by_cases hk : kind.rank > is_failure
      · simp only [hk, if_true, true_iff]
        exact ⟨_, Or.inr rfl, (rank_gt_is_failure kind).1 hk⟩
      · simp only [hk, if_false, ih2]
        constructor
        · rintro ⟨err, he, hf⟩
          exact ⟨err, Or.inl he, hf⟩
        · rintro ⟨err, he | he, hf⟩
          · exact ⟨err, he, hf⟩
          · subst he
            exact absurd ((rank_gt_is_failure kind).2 hf) hk

/-- C22. After any sequence of `reset`, `new` and `new_pos` calls on a new handler,
the handler holds the diagnostics recorded since the last `reset`, and `has_failures`
is true if and only if one of them has the kind `FAILURE`, `RENDER_FAILURE` or
`PARSER_FAILURE`. A `new` or `new_pos` call appends exactly one diagnostic behind the
earlier ones, and with a warning kind it leaves `has_failures` as it was. -/
theorem has_failures_tracks_failures (calls : List Handler_Call) :
    (new_error_handler.run calls).all_errors = recorded_since_reset calls ∧
    ((new_error_handler.run calls).has_failures = true ↔
      ∃ err ∈ recorded_since_reset calls, err.kind.is_failure_kind) ∧
    (∀ (e : Error_Handler) (kind : error_type) (message : String) (subst : List String),
      (e.new kind message subst).all_errors = e.all_errors ++ [⟨kind, none, message, subst⟩] ∧
      (kind.is_warning_kind → (e.new kind message subst).has_failures = e.has_failures) ∧
      (kind.is_failure_kind → (e.new kind message subst).has_failures = true)) ∧
    (∀ (e : Error_Handler) (kind : error_type) (pos : position) (message : String)
        (subst : List String),
      (e.new_pos kind pos message subst).all_errors =
        e.all_errors ++ [⟨kind, some pos, message, subst⟩] ∧
      (kind.is_warning_kind → (e.new_pos kind pos message subst).has_failures = e.has_failures) ∧
      (kind.is_failure_kind → (e.new_pos kind pos message subst).has_failures = true)) := by
  refine ⟨(run_state calls).1, (run_state calls).2, ?_, ?_⟩
  · intro e kind message subst
    refine ⟨rfl, fun h => ?_, fun h => ?_⟩
    · simp only [Error_Handler.new, if_neg (warning_not_failure kind h)]
    · simp only [Error_Handler.new, if_pos ((rank_gt_is_failure kind).2 h)]
  · intro e kind pos message subst
    refine ⟨rfl, fun h => ?_, fun h => ?_⟩
    · simp only [Error_Handler.new_pos, if_neg (warning_not_failure kind h)]
    · simp only [Error_Handler.new_pos, if_pos ((rank_gt_is_failure kind).2 h)]

/-! ### Element ids -/

theorem make_element_id_loop_dashes (env : Text_Env) (cs : List Char) :
    ∀ inside : Bool,
      make_element_id_loop env (tags_to_dashes_loop cs inside) false =
        make_element_id_loop env cs inside := by
  induction cs with
  | nil => intro inside; rfl
  | cons c cs ih =>
    intro inside
    by_cases h1 : c = '<'
    · simp only [tags_to_dashes_loop, make_element_id_loop, h1, if_true, ih]
    · by_cases h2 : c = '>'
      · subst h2
        simp only [tags_to_dashes_loop, make_element_id_loop, h1, if_true, if_false, ih]
        have e1 : ¬ ('-' = '<') := by decide
        have e2 : ¬ ('-' = '>') := by decide
        simp only [e1, e2, if_false, Bool.false_eq_true, decide_True, Bool.or_true, if_true,
          ite_self]
      · cases inside with
        | true =>
          simp only [tags_to_dashes_loop, make_element_id_loop, h1, h2, if_true, if_false, ih]
        | false =>
          simp only [tags_to_dashes_loop, make_element_id_loop, h1, h2, if_false,
            Bool.false_eq_true, ih]

/-- C26 (counterexample). A tag leaves a dash in the slug: `<b>Hi</b>` gives `-hi-`,
while `Hi` gives `hi`. -/
theorem make_element_id_tag_leaves_dash :
    make_element_id ascii_text_env "<b>Hi</b>" = "-hi-" ∧
    make_element_id ascii_text_env "Hi" = "hi" := by
  decide!

/-- C26 (amended). The slug of a text is the slug of the text with every tag replaced
by one dash; `tags_to_dashes` leaves a text without `<` and `>` as it is. -/
theorem make_element_id_tags_to_dashes (env : Text_Env) (t : String) :
    make_element_id env t = make_element_id env (tags_to_dashes t) ∧
    ((∀ c ∈ t.data, c ≠ '<' ∧ c ≠ '>') → tags_to_dashes t = t) := by
  refine ⟨?_, ?_⟩
  · unfold make_element_id tags_to_dashes
    rw [make_element_id_loop_dashes]
  · intro h
    unfold tags_to_dashes
    have : ∀ cs : List Char, (∀ c ∈ cs, c ≠ '<' ∧ c ≠ '>') →
        tags_to_dashes_loop cs false = cs := by
      intro cs
      induction cs with
      | nil => intro _; rfl
      | cons c cs ih =>
        intro hc
        have h1 := (hc c (List.mem_cons_self _ _)).1
        have h2 := (hc c (List.mem_cons_self _ _)).2
        simp only [tags_to_dashes_loop, h1, h2, if_false, Bool.false_eq_true]
        rw [ih (fun c hm => hc c (List.mem_cons_of_mem _ hm))]
    rw [this _ h]

/-! ### The reload hub -/

theorem broadcast_loop_spec (full : List Nat) :
    ∀ (l : List Nat) (h : Client_Hub), l.Nodup → (∀ c ∈ l, c ∉ h.closed) →
      ∃ h', broadcast_loop full l h = some h' ∧
        h'.clients = h.clients.filter (fun c => decide (¬ (c ∈ l ∧ c ∈ full))) ∧
        (∀ c, c ∈ h'.closed ↔ c ∈ h.closed ∨ (c ∈ l ∧ c ∈ full)) ∧
        (h.closed.Nodup → h'.closed.Nodup) := by
  intro l
  induction l with
  | nil =>
    intro h _ _
    exact ⟨h, rfl, by simp, by simp, fun hn => hn⟩
  | cons c rest ih =>
    intro h hnd hopen
    have hc : c ∉ rest := (List.nodup_cons.1 hnd).1
    have hrest : rest.Nodup := (List.nodup_cons.1 hnd).2
    have hco : c ∉ h.closed := hopen c (List.mem_cons_self _ _)
    by_cases hf : c ∈ full
    · have hopen1 : ∀ d ∈ rest,
          d ∉ (delete_client { h with closed := c :: h.closed } c).closed := by
        intro d hd hmem
        rcases List.mem_cons.1 hmem with e | e
        · exact hc (e ▸ hd)
        · exact hopen d (List.mem_cons_of_mem _ hd) e
      obtain ⟨h', e1, e2, e3, e4⟩ :=
        ih (delete_client { h with closed := c :: h.closed } c) hrest hopen1
      refine ⟨h', ?_, ?_, ?_, ?_⟩
      · simp only [broadcast_loop, hf, if_true, close_send, hco, if_false]
        exact e1
      · rw [e2]
        simp only [delete_client, List.filter_filter]
        apply List.filter_congr
        intro d _
        by_cases hd : d = c
        · subst hd; simp [hf]
        · simp [hd]
      · intro d
        rw [e3]
        simp only [delete_client, List.mem_cons]
        constructor
        · rintro ((e | e) | ⟨e, e'⟩)
          · exact Or.inr ⟨Or.inl e, e ▸ hf⟩
          · exact Or.inl e
          · exact Or.inr ⟨Or.inr e, e'⟩
        · rintro (e | ⟨e | e, e'⟩)
          · exact Or.inl (Or.inr e)
          · exact Or.inl (Or.inl e)
          · exact Or.inr ⟨e, e'⟩
      · intro hn
        exact e4 (List.nodup_cons.2 ⟨hco, hn⟩)
    · obtain ⟨h', e1, e2, e3, e4⟩ :=
        ih h hrest (fun d hd => hopen d (List.mem_cons_of_mem _ hd))
      refine ⟨h', ?_, ?_, ?_, e4⟩
      · simp only [broadcast_loop, hf, if_false, hco]
        exact e1
      · rw [e2]
        apply List.filter_congr
        intro d _
        by_cases hd : d = c
        · subst hd; simp [hf]
        · simp [hd]
      · intro d
        rw [e3]
        simp only [List.mem_cons]
        constructor
        · rintro (e | ⟨e, e'⟩)
          · exact Or.inl e
          · exact Or.inr ⟨Or.inr e, e'⟩
        · rintro (e | ⟨e | e, e'⟩)
          · exact Or.inl e
          · exact absurd (e ▸ e') hf
          · exact Or.inr ⟨e, e'⟩

/-- A broadcast from a state with the invariant: it does not panic, the clients found
full leave the set and their buffers are closed, the other clients stay. -/
theorem broadcast_step (h : Client_Hub) (hi : hub_inv h) (full : List Nat) :
    ∃ h', h.step (.broadcast full) = some h' ∧ hub_inv h' ∧
      h'.clients = h.clients.filter (fun c => decide (c ∉ full)) ∧
      (∀ c, c ∈ h'.closed ↔ c ∈ h.closed ∨ (c ∈ h.clients ∧ c ∈ full)) := by
  obtain ⟨h1, h2, h3⟩ := hi
  obtain ⟨h', e1, e2, e3, e4⟩ := broadcast_loop_spec full h.clients h h2 h1
  have e2' : h'.clients = h.clients.filter (fun c => decide (c ∉ full)) := by
    rw [e2]
    apply List.filter_congr
    intro d hd
    simp [hd]
  refine ⟨h', e1, ⟨?_, ?_, e4 h3⟩, e2', e3⟩
  · intro c hc hcl
    rw [e2'] at hc
    obtain ⟨hc1, hc2⟩ := List.mem_filter.1 hc
    rcases (e3 c).1 hcl with e | ⟨_, e⟩
    · exact h1 c hc1 e
    · simp at hc2
      exact hc2 e
  · rw [e2']
    exact h2.filter _

/-- One event from a state with the invariant whose clients and closed buffers are all
among `seen`; a `register` event brings a client that is not among `seen`. -/
theorem hub_step (h : Client_Hub) (seen : List Nat) (e : Hub_Event) (hi : hub_inv h)
    (hs : ∀ c, c ∈ h.clients ∨ c ∈ h.closed → c ∈ seen)
    (hnew : ∀ c ∈ registered [e], c ∉ seen) :
    ∃ h', h.step e = some h' ∧ hub_inv h' ∧
      (∀ c, c ∈ h'.clients ∨ c ∈ h'.closed → c ∈ registered [e] ++ seen) := by
  obtain ⟨h1, h2, h3⟩ := hi
  cases e with
  | register client =>
    have hn : client ∉ seen := hnew client (by simp [registered])
    have hc : client ∉ h.clients := fun hm => hn (hs _ (Or.inl hm))
    have hcl : client ∉ h.closed := fun hm => hn (hs _ (Or.inr hm))
    refine ⟨_, rfl, ⟨?_, ?_, h3⟩, ?_⟩
    · intro c hm
      simp only [hc, if_false, List.mem_cons] at hm
      rcases hm with e | e
      · exact e ▸ hcl
      · exact h1 c e
    · simp only [hc, if_false]
      exact List.nodup_cons.2 ⟨hc, h2⟩
    · intro c hm
      simp only [hc, if_false, List.mem_cons, registered, List.cons_append, List.nil_append]
        at hm ⊢
      rcases hm with (e | e) | e
      · exact Or.inl e
      · exact Or.inr (hs c (Or.inl e))
      · exact Or.inr (hs c (Or.inr e))
  | unregister client =>
    by_cases hc : client ∈ h.clients
    · have hcl : client ∉ h.closed := h1 client hc
      refine ⟨{ clients := h.clients.filter (fun c => decide (c ≠ client)),
                closed := client :: h.closed }, ?_, ⟨?_, h2.filter _, ?_⟩, ?_⟩
      · simp only [Client_Hub.step, hc, if_true, close_send, delete_client, hcl, if_false]
      · intro c hm hm'
        obtain ⟨hm1, hm2⟩ := List.mem_filter.1 hm
        simp at hm2
        rcases List.mem_cons.1 hm' with e | e
        · exact hm2 e
        · exact h1 c hm1 e
      · exact List.nodup_cons.2 ⟨hcl, h3⟩
      · intro c hm
        simp only [registered, List.nil_append]
        rcases hm with hm | hm
        · exact hs c (Or.inl (List.mem_filter.1 hm).1)
        · rcases List.mem_cons.1 hm with e | e
          · exact hs c (Or.inl (e ▸ hc))
          · exact hs c (Or.inr e)
    · refine ⟨h, ?_, ⟨h1, h2, h3⟩, ?_⟩
      · simp only [Client_Hub.step, hc, if_false]
      · intro c hm
        simp only [registered, List.nil_append]
        exact hs c hm
  | broadcast full =>
    obtain ⟨h', e1, e2, e3, e4⟩ := broadcast_step h ⟨h1, h2, h3⟩ full
    refine ⟨h', e1, e2, ?_⟩
    intro c hm
    simp only [registered, List.nil_append]
    rcases hm with hm | hm
    · rw [e3] at hm
      exact hs c (Or.inl (List.mem_filter.1 hm).1)
    · rcases (e4 c).1 hm with e | ⟨e, _⟩
      · exact hs c (Or.inr e)
      · exact hs c (Or.inl e)

theorem registered_cons (e : Hub_Event) (es : List Hub_Event) :
    registered (e :: es) = registered [e] ++ registered es := by
  cases e <;> rfl

/-- A sequence of events in which every client is registered at most once, none of
them among `seen`, runs without a panic and keeps the invariant. -/
theorem hub_run (events : List Hub_Event) :
    ∀ (h : Client_Hub) (seen : List Nat), hub_inv h →
      (∀ c, c ∈ h.clients ∨ c ∈ h.closed → c ∈ seen) →
      registered_once events → (∀ c ∈ registered events, c ∉ seen) →
      ∃ h', h.run events = some h' ∧ hub_inv h' := by
  induction events with
  | nil => intro h _ hi _ _ _; exact ⟨h, rfl, hi⟩
  | cons e es ih =>
    intro h seen hi hs ho hnew
    unfold registered_once at ho
    rw [registered_cons] at ho hnew
    obtain ⟨h1, e1, e2, e3⟩ := hub_step h seen e hi hs
      (fun c hc => hnew c (List.mem_append_left _ hc))
    obtain ⟨h', e4, e5⟩ := ih h1 (registered [e] ++ seen) e2 e3
      (List.Nodup.of_append_right ho) (by
        intro c hc hm
        rcases List.mem_append.1 hm with hm | hm
        · exact (List.nodup_append.1 ho).2.2 hm hc
        · exact hnew c (List.mem_append_right _ hc) hm)
    refine ⟨h', ?_, e5⟩
    simp only [Client_Hub.run, e1]
    exact e4

/-- C27. For every sequence of register, unregister and broadcast events in which
every client is registered at most once, the loop of the hub runs without a panic (no
send buffer is closed twice, and nothing is sent on a closed buffer). In the state
reached every client of the set has an open buffer and no buffer was closed twice; a
broadcast from it removes exactly the clients found full from the set and closes their
buffers in the same step; and an unregister of a client whose buffer is closed leaves
the state as it is. -/
theorem hub_never_closes_twice (events : List Hub_Event) (h : registered_once events) :
    ∃ s, new_hub.run events = some s ∧
      (∀ c ∈ s.clients, c ∉ s.closed) ∧ s.closed.Nodup ∧
      (∀ full, ∃ s', s.step (.broadcast full) = some s' ∧
        s'.clients = s.clients.filter (fun c => decide (c ∉ full)) ∧
        (∀ c ∈ s.clients, c ∈ full → c ∉ s'.clients ∧ c ∈ s'.closed) ∧
        (∀ c ∈ s'.clients, c ∉ s'.closed) ∧ s'.closed.Nodup) ∧
      (∀ c ∈ s.closed, s.step (.unregister c) = some s) := by
  obtain ⟨s, e1, e2⟩ := hub_run events new_hub [] ⟨by simp [new_hub], by simp [new_hub],
    by simp [new_hub]⟩ (by simp [new_hub]) h (by simp)
  refine ⟨s, e1, e2.1, e2.2.2, ?_, ?_⟩
  · intro full
    obtain ⟨s', f1, f2, f3, f4⟩ := broadcast_step s e2 full
    refine ⟨s', f1, f3, ?_, f2.1, f2.2.2⟩
    intro c hc hf
    refine ⟨?_, (f4 c).2 (Or.inr ⟨hc, hf⟩)⟩
    rw [f3]
    intro hm
    have := (List.mem_filter.1 hm).2
    simp at this
    exact this hf
  · intro c hc
    have hn : c ∉ s.clients := fun hm => e2.1 c hm hc
    simp only [Client_Hub.step, hn, if_false]

theorem hub_never_closes_twice_witness :
    registered_once hub_events ∧
    ∃ s, new_hub.run hub_events = some s ∧
      (∀ c ∈ s.clients, c ∉ s.closed) ∧ s.closed.Nodup ∧
      (∀ full, ∃ s', s.step (.broadcast full) = some s' ∧
        s'.clients = s.clients.filter (fun c => decide (c ∉ full)) ∧
        (∀ c ∈ s.clients, c ∈ full → c ∉ s'.clients ∧ c ∈ s'.closed) ∧
        (∀ c ∈ s'.clients, c ∉ s'.closed) ∧ s'.closed.Nodup) ∧
      (∀ c ∈ s.closed, s.step (.unregister c) = some s) :=
  ⟨by decide, hub_never_closes_twice hub_events (by decide)⟩

/-! ### Plates -/

theorem load_file_of_plate_of (env : Plate_Env) (ident next : String)
    (h : plate_of env ident = some next) :
    ∃ raw_text, env.load_file (sprint "config/plates/%s.x" ident) = some raw_text ∧
      (env.parse_markup raw_text).vars.lookup "plate" = some next := by
  unfold plate_of at h
  cases hl : env.load_file (sprint "config/plates/%s.x" ident) with
  | none => rw [hl] at h; cases h
  | some raw_text => rw [hl] at h; exact ⟨raw_text, rfl, h⟩

/-- On plates without a cycle `assign_plate` returns: when `rank` goes down from every
plate to the plate that its file names, a page that names the plate `ident` is done
within `rank ident + 2` nested calls, and a page without a plate within one. -/
theorem assign_plate_returns (env : Plate_Env) (rank : String → Nat)
    (hrank : ∀ ident next, plate_of env ident = some next → rank next < rank ident) :
    ∀ (fuel : Nat) (some_page : markup) (cache_plate : List (String × markup)),
      1 ≤ fuel → (∀ ident, some_page.vars.lookup "plate" = some ident → rank ident + 2 ≤ fuel) →
      ∃ r, assign_plate env fuel some_page cache_plate = some r := by
  intro fuel
  induction fuel with
  | zero => intro _ _ h; omega
  | succ n ih =>
    intro some_page cache_plate _ hfuel
    rw [assign_plate]
    cases hp : some_page.vars.lookup "plate" with
    | none => exact ⟨_, rfl⟩
    | some ident =>
      simp only
      cases hc : cache_plate.lookup ident with
      | some x => exact ⟨_, rfl⟩
      | none =>
        simp only
        cases hl : env.load_file (sprint "config/plates/%s.x" ident) with
        | none => exact ⟨_, rfl⟩
        | some raw_text =>
          simp only
          have hn := hfuel ident hp
          obtain ⟨r, hr⟩ := ih (env.parse_markup raw_text) cache_plate (by omega) (by
            intro next hnext
            have : plate_of env ident = some next := by
              unfold plate_of
              rw [hl]
              exact hnext
            have := hrank ident next this
            omega)
          rw [hr]
          exact ⟨_, rfl⟩

/-- C24 (failing input). When the plate that a page names belongs to a list of plates
each of which names a plate of the list (a plate that names itself, or a longer
cycle), no number of nested calls suffices: `assign_plate` never returns. -/
theorem assign_plate_cycle_never_returns (env : Plate_Env)
    (cache_plate : List (String × markup)) (cycle : List String)
    (h : plate_cycle env cache_plate cycle) (fuel : Nat) (some_page : markup)
    (ident : String) (hmem : ident ∈ cycle)
    (hpage : some_page.vars.lookup "plate" = some ident) :
    assign_plate env fuel some_page cache_plate = none := by
  induction fuel generalizing some_page ident with
  | zero => rfl
  | succ n ih =>
    obtain ⟨hc, next, hnext, hp⟩ := h ident hmem
    obtain ⟨raw_text, hl, hv⟩ := load_file_of_plate_of env ident next hp
    rw [assign_plate]
    simp only [hpage, hc, hl, ih (env.parse_markup raw_text) next hnext hv]

theorem assign_plate_cycle_never_returns_witness :
    plate_cycle self_plate_env [] ["foo"] ∧ "foo" ∈ ["foo"] ∧
    page_with_plate_foo.vars.lookup "plate" = some "foo" ∧
    assign_plate self_plate_env 1000 page_with_plate_foo [] = none :=
  ⟨by
      intro ident hi
      rw [List.mem_singleton.1 hi]
      exact ⟨rfl, "foo", List.mem_singleton.2 rfl, by decide⟩,
    List.mem_singleton.2 rfl, by decide,
    assign_plate_cycle_never_returns self_plate_env [] ["foo"]
      (by
        intro ident hi
        rw [List.mem_singleton.1 hi]
        exact ⟨rfl, "foo", List.mem_singleton.2 rfl, by decide⟩)
      1000 page_with_plate_foo "foo" (List.mem_singleton.2 rfl) (by decide)⟩

/-! ### Paragraph text -/

theorem peek_of_drop (p : Parser) (t : Lexer_Token) (ts : List Lexer_Token)
    (hi : 0 ≤ p.index) (hs : p.stream.drop p.index.toNat = t :: ts) :
    peek p = .ok (some t) p ∧ next p = .ok (some t) { p with index := p.index + 1 } ∧
      p.stream.drop (p.index + 1).toNat = ts := by
  have hlt : p.index.toNat < p.stream.length := by
    by_contra hge
    rw [List.drop_eq_nil_of_le (by omega)] at hs
    cases hs
  have hget : p.stream[p.index.toNat]? = some t := by
    have := List.getElem?_drop p.stream p.index.toNat 0
    rw [hs] at this
    simpa using this.symm
  have hgt : ¬ (p.index > (p.stream.length : Int) - 1) := by omega
  have hneg : ¬ (p.index < 0) := by omega
  have hat : stream_at p.index p = .ok t p := by
    unfold stream_at
    rw [if_neg hneg, hget]
  refine ⟨?_, ?_, ?_⟩
  · unfold peek
    rw [if_neg hgt]
    simp only [bind, hat, pure]
  · unfold next
    rw [if_neg hgt]
    simp only [bind, hat, pure, advance]
  · have e : (p.index + 1).toNat = p.index.toNat + 1 := by omega
    rw [e, ← List.drop_drop, hs]
    rfl

theorem parse_paragraph_loop_text (env : Parser_Env) (is_support : Bool)
    (exit_upon : List AST_Type) (stop : Lexer_Token) (tail : List Lexer_Token) :
    ∀ (pre : List Lexer_Token) (p : Parser) (array : List AST_Data) (buffer : String)
      (fuel : Nat),
      0 ≤ p.index → p.stream.drop p.index.toNat = pre ++ stop :: tail →
      (∀ t ∈ pre, t.ast_type.is [.NEWLINE, .EOF] = false ∧ t.ast_type.is exit_upon = false ∧
        t.ast_type ≠ .PERCENT) →
      (stop.ast_type.is [.NEWLINE, .EOF] = true ∨ stop.ast_type.is exit_upon = true) →
      pre.length < fuel →
      parse_paragraph_loop env fuel is_support exit_upon array buffer p =
        .ok (flush_buffer (buffer ++ paragraph_text pre) array)
          { p with index := p.index + (pre.length : Nat) +
              (if stop.ast_type.is [.NEWLINE, .EOF] = true then 1 else 0) } := by
  intro pre
  induction pre with
  | nil =>
    intro p array buffer fuel hi hs _ hstop hf
    obtain ⟨hpk, hnx, _⟩ := peek_of_drop p stop tail hi hs
    cases fuel with
    | zero => omega
    | succ n =>
      rw [parse_paragraph_loop]
      simp only [bind, hpk]
      by_cases h1 : stop.ast_type.is [.NEWLINE, .EOF] = true
      · simp only [h1, if_true, hnx, pure, paragraph_text, String.append_empty,
          List.length_nil, Nat.cast_zero, Int.add_zero]
      · have h2 := hstop.resolve_left h1
        simp only [h1, h2, if_true, if_false, pure, paragraph_text, String.append_empty,
          List.length_nil, Nat.cast_zero, Int.add_zero, Bool.false_eq_true]
  | cons t pre ih =>
    intro p array buffer fuel hi hs hpre hstop hf
    obtain ⟨hpk, hnx, hdrop⟩ := peek_of_drop p t (pre ++ stop :: tail) hi hs
    obtain ⟨ht1, ht2, ht3⟩ := hpre t (List.mem_cons_self _ _)
    cases fuel with
    | zero => omega
    | succ n =>
      have hrec := fun buffer => ih { p with index := p.index + 1 } array buffer n
        (by show 0 ≤ p.index + 1; omega) hdrop
        (fun x hx => hpre x (List.mem_cons_of_mem _ hx)) hstop
        (by simp only [List.length_cons] at hf; omega)
      have hidx : p.index + 1 + (pre.length : Nat) = p.index + ((t :: pre).length : Nat) := by
        simp only [List.length_cons, Nat.cast_add, Nat.cast_one]
        omega
      rw [parse_paragraph_loop]
      simp only [bind, hpk, ht1, ht2, hnx, if_false, Bool.false_eq_true]
      cases hk : t.ast_type
      case WHITESPACE =>
        simp only []
        rw [hrec, paragraph_text, if_pos hk, String.append_assoc]
        simp only [hidx]
      case PERCENT => exact absurd hk ht3
      all_goals
        have hne : ¬ t.ast_type = AST_Type.WHITESPACE := by rw [hk]; decide
        simp only []
        rw [hrec, paragraph_text, if_neg hne, String.append_assoc]
        simp only [hidx]

theorem paragraph_text_ne_empty (t : Lexer_Token) (ts : List Lexer_Token)
    (h : t.field ≠ "") : paragraph_text (t :: ts) ≠ "" := by
  intro e
  have e2 := congrArg String.data e
  rw [paragraph_text] at e2
  by_cases hw : t.ast_type = .WHITESPACE
  · rw [if_pos hw] at e2
    simp at e2
  · rw [if_neg hw] at e2
    simp only [String.data_append, List.append_eq_nil] at e2
    have : t.field.data = [] := e2.1
    exact h (String.ext this)

/-- C31. From a state without `unwind` whose remaining tokens are `pre`, then `stop`,
then `tail`, where no token of `pre` is a `NEWLINE`, an `EOF`, of a kind of
`exit_upon` or a `PERCENT`, and `stop` is a `NEWLINE`, an `EOF` or of a kind of
`exit_upon`: `parse_paragraph` consumes `pre`, and `stop` as well when it is a
`NEWLINE` or an `EOF`; the result is the empty list when `pre` is empty, and one
`NORMAL` node with the text of `pre`, a single space in the place of every
`WHITESPACE` token, when `pre` is not empty and its tokens have non-empty texts (or,
more generally, when the text is not empty). -/
theorem parse_paragraph_text (env : Parser_Env) (is_support : Bool)
    (exit_upon : List AST_Type) (p : Parser) (pre tail : List Lexer_Token)
    (stop : Lexer_Token) (fuel : Nat)
    (hu : p.unwind = false) (hi : 0 ≤ p.index)
    (hs : p.stream.drop p.index.toNat = pre ++ stop :: tail)
    (hpre : ∀ t ∈ pre, t.ast_type.is [.NEWLINE, .EOF] = false ∧
      t.ast_type.is exit_upon = false ∧ t.ast_type ≠ .PERCENT)
    (hstop : stop.ast_type.is [.NEWLINE, .EOF] = true ∨ stop.ast_type.is exit_upon = true)
    (hf : pre.length < fuel) :
    ∃ nodes, parse_paragraph env fuel is_support exit_upon p =
        .ok nodes { p with index := p.index + (pre.length : Nat) +
          (if stop.ast_type.is [.NEWLINE, .EOF] = true then 1 else 0) } ∧
      (pre = [] → nodes = []) ∧
      (pre ≠ [] → (∀ t ∈ pre, t.field ≠ "") →
        nodes = [AST_Data.Base .NORMAL position.zero (paragraph_text pre) []]) ∧
      (paragraph_text pre ≠ "" →
        nodes = [AST_Data.Base .NORMAL position.zero (paragraph_text pre) []]) := by
  have hlast : paragraph_text pre ≠ "" →
      flush_buffer (paragraph_text pre) [] =
        [AST_Data.Base .NORMAL position.zero (paragraph_text pre) []] := by
    intro h
    unfold flush_buffer
    rw [if_neg h]
    rfl
  refine ⟨flush_buffer (paragraph_text pre) [], ?_, ?_, ?_, hlast⟩
  · unfold parse_paragraph
    rw [if_neg (by rw [hu]; decide)]
    rw [parse_paragraph_loop_text env is_support exit_upon stop tail pre p [] "" fuel hi hs hpre
      hstop hf, String.empty_append]
  · intro h
    subst h
    rfl
  · intro hne hfield
    cases pre with
    | nil => exact absurd rfl hne
    | cons t ts =>
      exact hlast (paragraph_text_ne_empty t ts (hfield t (List.mem_cons_self _ _)))

theorem parse_paragraph_text_witness :
    two_lines = two_lines.take 3 ++ ⟨.NEWLINE, "\n", ⟨"page.x", 4, 5, 1⟩⟩ :: two_lines.drop 4 ∧
    paragraph_text (two_lines.take 3) = "a b" ∧
    ∃ nodes, parse_paragraph std_env 10 false [.NULL]
        (parser_at two_lines 0 false new_error_handler) =
        .ok nodes { parser_at two_lines 0 false new_error_handler with
          index := (parser_at two_lines 0 false new_error_handler).index +
            ((two_lines.take 3).length : Nat) +
            (if (AST_Type.NEWLINE).is [.NEWLINE, .EOF] = true then 1 else 0) } ∧
      (two_lines.take 3 = [] → nodes = []) ∧
      (two_lines.take 3 ≠ [] → (∀ t ∈ two_lines.take 3, t.field ≠ "") →
        nodes = [AST_Data.Base .NORMAL position.zero (paragraph_text (two_lines.take 3)) []]) ∧
      (paragraph_text (two_lines.take 3) ≠ "" →
        nodes = [AST_Data.Base .NORMAL position.zero (paragraph_text (two_lines.take 3)) []]) :=
  ⟨by decide, by decide,
    parse_paragraph_text std_env false [.NULL] (parser_at two_lines 0 false new_error_handler)
      (two_lines.take 3) (two_lines.drop 4) ⟨.NEWLINE, "\n", ⟨"page.x", 4, 5, 1⟩⟩ 10
      rfl (by decide) (by decide) (by decide) (by decide) (by decide)⟩

/-! ### Reserved hashes and text routines: evaluations -/

/-- C32 (failing input). With `new_hash` the 32-bit FNV-1a hash, six of the reserved
constants are the hashes of the identifiers in their comments; the four `spindle.*`
constants are not: each of them is the hash of its identifier with the dot left out. -/
theorem reserved_hashes :
    (fnv1a "default" = default_hash ∧ fnv1a "%" = base_hash ∧ fnv1a "it" = it_hash ∧
      fnv1a "." = stop_hash ∧ fnv1a "index" = index_hash ∧ fnv1a "import" = import_hash) ∧
    (fnv1a "spindle.url" = 3821567911 ∧ fnv1a "spindle.url" ≠ url_hash ∧
      fnv1a "spindleurl" = url_hash) ∧
    (fnv1a "spindle.url_canonical" = 2563288426 ∧
      fnv1a "spindle.url_canonical" ≠ canonical_hash ∧
      fnv1a "spindleurl_canonical" = canonical_hash) ∧
    (fnv1a "spindle.is_server" = 3202569332 ∧ fnv1a "spindle.is_server" ≠ is_server_hash ∧
      fnv1a "spindleis_server" = is_server_hash) ∧
    (fnv1a "spindle.reload_script" = 3668506343 ∧
      fnv1a "spindle.reload_script" ≠ reload_script_hash ∧
      fnv1a "spindlereload_script" = reload_script_hash) := by
  decide!

theorem unix_args_loop_open_quote (input : List Char) (args : List String)
    (hne : input ≠ []) (hq : index_rune '\x60' input = none) :
    ∀ fuel : Nat, unix_args_loop fuel input true args = .out_of_fuel := by
  intro fuel
  induction fuel with
  | zero => rfl
  | succ n ih =>
    have hl : ¬ input.length = 0 := fun h => hne (List.length_eq_zero.1 h)
    rw [unix_args_loop]
    simp only [hl, if_false, if_true, hq, ih]

/-- C34 (failing input). When the trimmed input starts with a backtick that is
followed by a text without a second backtick, the loop of `unix_args` never ends: no
bound on the number of its turns suffices. -/
theorem unix_args_open_quote_never_returns (input : String) (text : List Char)
    (h1 : (trim_space input).data = '\x60' :: text) (h2 : text ≠ [])
    (h3 : index_rune '\x60' text = none) (fuel : Nat) :
    unix_args fuel input = .out_of_fuel := by
  unfold unix_args
  rw [h1]
  cases fuel with
  | zero => rfl
  | succ n =>
    rw [unix_args_loop]
    have hc : consume_whitespace ('\x60' :: text) = '\x60' :: text := by
      rw [consume_whitespace]
      have e1 : ¬ ('\x60'.toNat ≥ utf8_RuneSelf) := by decide
      have e2 : ascii_space '\x60'.toNat = some 0 := by decide
      simp only [e1, e2, if_false, if_true]
    simp only [List.length_cons, Nat.add_one_ne_zero, if_false, Bool.false_eq_true, hc, if_true]
    exact unix_args_loop_open_quote text [] h2 h3 n

theorem unix_args_open_quote_never_returns_witness :
    (trim_space "\x60abc").data = '\x60' :: "abc".data ∧ "abc".data ≠ [] ∧
    index_rune '\x60' "abc".data = none ∧
    unix_args 1000 "\x60abc" = .out_of_fuel :=
  ⟨by decide, by decide, by decide,
    unix_args_open_quote_never_returns "\x60abc" "abc".data (by decide) (by decide)
      (by decide) 1000⟩

theorem is_all_numbers_chars_digits (env : Text_Env) (ds tail : List Char)
    (hds : ∀ d ∈ ds, 48 ≤ d.toNat ∧ d.toNat ≤ 57) :
    is_all_numbers_chars env (ds ++ tail) = is_all_numbers_chars env tail := by
  induction ds with
  | nil => rfl
  | cons d ds ih =>
    obtain ⟨h1, h2⟩ := hds d (List.mem_cons_self _ _)
    rw [List.cons_append, is_all_numbers_chars]
    have e1 : ¬ (d.toNat ≥ utf8_RuneSelf) := by unfold utf8_RuneSelf; omega
    have e2 : ascii_number d.toNat = some 1 := by
      unfold ascii_number
      rw [if_pos (by omega), if_pos ⟨h1, h2⟩]
    simp only [e1, false_and, if_false, e2, Nat.one_ne_zero]
    exact ih (fun x hx => hds x (List.mem_cons_of_mem _ hx))

/-- C35 (failing input). A text of ASCII digits followed by a character above 255 that
`unicode.IsNumber` accepts: `is_all_numbers` indexes its 256-entry table with that
character and panics. -/
theorem is_all_numbers_panics (env : Text_Env) (ds tail : List Char) (c : Char)
    (hds : ∀ d ∈ ds, 48 ≤ d.toNat ∧ d.toNat ≤ 57) (hc : 256 ≤ c.toNat)
    (hn : env.is_number c = true) :
    is_all_numbers env ⟨ds ++ c :: tail⟩ = none := by
  unfold is_all_numbers
  rw [is_all_numbers_chars_digits env ds (c :: tail) hds, is_all_numbers_chars]
  have e2 : ascii_number c.toNat = none := by
    unfold ascii_number
    rw [if_neg (by omega)]
  simp only [hn, Bool.true_eq_false, and_false, if_false, e2]

theorem is_all_numbers_panics_witness :
    (∀ d ∈ "12".data, 48 ≤ d.toNat ∧ d.toNat ≤ 57) ∧ 256 ≤ (Char.ofNat 1635).toNat ∧
    arabic_digits_env.is_number (Char.ofNat 1635) = true ∧
    is_all_numbers arabic_digits_env ⟨"12".data ++ Char.ofNat 1635 :: []⟩ = none :=
  ⟨by decide, by decide, by decide,
    is_all_numbers_panics arabic_digits_env "12".data [] (Char.ofNat 1635) (by decide)
      (by decide) (by decide)⟩

/-- C36 (failing input). `simple_key_mapper` panics on a source that ends with `$`
(the index `source[i + 1]`) and on a source with `$\x7b` and no closing brace (the
slice `source[i + len(var_text) + 3:]`); a source without `$` comes back unchanged and
`$\x7bname\x7d` is replaced by the value of `name`, or by nothing. -/
theorem simple_key_mapper_panics :
    simple_key_mapper ascii_text_env 50 "a$" [("x", "1")] = .panic ∧
    simple_key_mapper ascii_text_env 50 "$\x7bx" [("x", "1")] = .panic ∧
    simple_key_mapper ascii_text_env 50 "a $\x7bx\x7d b $\x7by\x7d $z" [("x", "1")] =
      .done "a 1 b  $z" ∧
    (∀ (env : Text_Env) (fuel : Nat) (vars : List (String × String)) (source : String),
      index_rune '$' source.data = none → simple_key_mapper env fuel source vars = .done source) := by
  refine ⟨by decide!, by decide!, by decide!, ?_⟩
  intro env fuel vars source h
  simp only [simple_key_mapper, h, if_true]

/-- C37 (failing input). For a word that ends in a hyphen `make_title` writes one
character more than the word has: after the hyphen it decodes the empty rest of the
word and writes the result, `utf8.RuneError`. Other words change case only. -/
theorem make_title_adds_rune_error :
    make_title ascii_title_env "well-" = ⟨"Well-".data ++ [utf8_RuneError]⟩ ∧
    (make_title ascii_title_env "well-").length = "well-".length + 1 ∧
    make_title ascii_title_env "war and peace" = "War and Peace" ∧
    make_title ascii_title_env "well-being" = "Well-Being" := by
  decide!

theorem is_ext_url_chars_cons (r : Char) (input : List Char) (hr : r ≠ ':') :
    is_ext_url_chars (r :: input) = is_ext_url_chars input := by
  cases input <;> simp [is_ext_url_chars, hr]

theorem is_ext_url_chars_colon (a : Char) (rest : List Char) :
    is_ext_url_chars (':' :: a :: rest) =
      if a = rest.headD utf8_RuneError ∧ a = '/' then true else is_ext_url_chars rest := by
  simp [is_ext_url_chars]

theorem is_ext_url_chars_sound_aux (n : Nat) :
    ∀ cs : List Char, cs.length ≤ n → is_ext_url_chars cs = true →
      List.IsInfix [':', '/', '/'] cs := by
  induction n with
  | zero =>
    intro cs hl h
    have : cs = [] := List.length_eq_zero.1 (by omega)
    subst this
    simp [is_ext_url_chars] at h
  | succ n ih =>
    intro cs hl h
    cases cs with
    | nil => simp [is_ext_url_chars] at h
    | cons r input =>
      by_cases hr : r = ':'
      · subst hr
        cases input with
        | nil => simp [is_ext_url_chars] at h
        | cons a rest =>
          rw [is_ext_url_chars_colon] at h
          by_cases hab : a = rest.headD utf8_RuneError ∧ a = '/'
          · obtain ⟨h1, h2⟩ := hab
            subst h2
            cases rest with
            | nil => revert h1; decide
            | cons x xs =>
              have hx : x = '/' := h1.symm
              subst hx
              exact ⟨[], xs, rfl⟩
          · rw [if_neg hab] at h
            obtain ⟨s, t, e⟩ := ih rest (by simp only [List.length_cons] at hl; omega) h
            exact ⟨':' :: a :: s, t, by simp [← e]⟩
      · rw [is_ext_url_chars_cons r input hr] at h
        obtain ⟨s, t, e⟩ := ih input (by simp only [List.length_cons] at hl; omega) h
        exact ⟨r :: s, t, by simp [← e]⟩

theorem is_ext_url_chars_sound (cs : List Char) :
    is_ext_url_chars cs = true → List.IsInfix [':', '/', '/'] cs :=
  is_ext_url_chars_sound_aux cs.length cs (Nat.le_refl _)

/-- C38 (failing input). The text `a:://b` contains `://`, and `is_ext_url` returns
false on it: after a colon the next character is consumed, here the second colon.
On `a://b` and on `a::://b` the result is true; whenever the result is true the text
contains `://`. -/
theorem is_ext_url_misses_double_colon :
    has_scheme_separator "a:://b" ∧ is_ext_url "a:://b" = false ∧
    is_ext_url "a://b" = true ∧ is_ext_url "a::://b" = true ∧
    (∀ s : String, is_ext_url s = true → has_scheme_separator s) :=
  ⟨⟨['a', ':'], ['b'], rfl⟩, by decide!, by decide!, by decide!,
    fun s h => is_ext_url_chars_sound s.data h⟩

/-- C39 (failing input). In `comment_with_brace` the comment `/ a \x7d b` holds a
closing brace and no opening brace: `eat_comment` leaves the index on the `EOF` token
(index 10), not on the `NEWLINE` that ends the comment line (index 7), and the
paragraph `c` of the next line is lost. Without the brace the index is left on the
`NEWLINE` (index 5) and the paragraph is parsed. -/
theorem eat_comment_runs_past_newline :
    eat_comment (parser_at comment_with_brace 1 false new_error_handler) =
      .ok () (parser_at comment_with_brace 10 false new_error_handler) ∧
    parse_stream std_env 20 comment_with_brace false new_error_handler =
      .ok [] (parser_at comment_with_brace 11 false new_error_handler) ∧
    eat_comment (parser_at comment_plain 1 false new_error_handler) =
      .ok () (parser_at comment_plain 5 false new_error_handler) ∧
    parse_stream std_env 20 comment_plain false new_error_handler =
      .ok [AST_Data.Base .NORMAL ⟨"page.x", 6, 7, 1⟩ ""
          [AST_Data.Base .NORMAL position.zero "c" []]]
        (parser_at comment_plain 9 false new_error_handler) := by
  decide!

/-! ### `extract_code_block` -/

theorem depth_after_succ (cs : List Char) (n : Nat) :
    depth_after cs (n + 1) = depth_after cs n + depth_step cs n := by
  simp only [depth_after, List.range_succ, List.map_append, List.sum_append, List.map_cons,
    List.map_nil, List.sum_cons, List.sum_nil]
  omega

theorem depth_step_beyond (cs : List Char) (k : Nat) (h : cs.length ≤ k) :
    depth_step cs k = 0 := by
  have hk : cs[k]? = none := List.getElem?_eq_none h
  unfold depth_step
  split
  · rfl
  · simp [hk]

theorem depth_after_beyond (cs : List Char) (m : Nat) :
    depth_after cs (cs.length + m) = depth_after cs cs.length := by
  induction m with
  | zero => rfl
  | succ m ih =>
    rw [← Nat.add_assoc, depth_after_succ, ih, depth_step_beyond cs _ (by omega)]
    omega

theorem extract_code_block_loop_spec (input : List Char) :
    ∀ (suf pre : List Char) (depth : Int) (lastr : Char),
      input = pre ++ suf → depth = depth_after input pre.length → 1 ≤ depth →
      (lastr = '\\' ↔ follows_backslash input pre.length = true) →
      (∀ m < pre.length, depth_after input (m + 1) ≠ 0) →
      match extract_code_block_loop suf pre.length depth lastr with
      | some n => depth_after input (n + 1) = 0 ∧ (∀ m < n, depth_after input (m + 1) ≠ 0) ∧
          input[n]? = some '\x7d' ∧ follows_backslash input n = false
      | none => ∀ m, depth_after input (m + 1) ≠ 0 := by
  intro suf
  induction suf with
  | nil =>
    intro pre depth lastr hin hd hpos _ hfirst
    simp only [extract_code_block_loop]
    intro m
    have hlen : input.length = pre.length := by rw [hin]; simp
    by_cases hm : m < pre.length
    · exact hfirst m hm
    · have e : m + 1 = input.length + (m + 1 - input.length) := by omega
      rw [e, depth_after_beyond, hlen, ← hd]
      omega
  | cons c cs ih =>
    intro pre depth lastr hin hd hpos hlast hfirst
    have hc : input[pre.length]? = some c := by
      rw [hin, List.getElem?_append_right (Nat.le_refl _)]
      simp
    have hin2 : input = (pre ++ [c]) ++ cs := by rw [hin]; simp
    have hlen2 : (pre ++ [c]).length = pre.length + 1 := by simp
    have hnext : (c = '\\' ↔ follows_backslash input (pre ++ [c]).length = true) := by
      rw [hlen2]
      unfold follows_backslash
      simp [hc]
    rw [extract_code_block_loop]
    by_cases hl : lastr = '\\'
    · have hf : follows_backslash input pre.length = true := hlast.1 hl
      have hstep : depth_step input pre.length = 0 := by
        unfold depth_step
        rw [if_pos hf]
      have hd2 : depth = depth_after input (pre ++ [c]).length := by
        rw [hlen2, depth_after_succ, hstep, ← hd]
        omega
      simp only [hl, if_true]
      have := ih (pre ++ [c]) depth c hin2 hd2 hpos hnext (by
        intro m hm
        rw [hlen2] at hm
        by_cases hm2 : m < pre.length
        · exact hfirst m hm2
        · have : m = pre.length := by omega
          rw [this, ← hlen2, ← hd2]
          omega)
      rw [hlen2] at this
      exact this
    · have hf : follows_backslash input pre.length = false := by
        cases hb : follows_backslash input pre.length with
        | false => rfl
        | true => exact absurd (hlast.2 hb) hl
      have hstep : depth_step input pre.length =
          (if c = '\x7b' then 1 else if c = '\x7d' then -1 else 0) := by
        unfold depth_step
        simp [hf, hc]
      simp only [hl, if_false]
      by_cases h1 : c = '\x7b'
      · have hd2 : depth + 1 = depth_after input (pre ++ [c]).length := by
          rw [hlen2, depth_after_succ, hstep, if_pos h1, ← hd]
        have hne : ¬ (depth + 1 = 0) := by omega
        simp only [h1, if_true, hne, if_false]
        have := ih (pre ++ [c]) (depth + 1) c hin2 hd2 (by omega) hnext (by
          intro m hm
          rw [hlen2] at hm
          by_cases hm2 : m < pre.length
          · exact hfirst m hm2
          · have : m = pre.length := by omega
            rw [this, ← hlen2, ← hd2]
            omega)
        rw [hlen2, h1] at this
        exact this
      · by_cases h2 : c = '\x7d'
        · have hd2 : depth - 1 = depth_after input (pre ++ [c]).length := by
            rw [hlen2, depth_after_succ, hstep, if_neg h1, if_pos h2, ← hd]
            omega
          have e1 : ¬ ('\x7d' = '\x7b') := by decide
          by_cases hz : depth - 1 = 0
          · simp only [h2, e1, if_false, if_true, hz]
            refine ⟨?_, hfirst, ?_, hf⟩
            · rw [← hlen2, ← hd2, hz]
            · rw [hc, h2]
          · simp only [h2, e1, if_false, if_true, hz]
            have := ih (pre ++ [c]) (depth - 1) c hin2 hd2 (by omega) hnext (by
              intro m hm
              rw [hlen2] at hm
              by_cases hm2 : m < pre.length
              · exact hfirst m hm2
              · have : m = pre.length := by omega
                rw [this, ← hlen2, ← hd2]
                exact hz)
            rw [hlen2, h2] at this
            exact this
        · have hd2 : depth = depth_after input (pre ++ [c]).length := by
            rw [hlen2, depth_after_succ, hstep, if_neg h1, if_neg h2, ← hd]
            omega
          have hne : ¬ (depth = 0) := by omega
          simp only [h1, h2, if_false, hne]
          have := ih (pre ++ [c]) depth c hin2 hd2 hpos hnext (by
            intro m hm
            rw [hlen2] at hm
            by_cases hm2 : m < pre.length
            · exact hfirst m hm2
            · have : m = pre.length := by omega
              rw [this, ← hlen2, ← hd2]
              exact hne)
          rw [hlen2] at this
          exact this

/-- C33. The result of `extract_code_block` is a prefix of the input. With the depth
starting at 1, a character that directly follows a backslash skipped, and otherwise an
opening brace adding 1 and a closing brace subtracting 1: when `n` is the first index
after which the depth is 0, the result is the text before index `n`, and the character
at `n` is a closing brace that does not follow a backslash; when the depth never
reaches 0, the result is the whole input. -/
theorem extract_code_block_spec (input : List Char) :
    (∃ tail, input = extract_code_block input ++ tail) ∧
    (∀ n, depth_after input (n + 1) = 0 → (∀ m < n, depth_after input (m + 1) ≠ 0) →
      extract_code_block input = input.take n ∧ input[n]? = some '\x7d' ∧
        follows_backslash input n = false) ∧
    ((∀ n, depth_after input (n + 1) ≠ 0) → extract_code_block input = input) := by
  have hspec := extract_code_block_loop_spec input input [] 1 'a' rfl
    (by simp [depth_after]) (by omega) (by simp [follows_backslash]) (by simp)
  simp only [List.length_nil] at hspec
  refine ⟨?_, ?_, ?_⟩
  · unfold extract_code_block
    cases extract_code_block_loop input 0 1 'a' with
    | none => exact ⟨[], by simp⟩
    | some i => exact ⟨input.drop i, (List.take_append_drop i input).symm⟩
  · intro n hn hfirst
    unfold extract_code_block
    cases hl : extract_code_block_loop input 0 1 'a' with
    | none =>
      rw [hl] at hspec
      exact absurd hn (hspec n)
    | some i =>
      rw [hl] at hspec
      obtain ⟨h1, h2, h3, h4⟩ := hspec
      have hin : i = n := by
        rcases Nat.lt_trichotomy i n with h | h | h
        · exact absurd h1 (hfirst i h)
        · exact h
        · exact absurd hn (h2 n h)
      subst hin
      exact ⟨rfl, h3, h4⟩
  · intro hnever
    unfold extract_code_block
    cases hl : extract_code_block_loop input 0 1 'a' with
    | none => rfl
    | some i =>
      rw [hl] at hspec
      exact absurd hspec.1 (hnever i)

/-! ### The sitemap, page by page -/

theorem sitemap_item_page (env : Sitemap_Env) (f : file) (h : has_sitemap_entry f = true) :
    sitemap_item env f = (page_url env f).map (fun url => [url_entry env url]) := by
  unfold has_sitemap_entry at h
  unfold sitemap_item page_url url_entry
  cases hft : f.file_type <;> rw [hft] at h <;> simp only at h ⊢
  case MARKUP | STATIC_HTML =>
    cases slice_from f.source 6 with
    | none => rfl
    | some rel =>
      simp only
      cases join_url env env.domain (make_url_from_path env rel) <;> rfl
  all_goals exact absurd h (by decide)

theorem sitemap_item_other (env : Sitemap_Env) (f : file) (h : has_sitemap_entry f = false) :
    sitemap_item env f = some [] := by
  unfold has_sitemap_entry at h
  unfold sitemap_item
  cases hft : f.file_type <;> rw [hft] at h <;> first | rfl | (exact absurd h (by decide))

/-- When every page file has a URL, the loop of `sitemap` appends one entry for each
page file, in order, and nothing for the other files. -/
theorem sitemap_appended_pages (env : Sitemap_Env) :
    ∀ files : List file, pages_have_urls env files →
      ∃ urls, urls_of_pages env files urls ∧
        sitemap_appended env files = some (urls.map (url_entry env)) := by
  intro files
  induction files with
  | nil => intro _; exact ⟨[], List.Forall₂.nil, rfl⟩
  | cons f fs ih =>
    intro h
    obtain ⟨urls, hu, hs⟩ := ih (fun g hg => h g (List.mem_cons_of_mem _ hg))
    unfold urls_of_pages page_files at hu ⊢
    rw [sitemap_appended, hs]
    by_cases hp : has_sitemap_entry f = true
    · have hsome := h f (List.mem_cons_self _ _) hp
      cases hurl : page_url env f with
      | none => rw [hurl] at hsome; cases hsome
      | some url =>
        refine ⟨url :: urls, ?_, ?_⟩
        · rw [List.filter_cons_of_pos hp]
          exact List.Forall₂.cons hurl hu
        · rw [sitemap_item_page env f hp, hurl]
          rfl
    · have hp' : has_sitemap_entry f = false := by
        cases hb : has_sitemap_entry f with
        | false => rfl
        | true => exact absurd hb hp
      refine ⟨urls, ?_, ?_⟩
      · rw [List.filter_cons_of_neg hp]
        exact hu
      · rw [sitemap_item_other env f hp']
        rfl

/-- When a page file has no URL, the loop of `sitemap` fails. -/
theorem sitemap_appended_fails (env : Sitemap_Env) :
    ∀ files : List file, ¬ pages_have_urls env files → sitemap_appended env files = none := by
  intro files
  induction files with
  | nil => intro h; exact absurd (fun f hf => (by cases hf)) h
  | cons f fs ih =>
    intro h
    rw [sitemap_appended]
    by_cases hp : has_sitemap_entry f = true
    · cases hurl : page_url env f with
      | none =>
        rw [sitemap_item_page env f hp, hurl]
        rfl
      | some url =>
        rw [sitemap_item_page env f hp, hurl]
        have hfs : ¬ pages_have_urls env fs := by
          intro hall
          apply h
          intro g hg hgp
          rcases List.mem_cons.1 hg with e | e
          · rw [e, hurl]; rfl
          · exact hall g e hgp
        simp only [Option.map_some']
        rw [ih hfs]
    · have hp' : has_sitemap_entry f = false := by
        cases hb : has_sitemap_entry f with
        | false => rfl
        | true => exact absurd hb hp
      rw [sitemap_item_other env f hp']
      have hfs : ¬ pages_have_urls env fs := by
        intro hall
        apply h
        intro g hg hgp
        rcases List.mem_cons.1 hg with e | e
        · rw [e] at hgp; exact absurd hgp hp
        · exact hall g e hgp
      simp only
      rw [ih hfs]

theorem sitemap_text (env : Sitemap_Env) (files : List file) (xs : List String)
    (h : sitemap_appended env files = some xs) :
    sitemap env files =
      some (env.sitemap_template ++ String.join (sort_stable xs) ++ "</urlset>") := by
  unfold sitemap
  rw [h]
  simp only
  rw [sort_stable_replicate_empty_append, join_replicate_empty_append]

theorem sort_stable_pair (a b : String) (h : a ≤ b) : sort_stable [b, a] = [a, b] :=
  List.eq_of_perm_of_sorted
    ((sort_stable_perm _).trans (List.Perm.swap a b []))
    (sort_stable_sorted _) (List.sorted_cons.2 ⟨by
      intro c hc
      rw [List.mem_singleton.1 hc]
      exact h, List.sorted_singleton _⟩)

theorem demo_entries_ordered : demo_entry_a ≤ demo_entry_b := by
  rw [String.le_iff_toList_le]
  decide

theorem sitemap_demo_eval :
    sitemap demo_sitemap_env demo_files =
      some ("<urlset>" ++ demo_entry_a ++ demo_entry_b ++ "</urlset>") := by
  have h1 : sitemap_appended demo_sitemap_env demo_files = some [demo_entry_b, demo_entry_a] := by
    decide!
  rw [sitemap_text demo_sitemap_env demo_files _ h1,
    sort_stable_pair demo_entry_a demo_entry_b demo_entries_ordered]
  decide!

theorem sitemap_written (env : Sitemap_Env) (files : List file)
    (h : pages_have_urls env files) :
    ∃ urls, urls_of_pages env files urls ∧
      sitemap env files = some (env.sitemap_template ++
        String.join (sort_stable (urls.map (url_entry env))) ++ "</urlset>") := by
  obtain ⟨urls, hu, hs⟩ := sitemap_appended_pages env files h
  exact ⟨urls, hu, sitemap_text env files _ hs⟩

theorem sitemap_not_written (env : Sitemap_Env) (files : List file)
    (h : ¬ pages_have_urls env files) : sitemap env files = none := by
  unfold sitemap
  rw [sitemap_appended_fails env files h]

/-- C3. The sitemap text does not depend on the order of the file list: a permutation
of the files gives the same result. When every page file (kind `MARKUP` or
`STATIC_HTML`) has a URL, the text is written and it is the template, then the entries
of the page files, one entry `sitemap_entry` with the URL of the file for each of
them, in non-decreasing order, then `</urlset>`; the pre-allocated empty strings add
nothing. When a page file has no URL the function fails for every order. -/
theorem sitemap_order_independent (env : Sitemap_Env) (files files' : List file)
    (h : files.Perm files') :
    sitemap env files = sitemap env files' ∧
    (pages_have_urls env files →
      ∃ urls es, urls_of_pages env files urls ∧
        es.Sorted (fun a b => a ≤ b) ∧ es.Perm (urls.map (url_entry env)) ∧
        sitemap env files =
          some (env.sitemap_template ++ String.join es ++ "</urlset>") ∧
        sitemap env files' =
          some (env.sitemap_template ++ String.join es ++ "</urlset>")) ∧
    (¬ pages_have_urls env files → sitemap env files = none ∧ sitemap env files' = none) := by
  have hsame : sitemap env files = sitemap env files' := by
    obtain ⟨hn, hp⟩ := sitemap_appended_perm env h
    unfold sitemap
    cases h1 : sitemap_appended env files with
    | none => rw [hn.1 h1]
    | some xs =>
      cases h2 : sitemap_appended env files' with
      | none => rw [hn.2 h2] at h1; cases h1
      | some ys =>
        simp only [Option.some.injEq]
        rw [h.length_eq]
        rw [sort_stable_eq_of_perm ((List.perm_append_left_iff _).2 (hp xs ys h1 h2))]
  refine ⟨hsame, ?_, ?_⟩
  · intro hall
    obtain ⟨urls, hu, hs⟩ := sitemap_written env files hall
    exact ⟨urls, sort_stable (urls.map (url_entry env)), hu, sort_stable_sorted _,
      sort_stable_perm _, hs, hsame ▸ hs⟩
  · intro hnot
    have := sitemap_not_written env files hnot
    exact ⟨this, hsame ▸ this⟩

theorem pages_have_urls_demo : pages_have_urls demo_sitemap_env demo_files := by
  intro f hf _
  simp only [demo_files, List.mem_cons, List.mem_singleton, List.not_mem_nil, or_false] at hf
  rcases hf with e | e <;> rw [e] <;> decide!

theorem sitemap_order_independent_witness :
    demo_files.Perm demo_files.reverse ∧
    pages_have_urls demo_sitemap_env demo_files ∧
    sitemap demo_sitemap_env demo_files =
      some ("<urlset>" ++ demo_entry_a ++ demo_entry_b ++ "</urlset>") ∧
    sitemap demo_sitemap_env demo_files = sitemap demo_sitemap_env demo_files.reverse ∧
    ∃ urls es, urls_of_pages demo_sitemap_env demo_files urls ∧
      es.Sorted (fun a b => a ≤ b) ∧ es.Perm (urls.map (url_entry demo_sitemap_env)) ∧
      sitemap demo_sitemap_env demo_files =
        some (demo_sitemap_env.sitemap_template ++ String.join es ++ "</urlset>") ∧
      sitemap demo_sitemap_env demo_files.reverse =
        some (demo_sitemap_env.sitemap_template ++ String.join es ++ "</urlset>") :=
  ⟨(List.reverse_perm _).symm, pages_have_urls_demo, sitemap_demo_eval,
    (sitemap_order_independent demo_sitemap_env demo_files demo_files.reverse
      (List.reverse_perm _).symm).1,
    (sitemap_order_independent demo_sitemap_env demo_files demo_files.reverse
      (List.reverse_perm _).symm).2.1 pages_have_urls_demo⟩

theorem mem_page_files (files : List file) (f : file) :
    f ∈ page_files files ↔
      f ∈ files ∧ (f.file_type = .MARKUP ∨ f.file_type = .STATIC_HTML) := by
  unfold page_files has_sitemap_entry
  rw [List.mem_filter]
  simp

/-- C20 (as amended). Whenever `sitemap` writes a text, every page file (kind `MARKUP`
or `STATIC_HTML`) has a URL, and the text is the template, then the entries of the page
files in non-decreasing order, one entry `sitemap_entry` with the URL of the file for
each page file, then `</urlset>`: the number of entries is the number of page files,
and a file of any other kind contributes no entry. -/
theorem sitemap_entries (env : Sitemap_Env) (files : List file) (out : String)
    (h : sitemap env files = some out) :
    ∃ urls es, urls_of_pages env files urls ∧ es.Perm (urls.map (url_entry env)) ∧
      es.Sorted (fun a b => a ≤ b) ∧ es.length = (page_files files).length ∧
      (∀ f, f ∈ page_files files ↔
        f ∈ files ∧ (f.file_type = .MARKUP ∨ f.file_type = .STATIC_HTML)) ∧
      out = env.sitemap_template ++ String.join es ++ "</urlset>" := by
  have hall : pages_have_urls env files := by
    by_contra hnot
    rw [sitemap_not_written env files hnot] at h
    cases h
  obtain ⟨urls, hu, hs⟩ := sitemap_written env files hall
  rw [hs] at h
  refine ⟨urls, sort_stable (urls.map (url_entry env)), hu, sort_stable_perm _,
    sort_stable_sorted _, ?_, mem_page_files files, (Option.some.inj h).symm⟩
  rw [(sort_stable_perm _).length_eq, List.length_map]
  exact (List.Forall₂.length_eq hu).symm

theorem sitemap_entries_witness :
    sitemap demo_sitemap_env static_html_only =
      some "<urlset><url><loc>https://example.com//a</loc></url></urlset>" ∧
    ∃ urls es, urls_of_pages demo_sitemap_env static_html_only urls ∧
      es.Perm (urls.map (url_entry demo_sitemap_env)) ∧
      es.Sorted (fun a b => a ≤ b) ∧ es.length = (page_files static_html_only).length ∧
      (∀ f, f ∈ page_files static_html_only ↔
        f ∈ static_html_only ∧ (f.file_type = .MARKUP ∨ f.file_type = .STATIC_HTML)) ∧
      "<urlset><url><loc>https://example.com//a</loc></url></urlset>" =
        demo_sitemap_env.sitemap_template ++ String.join es ++ "</urlset>" :=
  ⟨sitemap_static_html_eval,
    sitemap_entries demo_sitemap_env static_html_only _ sitemap_static_html_eval⟩

/-! ### The finder and its visit order -/

theorem visit_order_mk (a : Nat) (ft : file_type) (h : Nat) (d : Bool) (p : String)
    (children : List disk_object) :
    (disk_object.mk a ft h d p children).visit_order =
      children ++ disk_object.visit_order_directories children := by
  rw [disk_object.visit_order]

theorem mem_takeWhile_append_left {α : Type} (p : α → Bool) (l₁ l₂ : List α) (m : α)
    (h : m ∈ l₁.takeWhile p) : m ∈ (l₁ ++ l₂).takeWhile p := by
  induction l₁ with
  | nil => simp at h
  | cons a l ih =>
    rw [List.cons_append]
    rw [List.takeWhile_cons] at h ⊢
    by_cases ha : p a = true
    · rw [if_pos ha] at h ⊢
      rcases List.mem_cons.1 h with e | e
      · exact e ▸ List.mem_cons_self _ _
      · exact List.mem_cons_of_mem _ (ih e)
    · rw [if_neg ha] at h
      cases h

theorem takeWhile_append_all {α : Type} (p : α → Bool) (l₁ l₂ : List α)
    (h : ∀ a ∈ l₁, p a = true) : (l₁ ++ l₂).takeWhile p = l₁ ++ l₂.takeWhile p := by
  induction l₁ with
  | nil => rfl
  | cons a l ih =>
    rw [List.cons_append, List.takeWhile_cons, if_pos (h a (List.mem_cons_self _ _)),
      ih (fun x hx => h x (List.mem_cons_of_mem _ hx)), List.cons_append]

theorem find_first {α : Type} [DecidableEq α] (q : α → Bool) (n : α) :
    ∀ l : List α, n ∈ l → q n = true →
      (∀ m ∈ l.takeWhile (fun m => decide (m ≠ n)), q m = false) → l.find? q = some n := by
  intro l
  induction l with
  | nil => intro h; cases h
  | cons a l ih =>
    intro hn hq hbefore
    by_cases ha : a = n
    · subst ha
      rw [List.find?_cons, hq]
    · have hqa : q a = false := hbefore a (by
        rw [List.takeWhile_cons, if_pos (by simpa using ha)]
        exact List.mem_cons_self _ _)
      rw [List.find?_cons, hqa]
      refine ih ?_ hq ?_
      · rcases List.mem_cons.1 hn with e | e
        · exact absurd e.symm ha
        · exact e
      · intro m hm
        exact hbefore m (by
          rw [List.takeWhile_cons, if_pos (by simpa using ha)]
          exact List.mem_cons_of_mem _ hm)

mutual
theorem find_file_none (lev : String → String → Nat) (target : String) :
    ∀ t : disk_object, (∀ m ∈ t.visit_order, is_candidate lev target m = false) →
      find_file lev t target = none
  | .mk a ft h d p children, hall => by
    rw [visit_order_mk] at hall
    rw [find_file]
    have hf : children.find? (is_candidate lev target) = none := by
      rw [List.find?_eq_none]
      intro x hx
      rw [hall x (List.mem_append_left _ hx)]
      decide
    rw [hf]
    exact find_file_in_directories_none lev target children
      (fun m hm => hall m (List.mem_append_right _ hm))
theorem find_file_in_directories_none (lev : String → String → Nat) (target : String) :
    ∀ l : List disk_object,
      (∀ m ∈ disk_object.visit_order_directories l, is_candidate lev target m = false) →
      find_file_in_directories lev l target = none
  | [], _ => by rw [find_file_in_directories]
  | entry :: rest, hall => by
    rw [disk_object.visit_order_directories] at hall
    rw [find_file_in_directories]
    have hrest := find_file_in_directories_none lev target rest
      (fun m hm => hall m (List.mem_append_right _ hm))
    by_cases hdir : entry.file_type = .DIRECTORY
    · rw [if_pos hdir] at hall ⊢
      rw [find_file_none lev target entry (fun m hm => hall m (List.mem_append_left _ hm))]
      exact hrest
    · rw [if_neg hdir]
      exact hrest
end

mutual
theorem find_file_first (lev : String → String → Nat) (target : String) (n : disk_object)
    (hfile : n.file_type ≠ .DIRECTORY) (hcand : is_candidate lev target n = true) :
    ∀ t : disk_object, n ∈ t.visit_order →
      (∀ m ∈ t.visit_order.takeWhile (fun m => decide (m ≠ n)),
        is_candidate lev target m = false) →
      find_file lev t target = some n
  | .mk a ft h d p children, hn, hbefore => by
    rw [visit_order_mk] at hn hbefore
    rw [find_file]
    by_cases hc : n ∈ children
    · rw [find_first (is_candidate lev target) n children hc hcand
        (fun m hm => hbefore m (mem_takeWhile_append_left _ _ _ m hm))]
      simp only
      rw [if_neg hfile]
    · have hne : ∀ x ∈ children, decide (x ≠ n) = true := by
        intro x hx
        have : x ≠ n := fun e => hc (e ▸ hx)
        simpa using this
      rw [takeWhile_append_all _ _ _ hne] at hbefore
      have hf : children.find? (is_candidate lev target) = none := by
        rw [List.find?_eq_none]
        intro x hx
        rw [hbefore x (List.mem_append_left _ hx)]
        decide
      rw [hf]
      refine find_file_in_directories_first lev target n hfile hcand children ?_
        (fun m hm => hbefore m (List.mem_append_right _ hm))
      rcases List.mem_append.1 hn with e | e
      · exact absurd e hc
      · exact e
theorem find_file_in_directories_first (lev : String → String → Nat) (target : String)
    (n : disk_object) (hfile : n.file_type ≠ .DIRECTORY)
    (hcand : is_candidate lev target n = true) :
    ∀ l : List disk_object, n ∈ disk_object.visit_order_directories l →
      (∀ m ∈ (disk_object.visit_order_directories l).takeWhile (fun m => decide (m ≠ n)),
        is_candidate lev target m = false) →
      find_file_in_directories lev l target = some n
  | [], hn, _ => by
    rw [disk_object.visit_order_directories] at hn
    cases hn
  | entry :: rest, hn, hbefore => by
    rw [disk_object.visit_order_directories] at hn hbefore
    rw [find_file_in_directories]
    by_cases hdir : entry.file_type = .DIRECTORY
    · rw [if_pos hdir] at hn hbefore ⊢
      by_cases he : n ∈ entry.visit_order
      · rw [find_file_first lev target n hfile hcand entry he
          (fun m hm => hbefore m (mem_takeWhile_append_left _ _ _ m hm))]
      · have hne : ∀ x ∈ entry.visit_order, decide (x ≠ n) = true := by
          intro x hx
          have : x ≠ n := fun e => he (e ▸ hx)
          simpa using this
        rw [takeWhile_append_all _ _ _ hne] at hbefore
        rw [find_file_none lev target entry
          (fun m hm => hbefore m (List.mem_append_left _ hm))]
        refine find_file_in_directories_first lev target n hfile hcand rest ?_
          (fun m hm => hbefore m (List.mem_append_right _ hm))
        rcases List.mem_append.1 hn with e | e
        · exact absurd e he
        · exact e
    · rw [if_neg hdir] at hn hbefore ⊢
      simp only [List.nil_append] at hn hbefore
      exact find_file_in_directories_first lev target n hfile hcand rest hn hbefore
end

mutual
theorem mem_visit_order_of_mem_files (n : disk_object) :
    ∀ t : disk_object, n ∈ t.files → n ∈ t.visit_order
  | .mk a ft h d p children, hn => by
    rw [files_mk] at hn
    rw [visit_order_mk]
    exact mem_visit_order_of_mem_files_list n children hn
theorem mem_visit_order_of_mem_files_list (n : disk_object) :
    ∀ l : List disk_object, n ∈ disk_object.files_list l →
      n ∈ l ++ disk_object.visit_order_directories l
  | [], hn => by
    rw [disk_object.files_list] at hn
    cases hn
  | entry :: rest, hn => by
    rw [disk_object.files_list] at hn
    rw [disk_object.visit_order_directories]
    by_cases hdir : entry.file_type = .DIRECTORY
    · rw [if_pos hdir] at hn ⊢
      rcases List.mem_append.1 hn with e | e
      · have := mem_visit_order_of_mem_files n entry e
        simp only [List.cons_append, List.mem_cons, List.mem_append]
        exact Or.inr (Or.inr (Or.inl this))
      · have := mem_visit_order_of_mem_files_list n rest e
        simp only [List.cons_append, List.mem_cons, List.mem_append] at this ⊢
        rcases this with e1 | e1
        · exact Or.inr (Or.inl e1)
        · exact Or.inr (Or.inr (Or.inr e1))
    · rw [if_neg hdir] at hn ⊢
      rcases List.mem_cons.1 hn with e | e
      · simp only [List.cons_append, List.mem_cons]
        exact Or.inl e
      · have := mem_visit_order_of_mem_files_list n rest e
        simp only [List.cons_append, List.mem_cons, List.mem_append, List.nil_append] at this ⊢
        rcases this with e1 | e1
        · exact Or.inr (Or.inl e1)
        · exact Or.inr (Or.inr e1)
end

/-- C7 (as amended). Exact-path lookup. In a tree in which only directories have
children, let `n` be a node that is no directory and whose path, without the extension
for page-like files, is `source/` followed by `target` (a non-empty text that does not
end with a slash). Then `n` passes the candidate test of `find_file` for `target` and
is among the nodes that `find_file` tests, and if none of the nodes tested before `n`
passes the test, `find_file` called on the root with `target` returns `n` itself,
whatever nodes are tested after it. -/
theorem find_file_exact_path (root n : disk_object) (target : String)
    (hleaves : files_are_leaves root)
    (hn : n ∈ root.descendants) (hfile : n.file_type ≠ .DIRECTORY)
    (hpath : check_path n = "source/" ++ target) (hne : target.data ≠ [])
    (hlast : target.data.getLast? ≠ some '/')
    (hbefore : ∀ m ∈ visited_before root n,
      is_candidate levenshtein_distance target m = false) :
    is_candidate levenshtein_distance target n = true ∧
    n ∈ root.visit_order ∧
    find_file levenshtein_distance root target = some n :=
  have hv : n ∈ root.visit_order :=
    mem_visit_order_of_mem_files n root (mem_files_of_mem_descendants n hfile root hleaves hn)
  ⟨is_candidate_own_path n target hpath hne hlast, hv,
    find_file_first levenshtein_distance target n hfile
      (is_candidate_own_path n target hpath hne hlast) root hv hbefore⟩

theorem find_file_exact_path_witness :
    files_are_leaves later_candidate_tree ∧ file_b_c ∈ later_candidate_tree.descendants ∧
    file_b_c.file_type ≠ .DIRECTORY ∧ check_path file_b_c = "source/" ++ "b/c" ∧
    "b/c".data ≠ [] ∧ "b/c".data.getLast? ≠ some '/' ∧
    (∀ m ∈ visited_before later_candidate_tree file_b_c,
      is_candidate levenshtein_distance "b/c" m = false) ∧
    (file_z_b_c ∈ later_candidate_tree.descendants ∧
      is_candidate levenshtein_distance "b/c" file_z_b_c = true) ∧
    is_candidate levenshtein_distance "b/c" file_b_c = true ∧
    file_b_c ∈ later_candidate_tree.visit_order ∧
    find_file levenshtein_distance later_candidate_tree "b/c" = some file_b_c :=
  ⟨by unfold files_are_leaves; decide!, by decide!, by decide, by decide!, by decide,
    by decide, by decide!, by decide!,
    find_file_exact_path later_candidate_tree file_b_c "b/c"
      (by unfold files_are_leaves; decide!) (by decide!) (by decide) (by decide!)
      (by decide) (by decide) (by decide!)⟩

/-! ### Raw blocks against their token-by-token specification -/

theorem balance_after_succ (len base : Int) (rest : List Lexer_Token) (n : Nat) :
    balance_after len base rest (n + 1) =
      balance_after len base rest n + brace_step len base rest n := by
  simp only [balance_after, List.range_succ, List.map_append, List.map_cons, List.map_nil,
    List.sum_append, List.sum_cons, List.sum_nil]
  omega

theorem raw_text_succ (len base : Int) (rest : List Lexer_Token) (n : Nat) :
    (raw_text len base rest (n + 1)).data =
      (raw_text len base rest n).data ++ (raw_piece len base rest n).data := by
  simp [raw_text, List.range_succ]

theorem kind_at_append (pre : List Lexer_Token) (c : Lexer_Token) (cs : List Lexer_Token) :
    kind_at (pre ++ c :: cs) pre.length = some c.ast_type := by
  rw [kind_at, List.getElem?_append_right (Nat.le_refl _)]
  simp

theorem kind_at_append_succ (pre : List Lexer_Token) (c : Lexer_Token)
    (cs : List Lexer_Token) :
    kind_at (pre ++ c :: cs) (pre.length + 1) = cs.head?.map (fun t => t.ast_type) := by
  have h : pre ++ c :: cs = (pre ++ [c]) ++ cs := by simp
  rw [kind_at, h, List.getElem?_append_right (by simp)]
  cases cs <;> simp

theorem field_at_append (pre : List Lexer_Token) (c : Lexer_Token) (cs : List Lexer_Token) :
    field_at (pre ++ c :: cs) pre.length = c.field := by
  rw [field_at, List.getElem?_append_right (Nat.le_refl _)]
  simp

theorem kind_at_past (rest : List Lexer_Token) (m : Nat) (h : rest.length ≤ m) :
    kind_at rest m = none := by
  simp [kind_at, List.getElem?_eq_none h]

theorem balance_after_past (len base : Int) (rest : List Lexer_Token) (k : Nat) :
    balance_after len base rest (rest.length + k) = balance_after len base rest rest.length := by
  induction k with
  | zero => rfl
  | succ k ih =>
    rw [← Nat.add_assoc, balance_after_succ, ih]
    simp [brace_step, kind_at_past rest (rest.length + k) (Nat.le_add_right _ _)]

theorem raw_block_loop_spec (len base : Int) (rest : List Lexer_Token) :
    ∀ (suf pre : List Lexer_Token) (st : Raw_State),
    rest = pre ++ suf →
    st.brace_balance = balance_after len base rest pre.length →
    1 ≤ st.brace_balance →
    st.is_escaped = escaped_at len base rest pre.length →
    st.buffer.data = (raw_text len base rest pre.length).data →
    (∀ m < pre.length, ¬ ends_block len base rest m) →
    ∃ n, (raw_block_loop false len base suf pre.length st).1.data =
          (raw_text len base rest n).data ∧
      (((raw_block_loop false len base suf pre.length st).2 = some (n + 1) ∧
          ends_block len base rest n ∧ ∀ m < n, ¬ ends_block len base rest m) ∨
        ((raw_block_loop false len base suf pre.length st).2 = none ∧
          n = rest.length ∧ ∀ m, ¬ ends_block len base rest m)) := by
  intro suf
  induction suf with
  | nil =>
    intro pre st hrest hbal hpos hesc hbuf hbefore
    have hlen : rest.length = pre.length := by rw [hrest]; simp
    refine ⟨pre.length, by simpa [raw_block_loop] using hbuf,
      Or.inr ⟨by simp [raw_block_loop], hlen.symm, ?_⟩⟩
    intro m hm
    by_cases hlt : m < pre.length
    · exact hbefore m hlt hm
    · have hle : rest.length ≤ m := by omega
      rcases hm with hm | hm
      · rw [kind_at_past rest m hle] at hm
        cases hm
      · have h := balance_after_past len base rest (m + 1 - rest.length)
        rw [show rest.length + (m + 1 - rest.length) = m + 1 by omega, hlen, ← hbal] at h
        omega
  | cons c cs ih =>
    intro pre st hrest hbal hpos hesc hbuf hbefore
    have hk : kind_at rest pre.length = some c.ast_type := by
      rw [hrest]; exact kind_at_append pre c cs
    have hk1 : kind_at rest (pre.length + 1) = cs.head?.map (fun t => t.ast_type) := by
      rw [hrest]; exact kind_at_append_succ pre c cs
    have hf : field_at rest pre.length = c.field := by
      rw [hrest]; exact field_at_append pre c cs
    have step : ∀ st' : Raw_State,
        raw_block_loop false len base (c :: cs) pre.length st =
          raw_block_loop false len base cs (pre.length + 1) st' →
        st'.brace_balance = balance_after len base rest (pre.length + 1) →
        1 ≤ st'.brace_balance →
        st'.is_escaped = escaped_at len base rest (pre.length + 1) →
        st'.buffer.data = (raw_text len base rest (pre.length + 1)).data →
        ¬ ends_block len base rest pre.length →
        ∃ n, (raw_block_loop false len base (c :: cs) pre.length st).1.data =
              (raw_text len base rest n).data ∧
          (((raw_block_loop false len base (c :: cs) pre.length st).2 = some (n + 1) ∧
              ends_block len base rest n ∧ ∀ m < n, ¬ ends_block len base rest m) ∨
            ((raw_block_loop false len base (c :: cs) pre.length st).2 = none ∧
              n = rest.length ∧ ∀ m, ¬ ends_block len base rest m)) := by
      intro st' heq h1 h2 h3 h4 h5
      rw [heq]
      have hl : (pre ++ [c]).length = pre.length + 1 := by simp
      have := ih (pre ++ [c]) st' (by rw [hrest]; simp) (by rw [hl]; exact h1) h2
        (by rw [hl]; exact h3) (by rw [hl]; exact h4) (by
          intro m hm
          rw [hl] at hm
          by_cases hlt : m < pre.length
          · exact hbefore m hlt
          · have : m = pre.length := by omega
            rw [this]; exact h5)
      rw [hl] at this
      exact this
    have stop : raw_block_loop false len base (c :: cs) pre.length st =
          (st.buffer, some (pre.length + 1)) →
        ends_block len base rest pre.length →
        ∃ n, (raw_block_loop false len base (c :: cs) pre.length st).1.data =
              (raw_text len base rest n).data ∧
          (((raw_block_loop false len base (c :: cs) pre.length st).2 = some (n + 1) ∧
              ends_block len base rest n ∧ ∀ m < n, ¬ ends_block len base rest m) ∨
            ((raw_block_loop false len base (c :: cs) pre.length st).2 = none ∧
              n = rest.length ∧ ∀ m, ¬ ends_block len base rest m)) := by
      intro heq hend
      rw [heq]
      exact ⟨pre.length, hbuf, Or.inl ⟨rfl, hend, hbefore⟩⟩
    by_cases h1 : c.ast_type = .ESCAPE
    · have hstep : brace_step len base rest pre.length = 0 := by
        simp [brace_step, hk, h1]
      refine step { st with is_escaped := true }
        (by simp only [raw_block_loop, if_pos h1]) ?_ hpos ?_ ?_ ?_
      · rw [balance_after_succ, hstep]; simpa using hbal
      · rw [escaped_at, if_pos (by rw [hk, h1])]
      · rw [raw_text_succ, raw_piece, if_pos (by rw [hk, h1])]; simpa using hbuf
      · rintro (h | h)
        · rw [hk, h1] at h; cases h
        · rw [balance_after_succ, hstep, ← hbal] at h; omega
    have hne1 : ¬ kind_at rest pre.length = some .ESCAPE := by
      rw [hk]; intro h; exact h1 (Option.some.inj h)
    by_cases h2 : ¬ (false = true) ∧ c.ast_type = .ANGLE_OPEN
    · have hstep : brace_step len base rest pre.length = 0 := by
        simp [brace_step, hk, h2.2]
      have hent : is_entity len base rest pre.length = true := by
        simp [is_entity, hk, h2.2]
      refine step { st with buffer := st.buffer ++ "&lt;" }
        (by simp only [raw_block_loop, if_neg h1, if_pos h2]) ?_ hpos ?_ ?_ ?_
      · rw [balance_after_succ, hstep]; simpa using hbal
      · rw [escaped_at, if_neg hne1, if_pos hent]; exact hesc
      · rw [raw_text_succ, raw_piece, if_neg hne1, if_pos (by rw [hk, h2.2])]
        simp [hbuf]
      · rintro (h | h)
        · rw [hk, h2.2] at h; cases h
        · rw [balance_after_succ, hstep, ← hbal] at h; omega
    have h2' : c.ast_type ≠ .ANGLE_OPEN := fun h => h2 ⟨by decide, h⟩
    have hne2 : ¬ kind_at rest pre.length = some .ANGLE_OPEN := by
      rw [hk]; intro h; exact h2' (Option.some.inj h)
    by_cases h3 : ¬ (false = true) ∧ c.ast_type = .ANGLE_CLOSE
    · have hstep : brace_step len base rest pre.length = 0 := by
        simp [brace_step, hk, h3.2]
      have hent : is_entity len base rest pre.length = true := by
        simp [is_entity, hk, h3.2]
      refine step { st with buffer := st.buffer ++ "&gt;" }
        (by simp only [raw_block_loop, if_neg h1, if_neg h2, if_pos h3]) ?_ hpos ?_ ?_ ?_
      · rw [balance_after_succ, hstep]; simpa using hbal
      · rw [escaped_at, if_neg hne1, if_pos hent]; exact hesc
      · rw [raw_text_succ, raw_piece, if_neg hne1, if_neg hne2, if_pos (by rw [hk, h3.2])]
        simp [hbuf]
      · rintro (h | h)
        · rw [hk, h3.2] at h; cases h
        · rw [balance_after_succ, hstep, ← hbal] at h; omega
    have h3' : c.ast_type ≠ .ANGLE_CLOSE := fun h => h3 ⟨by decide, h⟩
    have hne3 : ¬ kind_at rest pre.length = some .ANGLE_CLOSE := by
      rw [hk]; intro h; exact h3' (Option.some.inj h)
    by_cases h4 : ¬ (false = true) ∧ c.ast_type = .AMPERSAND ∧
        len - 1 > base + pre.length + 1 ∧ (cs.head?.map (fun t => t.ast_type)) ≠ some .WORD
    · have hstep : brace_step len base rest pre.length = 0 := by
        simp [brace_step, hk, h4.2.1]
      have hent : is_entity len base rest pre.length = true := by
        simp only [is_entity, hk, hk1, Bool.or_eq_true, decide_eq_true_eq]
        exact Or.inr ⟨by rw [h4.2.1], h4.2.2.1, h4.2.2.2⟩
      refine step { st with buffer := st.buffer ++ "&amp;" }
        (by simp only [raw_block_loop, if_neg h1, if_neg h2, if_neg h3, if_pos h4]) ?_ hpos
        ?_ ?_ ?_
      · rw [balance_after_succ, hstep]; simpa using hbal
      · rw [escaped_at, if_neg hne1, if_pos hent]; exact hesc
      · rw [raw_text_succ, raw_piece, if_neg hne1, if_neg hne2, if_neg hne3, if_pos hent]
        simp [hbuf]
      · rintro (h | h)
        · rw [hk, h4.2.1] at h; cases h
        · rw [balance_after_succ, hstep, ← hbal] at h; omega
    have hent : ¬ is_entity len base rest pre.length = true := by
      simp only [is_entity, hk, hk1, Bool.or_eq_true, decide_eq_true_eq, Option.some.injEq]
      rintro ((h | h) | h)
      · exact h2' h
      · exact h3' h
      · exact h4 ⟨by decide, h⟩
    have hstep : (if c.ast_type = .BRACE_OPEN ∧ ¬ st.is_escaped then st.brace_balance + 1
        else if c.ast_type = .BRACE_CLOSE ∧ ¬ st.is_escaped then st.brace_balance - 1
        else st.brace_balance) = balance_after len base rest (pre.length + 1) := by
      rw [balance_after_succ, ← hbal, brace_step, hk, ← hesc]
      simp only [Option.some.injEq, Bool.not_eq_true]
      split_ifs <;> omega
    by_cases h5 : c.ast_type = .EOF
    · exact stop (by simp only [raw_block_loop, if_neg h1, if_neg h2, if_neg h3, if_neg h4,
        if_pos h5]) (Or.inl (by rw [hk, h5]))
    by_cases h6 : (if c.ast_type = .BRACE_OPEN ∧ ¬ st.is_escaped then st.brace_balance + 1
        else if c.ast_type = .BRACE_CLOSE ∧ ¬ st.is_escaped then st.brace_balance - 1
        else st.brace_balance) ≤ 0
    · exact stop (by simp only [raw_block_loop, if_neg h1, if_neg h2, if_neg h3, if_neg h4,
        if_neg h5, if_pos h6]) (Or.inr (by rw [← hstep]; exact h6))
    · refine step ⟨st.buffer ++ c.field,
          (if c.ast_type = .BRACE_OPEN ∧ ¬ st.is_escaped then st.brace_balance + 1
            else if c.ast_type = .BRACE_CLOSE ∧ ¬ st.is_escaped then st.brace_balance - 1
            else st.brace_balance), false⟩
        (by simp only [raw_block_loop, if_neg h1, if_neg h2, if_neg h3, if_neg h4,
          if_neg h5, if_neg h6]) hstep (by have h := Int.not_le.1 h6; dsimp only; omega) ?_ ?_ ?_
      · rw [escaped_at, if_neg hne1, if_neg hent]
      · rw [raw_text_succ, raw_piece, if_neg hne1, if_neg hne2, if_neg hne3, if_neg hent, hf]
        simp [hbuf]
      · rintro (h | h)
        · rw [hk] at h; exact h5 (Option.some.inj h)
        · rw [← hstep] at h; exact h6 h

theorem raw_piece_no_angle (len base : Int) (rest : List Lexer_Token)
    (hangle : angles_only_in_angle_tokens rest) (i : Nat) :
    no_angle (raw_piece len base rest i) := by
  unfold raw_piece
  split_ifs with h1 h2 h3 h4
  · exact ⟨by decide, by decide⟩
  · exact ⟨by decide, by decide⟩
  · exact ⟨by decide, by decide⟩
  · exact ⟨by decide, by decide⟩
  · unfold field_at
    unfold kind_at at h2 h3
    cases hi : rest[i]? with
    | none => exact ⟨by decide, by decide⟩
    | some t =>
      rw [hi] at h2 h3
      exact hangle t (List.mem_iff_getElem?.2 ⟨i, hi⟩) (fun h => h2 (by simp [h]))
        (fun h => h3 (by simp [h]))

theorem raw_text_no_angle (len base : Int) (rest : List Lexer_Token)
    (hangle : angles_only_in_angle_tokens rest) (n : Nat) :
    no_angle (raw_text len base rest n) := by
  induction n with
  | zero => exact ⟨by simp [raw_text], by simp [raw_text]⟩
  | succ n ih =>
    have hp := raw_piece_no_angle len base rest hangle n
    unfold no_angle at *
    rw [raw_text_succ]
    simp only [List.mem_append, not_or]
    exact ⟨⟨ih.1, hp.1⟩, ⟨ih.2, hp.2⟩⟩

theorem reindent_text_no_angle (s : String) (h : no_angle s) : no_angle (reindent_text s) :=
  ⟨fun hm => h.1 (mem_reindent_chars s.data '<' (by decide) hm),
    fun hm => h.2 (mem_reindent_chars s.data '>' (by decide) hm)⟩

theorem skeleton_reindent_raw_text (len base : Int) (rest : List Lexer_Token) (n : Nat) :
    skeleton (reindent_text (raw_text len base rest n)).data =
      ((List.range n).map (fun i => skeleton (raw_piece len base rest i).data)).flatten := by
  show skeleton (reindent_chars _) = _
  rw [skeleton_reindent_chars]
  induction n with
  | zero => simp [raw_text, skeleton]
  | succ n ih =>
    rw [raw_text_succ, skeleton_append, ih]
    simp [List.range_succ]

/-- C9. Raw-mode escaping. For a stream in which only `ANGLE_OPEN` and `ANGLE_CLOSE`
tokens carry `<` and `>`, `parse_raw_block` with `intact_html = false` returns a `RAW`
node whose text holds neither `<` nor `>`. The block is fixed by the stream: it is
made of the `n` tokens before the first token that ends it (the `EOF` token, or the
token with which the brace balance is no longer positive), and the parser then stands
behind that token; when no token ends it, the block is the whole rest of the stream
and the parser does not move. The text is the re-indented sequence of the pieces of
these `n` tokens, so up to blank characters it is these pieces in order: nothing for
an `ESCAPE`, `&lt;` for every `ANGLE_OPEN` and `&gt;` for every `ANGLE_CLOSE`, whether
or not an `ESCAPE` token precedes it, `&amp;` for a bare `AMPERSAND`, and the text of
the token itself otherwise. -/
theorem parse_raw_block_escapes (p : Parser)
    (hidx : 0 ≤ p.index ∧ p.index ≤ p.stream.length)
    (hangle : angles_only_in_angle_tokens p.stream) :
    ∃ n text,
      (ends_block p.stream.length p.index (p.stream.drop p.index.toNat) n ∧
          (∀ m < n, ¬ ends_block p.stream.length p.index (p.stream.drop p.index.toNat) m) ∧
          parse_raw_block false p =
            .ok (AST_Data.Base .RAW position.zero text [])
              { p with index := p.index + n + 1 } ∨
        (∀ m, ¬ ends_block p.stream.length p.index (p.stream.drop p.index.toNat) m) ∧
          n = (p.stream.drop p.index.toNat).length ∧
          parse_raw_block false p = .ok (AST_Data.Base .RAW position.zero text []) p) ∧
      text = reindent_text
        (raw_text p.stream.length p.index (p.stream.drop p.index.toNat) n) ∧
      skeleton text.data =
        ((List.range n).map (fun i => skeleton
          (raw_piece p.stream.length p.index (p.stream.drop p.index.toNat) i).data)).flatten ∧
      (∀ i < n,
        (kind_at (p.stream.drop p.index.toNat) i = some .ANGLE_OPEN →
          raw_piece p.stream.length p.index (p.stream.drop p.index.toNat) i = "&lt;") ∧
        (kind_at (p.stream.drop p.index.toNat) i = some .ANGLE_CLOSE →
          raw_piece p.stream.length p.index (p.stream.drop p.index.toNat) i = "&gt;")) ∧
      no_angle text := by
  obtain ⟨n, htext, hend⟩ :=
    raw_block_loop_spec p.stream.length p.index (p.stream.drop p.index.toNat)
      (p.stream.drop p.index.toNat) [] ⟨"", 1, false⟩ rfl
      (by simp [balance_after]) (by decide) rfl (by simp [raw_text])
      (fun m hm => absurd hm (Nat.not_lt_zero m))
  have hbuf : (raw_block_loop false p.stream.length p.index (p.stream.drop p.index.toNat) 0
      ⟨"", 1, false⟩).1 = raw_text p.stream.length p.index (p.stream.drop p.index.toNat) n :=
    String.ext htext
  have hrest : stream_rest p = .ok (p.stream.drop p.index.toNat) p := by
    unfold stream_rest
    rw [if_neg]
    intro h
    rcases h with h | h <;> omega
  have hdrop : angles_only_in_angle_tokens (p.stream.drop p.index.toNat) :=
    fun t ht => hangle t (List.mem_of_mem_drop ht)
  refine ⟨n, reindent_text
    (raw_text p.stream.length p.index (p.stream.drop p.index.toNat) n), ?_, rfl,
    skeleton_reindent_raw_text _ _ _ n, ?_,
    reindent_text_no_angle _ (raw_text_no_angle _ _ _ hdrop n)⟩
  · rcases hend with ⟨hm, he, hfirst⟩ | ⟨hm, hn, hnone⟩
    · refine Or.inl ⟨he, hfirst, ?_⟩
      unfold parse_raw_block
      simp only [bind, hrest]
      rw [show raw_block_loop false p.stream.length p.index (p.stream.drop p.index.toNat) 0
          ⟨"", 1, false⟩ =
            (raw_text p.stream.length p.index (p.stream.drop p.index.toNat) n, some (n + 1))
          from Prod.ext hbuf hm]
      show Res.ok _ { p with index := p.index + ((n + 1 : Nat) : Int) } = _
      rw [show p.index + ((n + 1 : Nat) : Int) = p.index + n + 1 by push_cast; omega]
    · refine Or.inr ⟨hnone, hn, ?_⟩
      unfold parse_raw_block
      simp only [bind, hrest]
      rw [show raw_block_loop false p.stream.length p.index (p.stream.drop p.index.toNat) 0
          ⟨"", 1, false⟩ =
            (raw_text p.stream.length p.index (p.stream.drop p.index.toNat) n, none)
          from Prod.ext hbuf hm]
      rfl
  · intro i _
    constructor
    · intro h
      rw [raw_piece, if_neg (by rw [h]; decide), if_pos h]
    · intro h
      rw [raw_piece, if_neg (by rw [h]; decide), if_neg (by rw [h]; decide), if_pos h]

theorem parse_raw_block_escapes_witness :
    ((0 ≤ raw_escape_block_start.index ∧
        raw_escape_block_start.index ≤ raw_escape_block_start.stream.length) ∧
      angles_only_in_angle_tokens raw_escape_block_start.stream ∧
      kind_at (raw_escape_block_start.stream.drop raw_escape_block_start.index.toNat) 1 =
        some .ESCAPE ∧
      kind_at (raw_escape_block_start.stream.drop raw_escape_block_start.index.toNat) 2 =
        some .ANGLE_OPEN ∧
      ends_block raw_escape_block_start.stream.length raw_escape_block_start.index
        (raw_escape_block_start.stream.drop raw_escape_block_start.index.toNat) 5 ∧
      parse_raw_block false raw_escape_block_start =
        .ok (AST_Data.Base .RAW position.zero "&lt;\x7dy" [])
          { raw_escape_block_start with index := 11 }) ∧
    ∃ n text,
      (ends_block raw_escape_block_start.stream.length raw_escape_block_start.index
            (raw_escape_block_start.stream.drop raw_escape_block_start.index.toNat) n ∧
          (∀ m < n, ¬ ends_block raw_escape_block_start.stream.length
            raw_escape_block_start.index
            (raw_escape_block_start.stream.drop raw_escape_block_start.index.toNat) m) ∧
          parse_raw_block false raw_escape_block_start =
            .ok (AST_Data.Base .RAW position.zero text [])
              { raw_escape_block_start with index := raw_escape_block_start.index + n + 1 } ∨
        (∀ m, ¬ ends_block raw_escape_block_start.stream.length raw_escape_block_start.index
            (raw_escape_block_start.stream.drop raw_escape_block_start.index.toNat) m) ∧
          n = (raw_escape_block_start.stream.drop raw_escape_block_start.index.toNat).length ∧
          parse_raw_block false raw_escape_block_start =
            .ok (AST_Data.Base .RAW position.zero text []) raw_escape_block_start) ∧
      text = reindent_text
        (raw_text raw_escape_block_start.stream.length raw_escape_block_start.index
          (raw_escape_block_start.stream.drop raw_escape_block_start.index.toNat) n) ∧
      skeleton text.data =
        ((List.range n).map (fun i => skeleton
          (raw_piece raw_escape_block_start.stream.length raw_escape_block_start.index
            (raw_escape_block_start.stream.drop
              raw_escape_block_start.index.toNat) i).data)).flatten ∧
      (∀ i < n,
        (kind_at (raw_escape_block_start.stream.drop raw_escape_block_start.index.toNat) i =
            some .ANGLE_OPEN →
          raw_piece raw_escape_block_start.stream.length raw_escape_block_start.index
            (raw_escape_block_start.stream.drop raw_escape_block_start.index.toNat) i =
              "&lt;") ∧
        (kind_at (raw_escape_block_start.stream.drop raw_escape_block_start.index.toNat) i =
            some .ANGLE_CLOSE →
          raw_piece raw_escape_block_start.stream.length raw_escape_block_start.index
            (raw_escape_block_start.stream.drop raw_escape_block_start.index.toNat) i =
              "&gt;")) ∧
      no_angle text :=
  ⟨⟨by decide, by simp only [angles_only_in_angle_tokens, no_angle]; decide!, by decide!,
      by decide!, by unfold ends_block; decide!, by decide!⟩,
    parse_raw_block_escapes raw_escape_block_start (by decide)
      (by simp only [angles_only_in_angle_tokens, no_angle]; decide!)⟩

end Spindle
